import Mathlib

/-!
# RV32I+M emulator (`EmulatorU.cpp`, `EmulatorU.h`)

Shallow embedding of the classes `RiscV` and `RiscV_RV32I`.

Conventions of the embedding.

* `unsigned long`, `long` and `int` are 32 bits wide (C++Builder on Windows).  A value of
  any of these types is represented by its 32-bit pattern, a natural number below `2 ^ 32`;
  `-1` is the pattern `0xFFFFFFFF`.  Signed readings go through `toSigned`, conversions
  back to `unsigned long` through `ofInt`.  Arithmetic is computed exactly and then
  reduced modulo `2 ^ 32`.
* `FpMemory` is a raw pointer into the memory of the host process.  The host memory is the
  field `host` (a byte for every host address), `FpMemory` is a host address, `0` is `NULL`,
  and the guest byte at guest address `a` is the host byte at `FpMemory + a`.
  A byte cell is read modulo `256`.
* A shift `x << n` or `x >> n` of a 32-bit operand has no defined value in C++ when
  `n ≥ 32`.  The program is built for x86, whose shift instructions use the low 5 bits of
  the count; the embedding takes the count of such a shift modulo `32`.
* A C++ exception is an `Outcome.raised` carrying the state of the object at the moment of
  the `throw`.
* The decoded fields `Fimm`, `Ffunct`, `Frs1`, `Frs2`, `Frd`, `Fopcode` are written by a
  decoder and read by the executor that is called right after it; they are passed as a
  `Decoded` record.
-/

namespace RiscV

/-- Number of distinct values of a 32-bit integer type. -/
def W : Nat := 4294967296

/-- Value of a 32-bit pattern read as a signed `long` (the cast `(long)x`). -/
def toSigned (x : Nat) : Int :=
  if x < 2147483648 then (x : Int) else (x : Int) - 4294967296

/-- Conversion of an exact integer result to `unsigned long`: reduction modulo `2 ^ 32`. -/
def ofInt (i : Int) : Nat := (i % 4294967296).toNat

/-- Value of a byte read through `char *` (plain `char` is signed). -/
def charVal (b : Nat) : Int := if b < 128 then (b : Int) else (b : Int) - 256

/-- Value of a 16-bit pattern read through `short *`. -/
def shortVal (h : Nat) : Int := if h < 32768 then (h : Int) else (h : Int) - 65536

/-- Register names of `enum RegAbi` used by the code. -/
abbrev sp : Nat := 2

/-- Exceptions thrown by the emulator, named after the error kinds of the specification.
The messages of the source are: `NotLoaded` "Program non loaded", `SegmentationFault`
"Segmentation fault", `TextSegmentWrite` "Access to .text segment", `IllegalOpcode`
"Illegal instruction at PC ...", `IllegalFunction` "... Illegal funct ...",
`InvalidTarget` "Invalid offset". -/
inductive Fault where
  | NotLoaded
  | SegmentationFault
  | TextSegmentWrite
  | IllegalOpcode
  | IllegalFunction
  | InvalidTarget
  deriving DecidableEq, Repr

/-- Data members of `class RiscV`, together with the host memory its pointer refers to. -/
structure State where
  /-- Bytes of the host process, by host address. -/
  host : Nat → Nat
  /-- Pointer to the guest memory (`char *FpMemory`), `0` is `NULL`. -/
  FpMemory : Nat
  /-- Declared size of the guest memory. -/
  FcMemory : Nat
  /-- Start of the text segment. -/
  FminText : Nat
  /-- End (exclusive) of the text segment. -/
  FmaxText : Nat
  /-- Program counter. -/
  FPC : Nat
  /-- Register array `FReg[32]`, by index. -/
  FReg : Nat → Nat

/-- Result of a call that may throw: normal return, or an exception together with the
state the object was left in. -/
inductive Outcome where
  | ok (s : State)
  | raised (e : Fault) (s : State)

/-- State of the object after the call, whether it returned or threw. -/
def Outcome.state : Outcome → State
  | .ok s => s
  | .raised _ s => s

/-- Exception thrown by the call, `none` when it returned normally. -/
def Outcome.fault : Outcome → Option Fault
  | .ok _ => none
  | .raised e _ => some e

/-- Byte at host address `p`. -/
def read8 (host : Nat → Nat) (p : Nat) : Nat := host p % 256

/-- Little-endian halfword at host address `p` (`*(unsigned short *)p`). -/
def read16 (host : Nat → Nat) (p : Nat) : Nat :=
  read8 host p + 256 * read8 host (p + 1)

/-- Little-endian word at host address `p` (`*(unsigned long *)p`). -/
def read32 (host : Nat → Nat) (p : Nat) : Nat :=
  read8 host p + 256 * read8 host (p + 1) + 65536 * read8 host (p + 2)
    + 16777216 * read8 host (p + 3)

/-- Store of the low byte of `v` at host address `p` (`*p = (char)v`). -/
def write8 (host : Nat → Nat) (p v : Nat) : Nat → Nat :=
  fun q => if q = p then v % 256 else host q

/-- Store of the low halfword of `v` at `p`, little-endian (`*(short *)p = (short)v`). -/
def write16 (host : Nat → Nat) (p v : Nat) : Nat → Nat :=
  write8 (write8 host p v) (p + 1) (v / 256)

/-- Store of the word `v` at `p`, little-endian (`*(long *)p = (long)v`). -/
def write32 (host : Nat → Nat) (p v : Nat) : Nat → Nat :=
  write8 (write8 (write8 (write8 host p v) (p + 1) (v / 256)) (p + 2) (v / 65536))
    (p + 3) (v / 16777216)

/-- Guest byte at guest address `a`: the byte the pointer `FpMemory + a` refers to. -/
def byteAt (s : State) (a : Nat) : Nat := read8 s.host (s.FpMemory + a)

/-- Constructor `RiscV::RiscV()`.  It leaves `FPC` uninitialised: `pc` is the value the
member happens to hold. -/
def new (host : Nat → Nat) (pc : Nat) : State :=
  { host := host, FpMemory := 0, FcMemory := 0, FminText := 0, FmaxText := 0,
    FPC := pc, FReg := fun _ => 0 }

/-- Method `RiscV::getRegister`. -/
def getRegister (s : State) (AIndex : Nat) : Nat :=
  if AIndex = 0 then 0 else s.FReg AIndex

/-- Method `RiscV::setRegister`. -/
def setRegister (s : State) (AIndex : Nat) (AValue : Nat) : State :=
  if AIndex ≠ 0 then
    { s with FReg := fun i => if i = AIndex then AValue else s.FReg i }
  else s

/-- Method `RiscV::getInstruction`: the word at `FpMemory + PC`. -/
def getInstruction (s : State) : Nat := read32 s.host (s.FpMemory + s.FPC)

/-- Method `RiscV::getMemory`: the pointer `FpMemory + AAddress`, or an exception. -/
def getMemory (s : State) (AAddress : Nat) : Except Fault Nat :=
  if AAddress > s.FcMemory then .error .SegmentationFault
  else if AAddress ≥ s.FminText ∧ AAddress < s.FmaxText then .error .TextSegmentWrite
  else .ok (s.FpMemory + AAddress)

/-- Method `RiscV::Load`. -/
def Load (s : State) (ApMemory AcMemory AInitialPC AStackPointer ATextSegmentStart
    ATextSegmentEnd : Nat) : State :=
  setRegister
    { s with FpMemory := ApMemory, FcMemory := AcMemory, FminText := ATextSegmentStart,
             FmaxText := ATextSegmentEnd, FPC := AInitialPC }
    sp AStackPointer

/-- Method `RiscV::Reset`. -/
def Reset (s : State) (AInitialPC AStackPointer : Nat) : State :=
  setRegister { s with FReg := fun _ => 0, FPC := AInitialPC } sp AStackPointer

/-- Method `RiscV::GoTo`. -/
def GoTo (s : State) (APC : Nat) : Outcome :=
  if s.FpMemory = 0 ∨ s.FcMemory = 0 then .raised .NotLoaded s
  else if APC < s.FminText ∨ s.FPC ≥ s.FmaxText then .raised .InvalidTarget s
  else .ok { s with FPC := APC }

/-- Method `RiscV::Step`; `Process` is the virtual method of the object. -/
def Step (Process : State → Outcome) (s : State) : Outcome :=
  if s.FpMemory = 0 ∨ s.FcMemory = 0 then .raised .NotLoaded s
  else if s.FPC < s.FminText ∨ s.FPC ≥ s.FmaxText then .raised .SegmentationFault s
  else
    match Process s with
    | .ok s1 => .ok { s1 with FPC := (s1.FPC + 4) % W }
    | .raised e s1 => .raised e s1

/-- Method `RiscV::Process` of the base class: it always throws. -/
def Process (s : State) : Outcome := .raised .IllegalOpcode s

end RiscV

namespace RiscV_RV32I

open RiscV

/-! ### Enumerations of `class RiscV_RV32I` -/

/-- Values of `enum OpCodeType`. -/
abbrev R_type : Nat := 0x33
abbrev I_bits_type : Nat := 0x13
abbrev I_load_type : Nat := 0x03
abbrev S_type : Nat := 0x23
abbrev B_type : Nat := 0x63
abbrev lui : Nat := 0x37
abbrev auipc : Nat := 0x17
abbrev jal : Nat := 0x6f
abbrev jalr : Nat := 0x67
abbrev ecall_ebreak : Nat := 0x73
abbrev fence : Nat := 0x0f

/-- Values of `enum OpCode_R`, written as in the header. -/
abbrev R_add : Nat := 0x000 >>> 1 ||| 0x0
abbrev R_mul : Nat := 0x010 >>> 1 ||| 0x0
abbrev R_sub : Nat := 0x200 >>> 1 ||| 0x0
abbrev R_ssl : Nat := 0x000 >>> 1 ||| 0x1
abbrev R_mulh : Nat := 0x010 >>> 1 ||| 0x1
abbrev R_slt : Nat := 0x000 >>> 1 ||| 0x2
abbrev R_mulhsu : Nat := 0x010 >>> 1 ||| 0x2
abbrev R_sltu : Nat := 0x000 >>> 1 ||| 0x3
abbrev R_mulhu : Nat := 0x010 >>> 1 ||| 0x3
abbrev R_xor : Nat := 0x000 >>> 1 ||| 0x4
abbrev R_div : Nat := 0x010 >>> 1 ||| 0x4
abbrev R_srl : Nat := 0x000 >>> 1 ||| 0x5
abbrev R_divu : Nat := 0x010 >>> 1 ||| 0x5
abbrev R_sra : Nat := 0x200 >>> 1 ||| 0x5
abbrev R_or : Nat := 0x000 >>> 1 ||| 0x6
abbrev R_rem : Nat := 0x010 >>> 1 ||| 0x6
abbrev R_and : Nat := 0x000 >>> 1 ||| 0x7
abbrev R_remu : Nat := 0x010 >>> 1 ||| 0x7

/-- Values of `enum OpCode_I_load`. -/
abbrev I_lb : Nat := 0x0
abbrev I_lh : Nat := 0x1
abbrev I_lw : Nat := 0x2
abbrev I_lbu : Nat := 0x4
abbrev I_lhu : Nat := 0x5

/-- Values of `enum OpCode_I_bits`. -/
abbrev I_addi : Nat := 0x0
abbrev I_xori : Nat := 0x4
abbrev I_ori : Nat := 0x6
abbrev I_andi : Nat := 0x7
abbrev I_slli : Nat := 0x1
abbrev I_srli_srai : Nat := 0x5
abbrev I_slti : Nat := 0x2
abbrev I_sltiu : Nat := 0x3

/-- Values of `enum OpCode_S`. -/
abbrev S_sb : Nat := 0x0
abbrev S_sh : Nat := 0x1
abbrev S_sw : Nat := 0x2

/-- Values of `enum OpCode_B`. -/
abbrev B_beq : Nat := 0x0
abbrev B_bne : Nat := 0x1
abbrev B_blt : Nat := 0x4
abbrev B_bge : Nat := 0x5
abbrev B_bltu : Nat := 0x6
abbrev B_bgeu : Nat := 0x7

/-! ### Decoders -/

/-- Private members `Fimm`, `Ffunct`, `Frs1`, `Frs2`, `Frd`, `Fopcode` (all `int`, as
32-bit patterns). -/
structure Decoded where
  Fimm : Nat
  Ffunct : Nat
  Frs1 : Nat
  Frs2 : Nat
  Frd : Nat
  Fopcode : Nat
  deriving DecidableEq, Repr

/-- The value `-1` the decoders store in the fields their format does not define. -/
abbrev illegal : Nat := 0xFFFFFFFF

/-- Bit-field of `n` bits of the packed word `x` whose lowest bit is bit `lo`. -/
def field (x lo n : Nat) : Nat := (x >>> lo) % 2 ^ n

/-- Method `DecodeFunct_7`.  It does not assign `Fimm`, which `Execute_R` does not read;
the record holds `0` there. -/
def DecodeFunct_7 (s : State) : Decoded :=
  let i := getInstruction s
  { Fimm := 0
    Ffunct := (field i 25 7 <<< 3) ||| field i 12 3
    Frs1 := field i 15 5
    Frs2 := field i 20 5
    Frd := field i 7 5
    Fopcode := field i 0 7 }

/-- Method `DecodeImm_I`; `~0xFFF` is the pattern `0xFFFFF000`. -/
def DecodeImm_I (s : State) : Decoded :=
  let i := getInstruction s
  let imm := field i 20 12
  { Fimm := if imm &&& 0x800 ≠ 0 then imm ||| 0xFFFFF000 else imm
    Frs1 := field i 15 5
    Frs2 := illegal
    Ffunct := field i 12 3
    Frd := field i 7 5
    Fopcode := field i 0 7 }

/-- Method `DecodeImm_S`. -/
def DecodeImm_S (s : State) : Decoded :=
  let i := getInstruction s
  let imm := (field i 25 7 <<< 5) ||| field i 7 5
  { Fimm := if imm &&& 0x800 ≠ 0 then imm ||| 0xFFFFF000 else imm
    Frs1 := field i 15 5
    Frs2 := field i 20 5
    Ffunct := field i 12 3
    Frd := illegal
    Fopcode := field i 0 7 }

/-- Method `DecodeImm_B`; `~0x1FFF` is the pattern `0xFFFFE000`. -/
def DecodeImm_B (s : State) : Decoded :=
  let i := getInstruction s
  let imm := (field i 31 1 <<< 12) ||| (field i 7 1 <<< 11) ||| (field i 25 6 <<< 5)
    ||| (field i 8 4 <<< 1)
  { Fimm := if imm &&& 0x1000 ≠ 0 then imm ||| 0xFFFFE000 else imm
    Frs1 := field i 15 5
    Frs2 := field i 20 5
    Ffunct := field i 12 3
    Frd := illegal
    Fopcode := field i 0 7 }

/-- Method `DecodeImm_U`; `~0xFFFFF` is the pattern `0xFFF00000`. -/
def DecodeImm_U (s : State) : Decoded :=
  let i := getInstruction s
  let imm := field i 12 20
  { Fimm := if imm &&& 0x80000 ≠ 0 then imm ||| 0xFFF00000 else imm
    Frs1 := illegal
    Frs2 := illegal
    Ffunct := illegal
    Frd := field i 7 5
    Fopcode := field i 0 7 }

/-- Method `DecodeImm_J`; `~0x1FFFFF` is the pattern `0xFFE00000`. -/
def DecodeImm_J (s : State) : Decoded :=
  let i := getInstruction s
  let imm := (field i 31 1 <<< 20) ||| (field i 12 8 <<< 12) ||| (field i 20 1 <<< 11)
    ||| (field i 21 10 <<< 1)
  { Fimm := if imm &&& 0x100000 ≠ 0 then imm ||| 0xFFE00000 else imm
    Frs1 := illegal
    Frs2 := illegal
    Ffunct := illegal
    Frd := field i 7 5
    Fopcode := field i 0 7 }

/-! ### Executors -/

/-- Method `Execute_IllegalFunction`: it always throws. -/
def Execute_IllegalFunction (s : State) : Outcome := .raised .IllegalFunction s

/-- Method `Execute_R`.  The source shifts by `Reg[rs2]` without a mask; the count is
taken modulo 32, as the shift instructions of the processor do. -/
def Execute_R (d : Decoded) (s : State) : Outcome :=
  let a := getRegister s d.Frs1
  let b := getRegister s d.Frs2
  if d.Ffunct = R_add then .ok (setRegister s d.Frd (ofInt (toSigned a + toSigned b)))
  else if d.Ffunct = R_mul then .ok (setRegister s d.Frd (ofInt (toSigned a * toSigned b)))
  else if d.Ffunct = R_sub then .ok (setRegister s d.Frd (ofInt (toSigned a - toSigned b)))
  else if d.Ffunct = R_slt then
    .ok (setRegister s d.Frd (if toSigned a < toSigned b then 1 else 0))
  else if d.Ffunct = R_sltu then .ok (setRegister s d.Frd (if a < b then 1 else 0))
  else if d.Ffunct = R_and then .ok (setRegister s d.Frd (a &&& b))
  else if d.Ffunct = R_or then .ok (setRegister s d.Frd (a ||| b))
  else if d.Ffunct = R_xor then .ok (setRegister s d.Frd (a ^^^ b))
  else if d.Ffunct = R_ssl then .ok (setRegister s d.Frd ((a <<< (b % 32)) % W))
  else if d.Ffunct = R_srl then .ok (setRegister s d.Frd (a >>> (b % 32)))
  else if d.Ffunct = R_sra then .ok (setRegister s d.Frd (ofInt (toSigned a >>> (b % 32))))
  else if d.Ffunct = R_mulh then
    .ok (setRegister s d.Frd (ofInt ((toSigned a * toSigned b) >>> (32 : Nat))))
  else if d.Ffunct = R_mulhu then .ok (setRegister s d.Frd (((a * b) >>> 32) % W))
  else if d.Ffunct = R_mulhsu then
    .ok (setRegister s d.Frd
      (((((toSigned a % 18446744073709551616).toNat * b) % 18446744073709551616) >>> 32) % W))
  else if d.Ffunct = R_div then
    if b = 0 then .ok (setRegister s d.Frd 0xFFFFFFFF)
    else if a &&& 0x80000000 ≠ 0 ∧ toSigned b = -1 then .ok (setRegister s d.Frd a)
    else .ok (setRegister s d.Frd (ofInt (Int.tdiv (toSigned a) (toSigned b))))
  else if d.Ffunct = R_divu then
    if b = 0 then .ok (setRegister s d.Frd 0xFFFFFFFF)
    else .ok (setRegister s d.Frd (a / b))
  else if d.Ffunct = R_rem then
    if b = 0 then .ok (setRegister s d.Frd a)
    else if a &&& 0x80000000 ≠ 0 ∧ toSigned b = -1 then .ok (setRegister s d.Frd 0)
    else .ok (setRegister s d.Frd (ofInt (Int.tmod (toSigned a) (toSigned b))))
  else if d.Ffunct = R_remu then
    if b = 0 then .ok (setRegister s d.Frd a)
    else .ok (setRegister s d.Frd (a % b))
  else Execute_IllegalFunction s

/-- Method `Execute_I_bits`. -/
def Execute_I_bits (d : Decoded) (s : State) : Outcome :=
  let a := getRegister s d.Frs1
  let imm := d.Fimm
  if d.Ffunct = I_addi then .ok (setRegister s d.Frd ((a + imm) % W))
  else if d.Ffunct = I_xori then .ok (setRegister s d.Frd (a ^^^ imm))
  else if d.Ffunct = I_ori then .ok (setRegister s d.Frd (a ||| imm))
  else if d.Ffunct = I_andi then .ok (setRegister s d.Frd (a &&& imm))
  else if d.Ffunct = I_slli then .ok (setRegister s d.Frd ((a <<< (imm &&& 0x1F)) % W))
  else if d.Ffunct = I_srli_srai then
    if imm &&& 0xFE0 = 0x400 then
      .ok (setRegister s d.Frd (ofInt (toSigned a >>> (imm &&& 0x1F))))
    else if imm &&& 0xFE0 = 0 then .ok (setRegister s d.Frd (a >>> (imm &&& 0x1F)))
    else Execute_IllegalFunction s
  else if d.Ffunct = I_slti then
    .ok (setRegister s d.Frd (if toSigned a < toSigned imm then 1 else 0))
  else if d.Ffunct = I_sltiu then .ok (setRegister s d.Frd (if a < imm then 1 else 0))
  else Execute_IllegalFunction s

/-- Address expression `Reg[rs1] + imm` of the loads and stores, an `unsigned long`. -/
def effAddr (d : Decoded) (s : State) : Nat := (getRegister s d.Frs1 + d.Fimm) % W

/-- Method `Execute_I_load`.  `Memory[...]` is the property read by `getMemory`. -/
def Execute_I_load (d : Decoded) (s : State) : Outcome :=
  if d.Ffunct = I_lb then
    match getMemory s (effAddr d s) with
    | .error e => .raised e s
    | .ok p => .ok (setRegister s d.Frd (ofInt (charVal (read8 s.host p))))
  else if d.Ffunct = I_lh then
    match getMemory s (effAddr d s) with
    | .error e => .raised e s
    | .ok p => .ok (setRegister s d.Frd (ofInt (shortVal (read16 s.host p))))
  else if d.Ffunct = I_lw then
    match getMemory s (effAddr d s) with
    | .error e => .raised e s
    | .ok p => .ok (setRegister s d.Frd (read32 s.host p))
  else if d.Ffunct = I_lbu then
    match getMemory s (effAddr d s) with
    | .error e => .raised e s
    | .ok p => .ok (setRegister s d.Frd (read8 s.host p))
  else if d.Ffunct = I_lhu then
    match getMemory s (effAddr d s) with
    | .error e => .raised e s
    | .ok p => .ok (setRegister s d.Frd (read16 s.host p))
  else Execute_IllegalFunction s

/-- Method `Execute_S`. -/
def Execute_S (d : Decoded) (s : State) : Outcome :=
  if d.Ffunct = S_sb then
    match getMemory s (effAddr d s) with
    | .error e => .raised e s
    | .ok p => .ok { s with host := write8 s.host p (getRegister s d.Frs2) }
  else if d.Ffunct = S_sh then
    match getMemory s (effAddr d s) with
    | .error e => .raised e s
    | .ok p => .ok { s with host := write16 s.host p (getRegister s d.Frs2) }
  else if d.Ffunct = S_sw then
    match getMemory s (effAddr d s) with
    | .error e => .raised e s
    | .ok p => .ok { s with host := write32 s.host p (getRegister s d.Frs2) }
  else Execute_IllegalFunction s

/-- Effect of the statement `FPC += imm - sizeof(long)`. -/
def jumpRel (d : Decoded) (s : State) : State :=
  { s with FPC := (s.FPC + (d.Fimm + W - 4) % W) % W }

/-- Method `Execute_B`. -/
def Execute_B (d : Decoded) (s : State) : Outcome :=
  let a := getRegister s d.Frs1
  let b := getRegister s d.Frs2
  if d.Ffunct = B_beq then .ok (if a = b then jumpRel d s else s)
  else if d.Ffunct = B_bne then .ok (if a ≠ b then jumpRel d s else s)
  else if d.Ffunct = B_blt then .ok (if toSigned a < toSigned b then jumpRel d s else s)
  else if d.Ffunct = B_bge then .ok (if toSigned a ≥ toSigned b then jumpRel d s else s)
  else if d.Ffunct = B_bltu then .ok (if a < b then jumpRel d s else s)
  else if d.Ffunct = B_bgeu then .ok (if a ≥ b then jumpRel d s else s)
  else Execute_IllegalFunction s

/-- Method `Execute_lui`. -/
def Execute_lui (d : Decoded) (s : State) : Outcome :=
  .ok (setRegister s d.Frd ((d.Fimm <<< 12) % W))

/-- Method `Execute_auipc`. -/
def Execute_auipc (d : Decoded) (s : State) : Outcome :=
  .ok (setRegister s d.Frd ((s.FPC + (d.Fimm <<< 12) % W) % W))

/-- Method `Execute_jal`. -/
def Execute_jal (d : Decoded) (s : State) : Outcome :=
  .ok (jumpRel d (setRegister s d.Frd ((s.FPC + 4) % W)))

/-- Method `Execute_jalr`; `~0x1` is the pattern `0xFFFFFFFE`.  The second statement reads
`Reg[rs1]` after the first has assigned `Reg[rd]`. -/
def Execute_jalr (d : Decoded) (s : State) : Outcome :=
  if d.Ffunct ≠ 0 then Execute_IllegalFunction s
  else
    let s1 := setRegister s d.Frd ((s.FPC + 4) % W)
    .ok { s1 with
      FPC := ((ofInt (toSigned (getRegister s1 d.Frs1) + toSigned d.Fimm) &&& 0xFFFFFFFE)
        + W - 4) % W }

/-- Method `Execute_ecall_ebreak`. -/
def Execute_ecall_ebreak (s : State) : Outcome := .ok s

/-- Method `Execute_fence`. -/
def Execute_fence (s : State) : Outcome := .ok s

/-- Method `Decode`: `none` is `return false`; `some o` is the outcome of the executor
that was called, after which the method returns `true`. -/
def Decode (s : State) : Option Outcome :=
  let op := getInstruction s &&& 0x7F
  if op = R_type then some (Execute_R (DecodeFunct_7 s) s)
  else if op = I_bits_type then some (Execute_I_bits (DecodeImm_I s) s)
  else if op = I_load_type then some (Execute_I_load (DecodeImm_I s) s)
  else if op = S_type then some (Execute_S (DecodeImm_S s) s)
  else if op = B_type then some (Execute_B (DecodeImm_B s) s)
  else if op = lui then some (Execute_lui (DecodeImm_U s) s)
  else if op = auipc then some (Execute_auipc (DecodeImm_U s) s)
  else if op = jal then some (Execute_jal (DecodeImm_J s) s)
  else if op = jalr then some (Execute_jalr (DecodeImm_I s) s)
  else if op = ecall_ebreak then some (Execute_ecall_ebreak s)
  else if op = fence then some (Execute_fence s)
  else none

/-- Method `RiscV_RV32I::Process`. -/
def Process (s : State) : Outcome :=
  match Decode s with
  | some o => o
  | none => RiscV.Process s

/-- Method `Step` of a `RiscV_RV32I` object: `RiscV::Step` with the overriding `Process`. -/
def Step (s : State) : Outcome := RiscV.Step Process s

/-- Condition under which `RiscV::Step` gets past its two guards and calls `Process`: the
memory is bound and not empty, and the program counter is inside the text range. -/
def Runnable (s : State) : Prop :=
  s.FpMemory ≠ 0 ∧ s.FcMemory ≠ 0 ∧ s.FminText ≤ s.FPC ∧ s.FPC < s.FmaxText

instance instDecidableRunnable (s : State) : Decidable (Runnable s) := by
  unfold Runnable
  infer_instance

/-- Outcome of a step whose instruction does nothing but assign `Reg[rd] = v`: normal
return, the register written, the program counter advanced by `sizeof(long)`. -/
def writesReg (s : State) (rd v : Nat) : Outcome :=
  .ok { setRegister s rd v with FPC := (s.FPC + 4) % W }

/-- Outcome of a call that returns normally in the state `s` with the program counter set
to `pc`. -/
def jumpsTo (s : State) (pc : Nat) : Outcome := .ok { s with FPC := pc }

/-- Condition under which `Execute_B` executes its statement `FPC += imm - sizeof(long)`:
the comparison selected by `funct` holds. -/
def branchTaken (d : Decoded) (s : State) : Prop :=
  (d.Ffunct = B_beq ∧ getRegister s d.Frs1 = getRegister s d.Frs2) ∨
  (d.Ffunct = B_bne ∧ getRegister s d.Frs1 ≠ getRegister s d.Frs2) ∨
  (d.Ffunct = B_blt ∧ toSigned (getRegister s d.Frs1) < toSigned (getRegister s d.Frs2)) ∨
  (d.Ffunct = B_bge ∧ toSigned (getRegister s d.Frs1) ≥ toSigned (getRegister s d.Frs2)) ∨
  (d.Ffunct = B_bltu ∧ getRegister s d.Frs1 < getRegister s d.Frs2) ∨
  (d.Ffunct = B_bgeu ∧ getRegister s d.Frs1 ≥ getRegister s d.Frs2)

instance instDecidableBranchTaken (d : Decoded) (s : State) : Decidable (branchTaken d s) := by
  unfold branchTaken
  infer_instance

end RiscV_RV32I

/-! ## Wording of the specification -/

namespace Spec

/-- Specification wording `sign_extend(v, n)`: the integer denoted by the `n`-bit field
`v` when its top bit is replicated into all higher bits. -/
def sign_extend (v n : Nat) : Int :=
  if v < 2 ^ (n - 1) then (v : Int) else (v : Int) - 2 ^ n

/-- Specification wording `high32(p)`: bits 63:32 of the 64-bit two's-complement encoding
of the integer `p`. -/
def high32 (p : Int) : Nat := ((p % 2 ^ 64) / 2 ^ 32).toNat

/-- Specification wording `I[hi:lo]`: bits `hi` down to `lo` of the word `I`. -/
def bits (I hi lo : Nat) : Nat := (I / 2 ^ lo) % 2 ^ (hi + 1 - lo)

/-- Specification wording of the I-type immediate: `sign_extend(I[31:20], 12)`. -/
def immI (I : Nat) : Int := sign_extend (bits I 31 20) 12

/-- Specification wording of the S-type immediate:
`sign_extend((I[31:25]<<5) | I[11:7], 12)`. -/
def immS (I : Nat) : Int := sign_extend ((bits I 31 25 <<< 5) ||| bits I 11 7) 12

/-- Specification wording of the B-type immediate:
`sign_extend((I[31]<<12) | (I[7]<<11) | (I[30:25]<<5) | (I[11:8]<<1), 13)`. -/
def immB (I : Nat) : Int :=
  sign_extend
    ((bits I 31 31 <<< 12) ||| (bits I 7 7 <<< 11) ||| (bits I 30 25 <<< 5)
      ||| (bits I 11 8 <<< 1)) 13

/-- Specification wording of the J-type immediate:
`sign_extend((I[31]<<20) | (I[19:12]<<12) | (I[20]<<11) | (I[30:21]<<1), 21)`. -/
def immJ (I : Nat) : Int :=
  sign_extend
    ((bits I 31 31 <<< 20) ||| (bits I 19 12 <<< 12) ||| (bits I 20 20 <<< 11)
      ||| (bits I 30 21 <<< 1)) 21

end Spec

/-! ## Concrete programs

Guest images used to evaluate the emulator.  The guest memory starts at host address
`1000`; everything else in the host memory is zero. -/

namespace Programs

open RiscV RiscV_RV32I

/-- Host memory holding `bytes` from host address `base` on, and zero elsewhere. -/
def hostOf (base : Nat) (bytes : List Nat) : Nat → Nat :=
  fun p => if base ≤ p then bytes.getD (p - base) 0 else 0

/-- The four bytes of a word, least significant first. -/
def wordBytes (w : Nat) : List Nat :=
  [w % 256, w / 256 % 256, w / 65536 % 256, w / 16777216 % 256]

/-- Bytes of a sequence of words. -/
def image (ws : List Nat) : List Nat := ws.flatMap wordBytes

/-- A freshly constructed CPU on which the host has called `Load` and then `Reset`, as
`btnLoadAsmClick` does, for the guest image `ws` of `size` bytes, entry point `pc`, stack
pointer `stack` and text range `[tmin, tmax)`. -/
def boot (ws : List Nat) (size pc stack tmin tmax : Nat) : State :=
  Reset (Load (RiscV.new (hostOf 1000 (image ws)) 0) 1000 size pc stack tmin tmax) pc stack

/-- The host loop: `n` calls of `Step`, stopping at the first exception. -/
def steps : Nat → State → Outcome
  | 0, s => .ok s
  | n + 1, s =>
    match RiscV_RV32I.Step s with
    | .ok s1 => steps n s1
    | .raised e s1 => .raised e s1

/-- A CPU that was constructed but never loaded. -/
def unloaded : State := RiscV.new (hostOf 1000 []) 0

/-- Sixteen bytes of text at `[0, 16)` in a memory of 32 bytes, `PC = 0`. -/
def nops : State := boot [0x00000013, 0x00000013, 0x00000013, 0x00000013] 32 0 0x20 0 16

/-- The image of `nops` booted with entry point `100`, outside the text range. -/
def strayPC : State := boot [0x00000013, 0x00000013, 0x00000013, 0x00000013] 32 100 0x20 0 16

/-- Program `ADDI x5, x0, 7` at address 0, text range `[0, 4)`. -/
def addi7 : State := boot [0x00700293] 16 0 0x10 0 4

/-- Program `ADDI x1, x0, -5 ; ADDI x2, x0, -1 ; DIV x3, x1, x2` at address 0. -/
def divNeg : State := boot [0xFFB00093, 0xFFF00113, 0x0220C1B3] 32 0 0x20 0 12

/-- Program `SH x0, 3(x0)` at address 4, text range `[4, 8)`, 16 bytes of memory: a
halfword store that starts one byte below the text range. -/
def shStraddle : State := boot [0x00000000, 0x000011A3] 16 4 0x10 4 8

/-- Program `SW x0, 1(x0)` at address 4, text range `[4, 8)`, 16 bytes of memory: a word
store that starts three bytes below the text range. -/
def swStraddle : State := boot [0x00000000, 0x000020A3] 16 4 0x10 4 8

/-- Program `SW x0, 4(x0) ; NOP` at address 0, text range `[0, 8)`, 16 bytes of memory. -/
def swIntoText : State := boot [0x00002223, 0x00000013] 16 0 0x10 0 8

/-- Program `LB x5, 16(x0) ; LW x6, 15(x0)` at address 0, text range `[0, 8)`, in a guest
memory declared 16 bytes long; the host memory goes on after it with the bytes
`88 77 66 55`. -/
def loadPastEnd : State :=
  boot [0x01000283, 0x00F02303, 0x00000000, 0x11223344, 0x55667788] 16 0 0x10 0 8

/-- Program `LW x5, 4(x0) ; NOP` at address 0, text range `[0, 8)`, 16 bytes of memory. -/
def lwFromText : State := boot [0x00402283, 0x00000013] 16 0 0x10 0 8

/-- Program `LUI x1, 0x80000 ; ADDI x2, x0, -1 ; DIV x3, x1, x2 ; REM x4, x1, x2`. -/
def divOverflowProg : State :=
  boot [0x800000B7, 0xFFF00113, 0x0220C1B3, 0x0220E233] 32 0 0x20 0 16

/-- The state of `divOverflowProg` after two steps: `x1 = 0x80000000`, `x2 = 0xFFFFFFFF`,
the program counter at the `DIV`. -/
def divOverflow : State := (steps 2 divOverflowProg).state

/-- Program `ADDI x1, x0, -7 ; ADDI x2, x0, 2 ; REM x3, x1, x2 ; MULH x4, x1, x2`. -/
def remProg : State :=
  boot [0xFF900093, 0x00200113, 0x0220E1B3, 0x02209233] 32 0 0x20 0 16

/-- The state of `remProg` after two steps: `x1 = -7`, `x2 = 2`, the program counter at
the `REM`. -/
def remNeg : State := (steps 2 remProg).state

/-- The state of `remProg` after three steps, the program counter at the `MULH`. -/
def mulhNeg : State := (steps 3 remProg).state

/-- Program `ADDI x1, x0, 1 ; ADDI x2, x0, 32 ; SLL x3, x1, x2 ; SRL x4, x1, x2 ;
LUI x5, 0x80000 ; SRA x6, x5, x2`. -/
def shiftProg : State :=
  boot [0x00100093, 0x02000113, 0x002091B3, 0x0020D233, 0x800002B7, 0x4022D333]
    32 0 0x20 0 24

/-- The state of `shiftProg` after two steps: `x1 = 1`, `x2 = 32`, the program counter at
the `SLL`. -/
def shiftSll : State := (steps 2 shiftProg).state

/-- The state of `shiftProg` after five steps: `x5 = 0x80000000`, `x2 = 32`, the program
counter at the `SRA`. -/
def shiftSra : State := (steps 5 shiftProg).state

/-- Program `ADDI x1, x0, -1 ; ADDI x2, x0, 1 ; SLT x3, x1, x2 ; SLTU x4, x1, x2`. -/
def compareProg : State :=
  boot [0xFFF00093, 0x00100113, 0x0020A1B3, 0x0020B233] 32 0 0x20 0 16

/-- The state of `compareProg` after two steps: `x1 = 0xFFFFFFFF`, `x2 = 1`, the program
counter at the `SLT`. -/
def compareSlt : State := (steps 2 compareProg).state

/-- Program `ADDI x1, x0, -7 ; XORI x3, x1, -1 ; SRAI x4, x1, 1 ; SLLI x5, x1, 33 ;
SRLI x6, x1, 33`.  The last two words have `imm[11:5] = 1`. -/
def immProg : State :=
  boot [0xFF900093, 0xFFF0C193, 0x4010D213, 0x02109293, 0x0210D313] 32 0 0x20 0 20

/-- The state of `immProg` after one step: `x1 = 0xFFFFFFF9`, the program counter at the
`XORI`. -/
def immXori : State := (steps 1 immProg).state

/-- The state of `immProg` after two steps, the program counter at the `SRAI`. -/
def immSrai : State := (steps 2 immProg).state

/-- The state of `immProg` after three steps, the program counter at the `SLLI` with
immediate 33. -/
def immSlli33 : State := (steps 3 immProg).state

/-- The state of `immProg` after four steps, the program counter at the funct3 = 5
instruction with immediate 33. -/
def immSrli33 : State := (steps 4 immProg).state

/-- The program `immProg` with `SRLI x6, x1, 1` as its last instruction. -/
def immProg1 : State :=
  boot [0xFF900093, 0xFFF0C193, 0x4010D213, 0x02109293, 0x0010D313] 32 0 0x20 0 20

/-- The state of `immProg1` after four steps, the program counter at `SRLI x6, x1, 1`. -/
def immSrli1 : State := (steps 4 immProg1).state

/-- Program `SLLI x5, x2, 3 ; NOP`, entered with the stack pointer `x2 = 0x20`. -/
def slli3 : State := boot [0x00311293, 0x00000013] 32 0 0x20 0 8

/-- Program `LW x5, 9(x0) ; LB x6, 15(x0)` at address 0, text range `[0, 8)`, 32 bytes of
memory; the bytes at addresses 8 to 15 are `11 22 33 44 55 66 77 FF`. -/
def loadProg : State :=
  boot [0x00902283, 0x00F00303, 0x44332211, 0xFF776655] 32 0 0x20 0 8

/-- The state of `loadProg` after one step, the program counter at the `LB`. -/
def loadLb : State := (steps 1 loadProg).state

/-- Program `LUI x5, 0x80001 ; AUIPC x6, 0 ; NOP ; NOP`. -/
def upperProg : State :=
  boot [0x800012B7, 0x00000317, 0x00000013, 0x00000013] 32 0 0x20 0 16

/-- The state of `upperProg` after one step, the program counter at the `AUIPC`. -/
def upperAuipc : State := (steps 1 upperProg).state

/-- Program `ADDI x1, x0, 5 ; BLT x0, x1, 8 ; NOP ; NOP`, text range `[0, 16)`. -/
def branchProg : State :=
  boot [0x00500093, 0x00104463, 0x00000013, 0x00000013] 32 0 0x20 0 16

/-- The state of `branchProg` after one step: `x1 = 5`, the program counter at the `BLT`
at address 4. -/
def branchBlt : State := (steps 1 branchProg).state

/-- Program `NOP ; JAL x1, 0 ; NOP ; NOP` with entry point 4: the `JAL ra, 0` loop. -/
def jalLoop : State := boot [0x00000013, 0x000000EF, 0x00000013, 0x00000013] 32 4 0x20 0 16

/-- Program `ADDI x1, x0, 0x100 ; JALR x5, x1, 1` followed by NOPs up to address `0x104`,
text range `[0, 0x104)`. -/
def jalrProg : State :=
  boot ([0x10000093, 0x001082E7] ++ List.replicate 63 0x00000013) 0x200 0 0x200 0 0x104

/-- The state of `jalrProg` after one step: `x1 = 0x100`, the program counter at the
`JALR` at address 4. -/
def jalrOdd : State := (steps 1 jalrProg).state

/-- Program `ADDI x1, x0, 16 ; JALR x1, x1, 0` followed by NOPs, text range `[0, 32)`:
a `JALR` whose `rd` and `rs1` are the same register. -/
def jalrSameProg : State :=
  boot [0x01000093, 0x000080E7, 0x00000013, 0x00000013, 0x00000013, 0x00000013,
    0x00000013, 0x00000013] 64 0 0x40 0 32

/-- Program `LUI x1, 2 ; LUI x2, 0xDEADC ; ADDI x2, x2, -0x111 ; SW x2, 0(x1) ;
LW x3, 0(x1) ; LBU x4, 0(x1) ; LB x5, 0(x1)`, text range `[0, 28)`, `0x3000` bytes of
memory. -/
def storeLoadProg : State :=
  boot [0x000020B7, 0xDEADC137, 0xEEF10113, 0x0020A023, 0x0000A183, 0x0000C203, 0x00008283]
    0x3000 0 0x3000 0 28

/-- The state of `storeLoadProg` after three steps: `x1 = 0x2000`, `x2 = 0xDEADBEEF`, the
program counter at the `SW`. -/
def storeSw : State := (steps 3 storeLoadProg).state

/-- The state the `SW` of `storeSw` leaves, the program counter at the `LW`. -/
def loadLw : State := (Step storeSw).state

/-- A memory whose only text word is 0, a word whose low 7 bits are no opcode. -/
def zeroWord : State := boot [0x00000000] 16 0 0x10 0 4

/-- The word `0x40001033` (opcode `0x33`, funct7 `0x20`, funct3 1) as the only text
word: an R-type word whose funct `0x101` is in no row of the table. -/
def badFunctR : State := boot [0x40001033] 16 0 0x10 0 4

/-- Program `ADDI x5, x2, 7 ; ADDI x5, x5, -7`, entered with the stack pointer
`x2 = 0x20`. -/
def addiPair : State := boot [0x00710293, 0xFF928293] 32 0 0x20 0 8

/-- Program `ADDI x5, x2, -2048` followed by the `ADDI x5, x5, ...` whose immediate field
is `0x800`, the 12-bit encoding of 2048; entered with the stack pointer `x2 = 0x20`. -/
def addiMin : State := boot [0x80010293, 0x80028293] 32 0 0x20 0 8

/-- Program `SLLI x5, x2, 4 ; SRLI x5, x5, 4`, entered with the stack pointer
`x2 = 0x20`. -/
def shiftPair : State := boot [0x00411293, 0x0042D293] 32 0 0x20 0 8

/-- Program `EBREAK ; FENCE` (words `0x00100073`, `0x0FF0000F`), text range `[0, 8)`,
entered with the stack pointer `x2 = 0x20`. -/
def systemProg : State := boot [0x00100073, 0x0FF0000F] 32 0 0x20 0 8

/-- Program `JAL x1, 8 ; ADDI x5, x0, 99 ; ADDI x6, x0, 42 ; JALR x0, x1, 0` at
addresses 0, 4, 8 and 12, text range `[0, 16)`, in a memory of 16 bytes; `PC = 0` and
all registers 0. -/
def callReturn : State := boot [0x008000EF, 0x06300293, 0x02A00313, 0x00008067] 16 0 0 0 16

/-- Program `ADDI x1, x0, 2 ; JALR x1, x1, 2` followed by NOPs, text range `[0, 32)`: a
`JALR` whose `rd` and `rs1` are the same register and whose target `(2 + 2) & ~1` is 4. -/
def jalrAlignProg : State :=
  boot [0x00200093, 0x002080E7, 0x00000013, 0x00000013, 0x00000013, 0x00000013,
    0x00000013, 0x00000013] 64 0 0x40 0 32

/-- Program `LUI x1, 0x12345 ; ADDI x1, x1, 0x678`, text range `[0, 8)`. -/
def luiAddi : State := boot [0x123450B7, 0x67808093] 32 0 0x20 0 8

end Programs

/-! ## Guest program `ball.c`

The function `LcgRandom` of the guest program.  `unsigned int` is 32 bits wide; a value is
its pattern, a natural number below `2 ^ 32`, and arithmetic is reduced modulo `2 ^ 32`. -/

namespace Ball

/-- Constant `M` of `LcgRandom`. -/
def M : Nat := 0x7fffffff

/-- Constant `A` of `LcgRandom`. -/
def A : Nat := 48271

/-- Constant `Q = M / A` of `LcgRandom`. -/
def Q : Nat := M / A

/-- Constant `R = M % A` of `LcgRandom`. -/
def R : Nat := M % A

/-- Function `LcgRandom`, called with `*state = state`.  The first component is the value
left in `*state`, the second the value returned.  The comparison `result < 0` is made on
an `unsigned int`. -/
def LcgRandom (state : Nat) : Nat × Nat :=
  let div := state / Q
  let rem := state % Q
  let s := (rem * A) % 4294967296
  let t := (div * R) % 4294967296
  let result := (s + 4294967296 - t) % 4294967296
  let result := if result < 0 then (result + M) % 4294967296 else result
  (result, result)

end Ball

/-! ## Properties -/

namespace RiscV

theorem getRegister_zero (s : State) : getRegister s 0 = 0 := by
  simp [getRegister]

theorem setRegister_zero (s : State) (v : Nat) : setRegister s 0 v = s := by
  simp [setRegister]

theorem getRegister_setRegister (s : State) (i j v : Nat) :
    getRegister (setRegister s i v) j
      = if j = i ∧ i ≠ 0 then v else getRegister s j := by
  unfold getRegister setRegister
  by_cases hi : i = 0
  · subst hi; simp
  · by_cases hj : j = 0
    · subst hj
      have : ¬ (0 = i) := fun h => hi h.symm
      simp [hi, this]
    · by_cases hji : j = i <;> simp [hi, hj, hji]

/-- C1.  Register 0 is hard-wired to zero.  In every state of the CPU whatsoever (so in
particular in every state reached from construction by calls of load, reset, goto, step
and setRegister) reading register 0 yields 0; a write to register 0 leaves the whole
state as it was, so every register reads the same value after it as before. -/
theorem register_zero_hardwired (s : State) :
    getRegister s 0 = 0 ∧
    (∀ v : Nat, setRegister s 0 v = s) ∧
    (∀ v i : Nat, getRegister (setRegister s 0 v) i = getRegister s i) := by
  refine ⟨getRegister_zero s, setRegister_zero s, ?_⟩
  intro v i
  rw [setRegister_zero]

end RiscV

namespace RiscV_RV32I

open RiscV Programs

/-- A step of a loaded CPU whose program counter is inside the text range runs `Process`
and then advances the program counter by 4. -/
theorem Step_of_loaded (s : State) (hp : s.FpMemory ≠ 0) (hc : s.FcMemory ≠ 0)
    (hpc : s.FminText ≤ s.FPC ∧ s.FPC < s.FmaxText) :
    Step s =
      match Process s with
      | .ok s1 => .ok { s1 with FPC := (s1.FPC + 4) % W }
      | .raised e s1 => .raised e s1 := by
  unfold Step RiscV.Step
  rw [if_neg (by simp [hp, hc]), if_neg (by omega)]

theorem Process_store (s : State) (hop : getInstruction s &&& 0x7F = S_type) :
    Process s = Execute_S (DecodeImm_S s) s := by
  unfold Process Decode
  simp [hop]

theorem Process_load (s : State) (hop : getInstruction s &&& 0x7F = I_load_type) :
    Process s = Execute_I_load (DecodeImm_I s) s := by
  unfold Process Decode
  simp [hop]

/-- The accessor `getMemory` rejects every address of the text range that is not above the
memory size, for any kind of access. -/
theorem getMemory_text (s : State) (a : Nat) (hin : a ≤ s.FcMemory)
    (ht : s.FminText ≤ a ∧ a < s.FmaxText) :
    getMemory s a = .error .TextSegmentWrite := by
  unfold getMemory
  rw [if_neg (by omega), if_pos ⟨ht.1, ht.2⟩]

/-- C2, evaluation of the code.  With text range `[4, 8)`, the halfword store
`SH x0, 3(x0)` returns normally and changes the text byte at address 4 from `0xA3` to 0;
so does the word store `SW x0, 1(x0)`.  The text test of `getMemory` looks at the first
address of the access only. -/
theorem store_below_text_overwrites_text :
    ((Step shStraddle).fault = none ∧
      shStraddle.FminText ≤ 4 ∧ 4 < shStraddle.FmaxText ∧
      byteAt shStraddle 4 = 0xA3 ∧ byteAt (Step shStraddle).state 4 = 0) ∧
    ((Step swStraddle).fault = none ∧
      swStraddle.FminText ≤ 4 ∧ 4 < swStraddle.FmaxText ∧
      byteAt swStraddle 4 = 0xA3 ∧ byteAt (Step swStraddle).state 4 = 0) := by
  decide

/-- C3.  In a loaded state whose program counter is inside the text range and whose text
range ends inside the memory, a step on an SB, SH or SW instruction whose address
`(rs1 + imm) mod 2^32` lies in the text range throws TextSegmentWrite and leaves the
state of the CPU, every memory byte included, exactly as it was. -/
theorem Step_store_into_text (s : State) (hp : s.FpMemory ≠ 0) (hc : s.FcMemory ≠ 0)
    (hpc : s.FminText ≤ s.FPC ∧ s.FPC < s.FmaxText) (hte : s.FmaxText ≤ s.FcMemory)
    (hop : getInstruction s &&& 0x7F = S_type)
    (hf : (DecodeImm_S s).Ffunct = S_sb ∨ (DecodeImm_S s).Ffunct = S_sh
      ∨ (DecodeImm_S s).Ffunct = S_sw)
    (hea : s.FminText ≤ effAddr (DecodeImm_S s) s
      ∧ effAddr (DecodeImm_S s) s < s.FmaxText) :
    Step s = Outcome.raised Fault.TextSegmentWrite s := by
  have hg := getMemory_text s (effAddr (DecodeImm_S s) s) (by omega) hea
  rw [Step_of_loaded s hp hc hpc, Process_store s hop]
  unfold Execute_S
  rcases hf with h | h | h <;> simp [h, hg]

/-- Witness of C3: `SW x0, 4(x0)` with text range `[0, 8)`. -/
theorem Step_store_into_text_witness :
    Step swIntoText = Outcome.raised Fault.TextSegmentWrite swIntoText :=
  Step_store_into_text swIntoText (by decide) (by decide) (by decide) (by decide)
    (by decide) (by decide) (by decide)

/-- C4, evaluation of the code.  In a memory of 16 bytes, `LB x5, 16(x0)` (a byte access
at `mem_size`) and then `LW x6, 15(x0)` (a word access at `mem_size - 1`) both return
normally, with the bytes found past the end of the memory in x5 and x6.  The bound test
of `getMemory` is `AAddress > FcMemory` and ignores the width of the access. -/
theorem load_past_end_not_rejected :
    loadPastEnd.FcMemory = 16 ∧
    (Step loadPastEnd).fault = none ∧
    getRegister (Step loadPastEnd).state 5 = 0xFFFFFF88 ∧
    (steps 2 loadPastEnd).fault = none ∧
    getRegister (steps 2 loadPastEnd).state 6 = 0x66778811 := by
  decide

/-- C5, counterexample.  `LW x5, 4(x0)` with text range `[0, 8)` in 16 bytes of memory
reads a word that lies inside the text range and inside the memory; the step throws
TextSegmentWrite and x5 keeps its value 0, although the word stored there is `0x13`. -/
theorem load_from_text_is_rejected :
    effAddr (DecodeImm_I lwFromText) lwFromText = 4 ∧
    lwFromText.FminText ≤ 4 ∧ 4 < lwFromText.FmaxText ∧ 4 + 4 ≤ lwFromText.FcMemory ∧
    read32 lwFromText.host (lwFromText.FpMemory + 4) = 0x13 ∧
    (Step lwFromText).fault = some Fault.TextSegmentWrite ∧
    getRegister (Step lwFromText).state 5 = 0 := by
  decide

/-- C5, amended.  In a loaded state whose program counter is inside the text range, a
step on a load instruction (LB, LH, LW, LBU, LHU) whose address `(rs1 + imm) mod 2^32`
lies inside the text range and does not exceed the memory size throws TextSegmentWrite
and leaves the state of the CPU exactly as it was: loads from the text range are
rejected like stores. -/
theorem Step_load_from_text (s : State) (hp : s.FpMemory ≠ 0) (hc : s.FcMemory ≠ 0)
    (hpc : s.FminText ≤ s.FPC ∧ s.FPC < s.FmaxText)
    (hop : getInstruction s &&& 0x7F = I_load_type)
    (hf : (DecodeImm_I s).Ffunct = I_lb ∨ (DecodeImm_I s).Ffunct = I_lh
      ∨ (DecodeImm_I s).Ffunct = I_lw ∨ (DecodeImm_I s).Ffunct = I_lbu
      ∨ (DecodeImm_I s).Ffunct = I_lhu)
    (hea : s.FminText ≤ effAddr (DecodeImm_I s) s
      ∧ effAddr (DecodeImm_I s) s < s.FmaxText)
    (hin : effAddr (DecodeImm_I s) s ≤ s.FcMemory) :
    Step s = Outcome.raised Fault.TextSegmentWrite s := by
  have hg := getMemory_text s (effAddr (DecodeImm_I s) s) hin hea
  rw [Step_of_loaded s hp hc hpc, Process_load s hop]
  unfold Execute_I_load
  rcases hf with h | h | h | h | h <;> simp [h, hg]

/-- Witness of the amended C5: `LW x5, 4(x0)` with text range `[0, 8)`. -/
theorem Step_load_from_text_witness :
    Step lwFromText = Outcome.raised Fault.TextSegmentWrite lwFromText :=
  Step_load_from_text lwFromText (by decide) (by decide) (by decide) (by decide)
    (by decide) (by decide) (by decide)

/-- C6.  A step from a state that is not loaded, or whose program counter is outside the
text range, never succeeds: it throws NotLoaded when the memory pointer is null or the
memory size is 0, and SegmentationFault otherwise; the state of the CPU (program counter,
registers, memory) is exactly what it was before the call. -/
theorem Step_rejects_unloaded_or_stray (s : State)
    (h : s.FpMemory = 0 ∨ s.FcMemory = 0 ∨ s.FPC < s.FminText ∨ s.FmaxText ≤ s.FPC) :
    Step s = Outcome.raised
      (if s.FpMemory = 0 ∨ s.FcMemory = 0 then Fault.NotLoaded else Fault.SegmentationFault)
      s := by
  unfold Step RiscV.Step
  by_cases hl : s.FpMemory = 0 ∨ s.FcMemory = 0
  · simp [hl]
  · have hpc : s.FPC < s.FminText ∨ s.FPC ≥ s.FmaxText := by
      rcases h with h | h | h | h
      · exact absurd (Or.inl h) hl
      · exact absurd (Or.inr h) hl
      · exact Or.inl h
      · exact Or.inr h
    rw [if_neg hl, if_pos hpc, if_neg hl]

/-- Witness of C6: a CPU that was never loaded throws NotLoaded, a loaded CPU whose
program counter is 100 with text range `[0, 16)` throws SegmentationFault. -/
theorem Step_rejects_unloaded_or_stray_witness :
    Step unloaded = Outcome.raised Fault.NotLoaded unloaded ∧
    Step strayPC = Outcome.raised Fault.SegmentationFault strayPC :=
  ⟨Step_rejects_unloaded_or_stray unloaded (Or.inl rfl),
   Step_rejects_unloaded_or_stray strayPC (Or.inr (Or.inr (Or.inr (by decide))))⟩

/-- C7, evaluation of the code.  With text range `[0, 16)` and the program counter at 0,
`GoTo(100)` returns normally and sets the program counter to 100, a target outside the
text range; with the program counter at 100, `GoTo(4)` throws InvalidTarget although 4 is
inside the text range.  The second test of `GoTo` compares the current program counter,
not the target, with the end of the text range. -/
theorem GoTo_tests_current_pc :
    ((GoTo nops 100).fault = none ∧ (GoTo nops 100).state.FPC = 100 ∧
      ¬ (100 < nops.FmaxText)) ∧
    ((GoTo strayPC 4).fault = some Fault.InvalidTarget ∧
      strayPC.FminText ≤ 4 ∧ 4 < strayPC.FmaxText) := by
  decide

/-- C8, counterexample.  After `ADDI x5, x0, 7` has run, register 5 holds 7; a following
`Load` leaves 7 in register 5 instead of 0. -/
theorem Load_leaves_stale_register :
    (Step addi7).fault = none ∧
    getRegister (Step addi7).state 5 = 7 ∧
    getRegister (Load (Step addi7).state 1000 16 0 0x10 0 4) 5 = 7 := by
  decide

/-- C8, amended.  After `Load` the program counter is `pc0`, register 2 reads `sp0`, and
every other register reads what it read before the call; on a freshly constructed CPU
every other register therefore reads 0. -/
theorem Load_sets_pc_and_sp_only (s : State) (p size pc0 sp0 tmin tmax : Nat) :
    (Load s p size pc0 sp0 tmin tmax).FPC = pc0 ∧
    (∀ i : Nat, getRegister (Load s p size pc0 sp0 tmin tmax) i
      = if i = 2 then sp0 else getRegister s i) ∧
    (∀ (host : Nat → Nat) (pc i : Nat),
      getRegister (Load (RiscV.new host pc) p size pc0 sp0 tmin tmax) i
        = if i = 2 then sp0 else 0) := by
  refine ⟨?_, ?_, ?_⟩
  · simp [Load, setRegister]
  · intro i
    unfold Load
    rw [getRegister_setRegister]
    by_cases hi : i = 2 <;> simp [hi, getRegister]
  · intro host pc i
    unfold Load
    rw [getRegister_setRegister]
    by_cases hi : i = 2 <;> simp [hi, getRegister, RiscV.new]

/-- C9.  After `Reset(pc0, sp0)` the program counter is `pc0`, register 2 reads `sp0`,
every other register reads 0, and the memory binding is untouched: the host memory, the
memory pointer, the memory size and the text range are what they were. -/
theorem Reset_clears_registers_keeps_memory (s : State) (pc0 sp0 : Nat) :
    (Reset s pc0 sp0).FPC = pc0 ∧
    (∀ i : Nat, getRegister (Reset s pc0 sp0) i = if i = 2 then sp0 else 0) ∧
    (Reset s pc0 sp0).host = s.host ∧
    (Reset s pc0 sp0).FpMemory = s.FpMemory ∧
    (Reset s pc0 sp0).FcMemory = s.FcMemory ∧
    (Reset s pc0 sp0).FminText = s.FminText ∧
    (Reset s pc0 sp0).FmaxText = s.FmaxText := by
  have hreg : ∀ i : Nat, getRegister (Reset s pc0 sp0) i = if i = 2 then sp0 else 0 := by
    intro i
    unfold Reset
    rw [getRegister_setRegister]
    by_cases hi : i = 2 <;> simp [hi, getRegister]
  refine ⟨?_, hreg, ?_, ?_, ?_, ?_, ?_⟩ <;> simp [Reset, setRegister]

/-- C10, evaluation of the code.  The program `ADDI x1, x0, -5 ; ADDI x2, x0, -1 ;
DIV x3, x1, x2` runs without exception and leaves `0xFFFFFFFB` (that is, -5) in x3,
whereas the quotient of -5 by -1 rounded toward zero is 5. -/
theorem DIV_minus_five_by_minus_one :
    (steps 3 divNeg).fault = none ∧
    getRegister (steps 3 divNeg).state 1 = 0xFFFFFFFB ∧
    getRegister (steps 3 divNeg).state 2 = 0xFFFFFFFF ∧
    getRegister (steps 3 divNeg).state 3 = 0xFFFFFFFB ∧
    ofInt (Int.tdiv (toSigned 0xFFFFFFFB) (toSigned 0xFFFFFFFF)) = 5 := by
  decide

/-! ### Execution of one instruction -/

theorem Step_of_runnable (s : State) (hr : Runnable s) :
    Step s =
      match Process s with
      | .ok s1 => .ok { s1 with FPC := (s1.FPC + 4) % W }
      | .raised e s1 => .raised e s1 :=
  Step_of_loaded s hr.1 hr.2.1 ⟨hr.2.2.1, hr.2.2.2⟩

theorem Step_writesReg (s : State) (hr : Runnable s) (rd v : Nat)
    (h : Process s = .ok (setRegister s rd v)) :
    Step s = writesReg s rd v := by
  rw [Step_of_runnable s hr, h]
  simp only [writesReg, setRegister]
  split <;> rfl

theorem Step_raised (s : State) (hr : Runnable s) (e : Fault)
    (h : Process s = .raised e s) :
    Step s = .raised e s := by
  rw [Step_of_runnable s hr, h]

theorem Process_R (s : State) (hop : getInstruction s &&& 0x7F = R_type) :
    Process s = Execute_R (DecodeFunct_7 s) s := by
  unfold Process Decode
  simp [hop]

theorem Process_I_bits (s : State) (hop : getInstruction s &&& 0x7F = I_bits_type) :
    Process s = Execute_I_bits (DecodeImm_I s) s := by
  unfold Process Decode
  simp [hop]

/-- A step on an R-type instruction whose executor assigns `v` to `Reg[rd]`. -/
theorem Step_R_writes (s : State) (hr : Runnable s)
    (hop : getInstruction s &&& 0x7F = R_type) (v : Nat)
    (h : Execute_R (DecodeFunct_7 s) s = .ok (setRegister s (DecodeFunct_7 s).Frd v)) :
    Step s = writesReg s (DecodeFunct_7 s).Frd v :=
  Step_writesReg s hr _ v (by rw [Process_R s hop, h])

/-- A step on an OP-IMM instruction whose executor assigns `v` to `Reg[rd]`. -/
theorem Step_I_writes (s : State) (hr : Runnable s)
    (hop : getInstruction s &&& 0x7F = I_bits_type) (v : Nat)
    (h : Execute_I_bits (DecodeImm_I s) s = .ok (setRegister s (DecodeImm_I s).Frd v)) :
    Step s = writesReg s (DecodeImm_I s).Frd v :=
  Step_writesReg s hr _ v (by rw [Process_I_bits s hop, h])

theorem writesReg_fault (s : State) (rd v : Nat) : (writesReg s rd v).fault = none := rfl

/-- C11.  Division edge cases.  On an R-type instruction with operands `a = x[rs1]` and
`b = x[rs2]`: DIV and DIVU with `b = 0` write `0xFFFFFFFF`; REM and REMU with `b = 0`
write `a`; DIV of `0x80000000` by `0xFFFFFFFF` writes `0x80000000` and REM of the same
operands writes 0; and a step on DIV, DIVU, REM or REMU never throws, whatever the
operands. -/
theorem division_edge_cases (s : State) (hr : Runnable s)
    (hop : getInstruction s &&& 0x7F = R_type) (rd a b : Nat)
    (hrd : (DecodeFunct_7 s).Frd = rd)
    (ha : getRegister s (DecodeFunct_7 s).Frs1 = a)
    (hb : getRegister s (DecodeFunct_7 s).Frs2 = b) :
    ((DecodeFunct_7 s).Ffunct = R_div → b = 0 → Step s = writesReg s rd 0xFFFFFFFF) ∧
    ((DecodeFunct_7 s).Ffunct = R_divu → b = 0 → Step s = writesReg s rd 0xFFFFFFFF) ∧
    ((DecodeFunct_7 s).Ffunct = R_rem → b = 0 → Step s = writesReg s rd a) ∧
    ((DecodeFunct_7 s).Ffunct = R_remu → b = 0 → Step s = writesReg s rd a) ∧
    ((DecodeFunct_7 s).Ffunct = R_div → a = 0x80000000 → b = 0xFFFFFFFF →
      Step s = writesReg s rd 0x80000000) ∧
    ((DecodeFunct_7 s).Ffunct = R_rem → a = 0x80000000 → b = 0xFFFFFFFF →
      Step s = writesReg s rd 0) ∧
    ((DecodeFunct_7 s).Ffunct = R_div ∨ (DecodeFunct_7 s).Ffunct = R_divu ∨
      (DecodeFunct_7 s).Ffunct = R_rem ∨ (DecodeFunct_7 s).Ffunct = R_remu →
      (Step s).fault = none) := by
  subst hrd ha hb
  refine ⟨?_, ?_, ?_, ?_, ?_, ?_, ?_⟩
  · intro hf h0
    apply Step_R_writes s hr hop
    unfold Execute_R
    simp +decide only [hf, h0, ↓reduceIte]
  · intro hf h0
    apply Step_R_writes s hr hop
    unfold Execute_R
    simp +decide only [hf, h0, ↓reduceIte]
  · intro hf h0
    apply Step_R_writes s hr hop
    unfold Execute_R
    simp +decide only [hf, h0, ↓reduceIte]
  · intro hf h0
    apply Step_R_writes s hr hop
    unfold Execute_R
    simp +decide only [hf, h0, ↓reduceIte]
  · intro hf h1 h2
    rw [← h1]
    apply Step_R_writes s hr hop
    unfold Execute_R
    simp +decide only [hf, h1, h2, ↓reduceIte]
  · intro hf h1 h2
    apply Step_R_writes s hr hop
    unfold Execute_R
    simp +decide only [hf, h1, h2, ↓reduceIte]
  · intro hf
    rcases hf with hf | hf | hf | hf
    all_goals
      rw [Step_of_runnable s hr, Process_R s hop]
      unfold Execute_R
      simp +decide only [hf, ↓reduceIte]
      split_ifs <;> rfl

/-- Witness of C11: `DIV x3, x1, x2` with `x1 = 0x80000000` and `x2 = 0xFFFFFFFF`. -/
theorem division_edge_cases_witness :
    Step divOverflow = writesReg divOverflow 3 0x80000000 :=
  (division_edge_cases divOverflow (by decide) (by decide) 3 0x80000000 0xFFFFFFFF
    (by decide) (by decide) (by decide)).2.2.2.2.1 (by decide) rfl rfl

/-! ### Arithmetic of the 32-bit conversions -/

theorem toSigned_range (a : Nat) (ha : a < W) :
    -2147483648 ≤ toSigned a ∧ toSigned a < 2147483648 := by
  unfold W at ha
  unfold toSigned
  split <;> omega

theorem toSigned_ofInt (i : Int) (h1 : -2147483648 ≤ i) (h2 : i < 2147483648) :
    toSigned (ofInt i) = i := by
  unfold toSigned ofInt
  split <;> omega

theorem ofInt_natCast (n : Nat) : ofInt (n : Int) = n % W := by
  unfold ofInt W
  omega

theorem ofInt_toSigned_add (a b : Nat) : ofInt (toSigned a + toSigned b) = (a + b) % W := by
  unfold ofInt toSigned W
  split <;> split <;> omega

theorem ofInt_toSigned_sub (a b : Nat) :
    ofInt (toSigned a - toSigned b) = ofInt ((a : Int) - (b : Int)) := by
  unfold ofInt toSigned
  split <;> split <;> omega

/-- Truncated remainder lies between 0 and the dividend. -/
theorem tmod_between (a b : Int) :
    (0 ≤ a → 0 ≤ a.tmod b ∧ a.tmod b ≤ a) ∧ (a ≤ 0 → a ≤ a.tmod b ∧ a.tmod b ≤ 0) := by
  cases a with
  | ofNat m =>
    cases b with
    | ofNat n =>
      have := Nat.mod_le m n
      simp only [Int.tmod, Int.ofNat_eq_coe]
      omega
    | negSucc n =>
      have := Nat.mod_le m (n + 1)
      simp only [Int.tmod, Int.ofNat_eq_coe, Nat.succ_eq_add_one]
      omega
  | negSucc m =>
    cases b with
    | ofNat n =>
      have := Nat.mod_le (m + 1) n
      simp only [Int.tmod, Int.ofNat_eq_coe, Int.negSucc_eq, Nat.succ_eq_add_one]
      omega
    | negSucc n =>
      have := Nat.mod_le (m + 1) (n + 1)
      simp only [Int.tmod, Int.ofNat_eq_coe, Int.negSucc_eq, Nat.succ_eq_add_one]
      omega

theorem tmod_neg_one (a : Int) : a.tmod (-1) = 0 := by
  rw [Int.tmod_neg, Int.tmod_one]

/-- C12.  Unsigned division and the remainders.  On an R-type instruction with operands
`a = x[rs1]` and `b = x[rs2]`, `b` not 0: DIVU writes the quotient `a / b` rounded down
and REMU writes `a mod b`, so that `a = DIVU * b + REMU` with `REMU < b`; REM writes the
32-bit encoding of `r = a - b * trunc(a / b)` computed on `a` and `b` read as signed
integers, where `trunc` rounds toward zero.  For 32-bit operands the value written,
read as signed, is `r` itself; `r` is 0 or has the sign of the dividend, and `r = 0`
when `b = 0xFFFFFFFF`, that is -1. -/
theorem unsigned_division_and_remainders (s : State) (hr : Runnable s)
    (hop : getInstruction s &&& 0x7F = R_type) (rd a b : Nat)
    (hrd : (DecodeFunct_7 s).Frd = rd)
    (ha : getRegister s (DecodeFunct_7 s).Frs1 = a)
    (hb : getRegister s (DecodeFunct_7 s).Frs2 = b)
    (ha32 : a < W) (hb32 : b < W) (hb0 : b ≠ 0) :
    ((DecodeFunct_7 s).Ffunct = R_divu → Step s = writesReg s rd (a / b)) ∧
    ((DecodeFunct_7 s).Ffunct = R_remu → Step s = writesReg s rd (a % b)) ∧
    (a = a / b * b + a % b ∧ a % b < b) ∧
    ((DecodeFunct_7 s).Ffunct = R_rem →
      Step s = writesReg s rd
        (ofInt (toSigned a - toSigned b * Int.tdiv (toSigned a) (toSigned b)))) ∧
    (toSigned (ofInt (toSigned a - toSigned b * Int.tdiv (toSigned a) (toSigned b)))
      = toSigned a - toSigned b * Int.tdiv (toSigned a) (toSigned b)) ∧
    (toSigned a - toSigned b * Int.tdiv (toSigned a) (toSigned b) = 0 ∨
      (0 < toSigned a - toSigned b * Int.tdiv (toSigned a) (toSigned b) ∧ 0 < toSigned a) ∨
      (toSigned a - toSigned b * Int.tdiv (toSigned a) (toSigned b) < 0 ∧ toSigned a < 0)) ∧
    (b = 0xFFFFFFFF →
      toSigned a - toSigned b * Int.tdiv (toSigned a) (toSigned b) = 0) := by
  have hra := toSigned_range a ha32
  have hbt := tmod_between (toSigned a) (toSigned b)
  rw [← Int.tmod_def]
  subst hrd ha hb
  refine ⟨?_, ?_, ⟨?_, Nat.mod_lt _ (Nat.pos_of_ne_zero hb0)⟩, ?_, ?_, ?_, ?_⟩
  · intro hf
    apply Step_R_writes s hr hop
    unfold Execute_R
    simp +decide only [hf, hb0, ↓reduceIte]
  · intro hf
    apply Step_R_writes s hr hop
    unfold Execute_R
    simp +decide only [hf, hb0, ↓reduceIte]
  · have := Nat.div_add_mod (getRegister s (DecodeFunct_7 s).Frs1)
      (getRegister s (DecodeFunct_7 s).Frs2)
    rw [Nat.mul_comm] at this
    exact this.symm
  · intro hf
    apply Step_R_writes s hr hop
    unfold Execute_R
    simp +decide only [hf, hb0, ↓reduceIte]
    split_ifs with h
    · rw [h.2, tmod_neg_one]
      rfl
    · rfl
  · apply toSigned_ofInt <;> omega
  · omega
  · intro hb1
    rw [hb1]
    have : toSigned 0xFFFFFFFF = -1 := by decide
    rw [this, tmod_neg_one]

/-- Witness of C12: `REM x3, x1, x2` with `x1 = -7` and `x2 = 2` writes the encoding of
the remainder of -7 by 2. -/
theorem unsigned_division_and_remainders_witness :
    Step remNeg = writesReg remNeg 3
      (ofInt (toSigned 0xFFFFFFF9 - toSigned 2 * Int.tdiv (toSigned 0xFFFFFFF9) (toSigned 2))) :=
  (unsigned_division_and_remainders remNeg (by decide) (by decide) 3 0xFFFFFFF9 2
    (by decide) (by decide) (by decide) (by decide) (by decide) (by decide)).2.2.2.1
    (by decide)

theorem toSigned_emod (a : Nat) : toSigned a % 4294967296 = (a : Int) % 4294967296 := by
  unfold toSigned
  split <;> omega

theorem ofInt_congr (i j : Int) (h : i % 4294967296 = j % 4294967296) : ofInt i = ofInt j := by
  unfold ofInt
  rw [h]

theorem ofInt_toSigned_mul (a b : Nat) : ofInt (toSigned a * toSigned b) = (a * b) % W := by
  rw [← ofInt_natCast]
  apply ofInt_congr
  rw [Int.mul_emod, toSigned_emod, toSigned_emod, ← Int.mul_emod]
  push_cast
  rfl

theorem mulh_bits (p : Int) :
    ofInt (p >>> (32 : Nat)) = (p % 18446744073709551616).toNat / 4294967296 := by
  unfold ofInt
  rw [Int.shiftRight_eq_div_pow]
  norm_num
  omega

theorem mulhu_bits (p : Nat) :
    (p >>> 32) % W = p % 18446744073709551616 / 4294967296 := by
  unfold W
  rw [Nat.shiftRight_eq_div_pow]
  norm_num
  omega

theorem mulhsu_bits (x : Int) (b : Nat) :
    ((((x % 18446744073709551616).toNat * b) % 18446744073709551616) >>> 32) % W
      = ((x * (b : Int)) % 18446744073709551616).toNat / 4294967296 := by
  have h : (((x % 18446744073709551616).toNat * b) % 18446744073709551616)
      = ((x * (b : Int)) % 18446744073709551616).toNat := by
    apply Int.ofNat.inj
    simp only [Int.ofNat_eq_coe]
    rw [Int.toNat_of_nonneg (Int.emod_nonneg _ (by decide))]
    push_cast
    rw [Int.toNat_of_nonneg (Int.emod_nonneg _ (by decide))]
    rw [Int.mul_emod, Int.emod_emod, ← Int.mul_emod]
  rw [h, mulhu_bits]
  have h2 : ((x * (b : Int)) % 18446744073709551616).toNat < 18446744073709551616 := by
    omega
  rw [Nat.mod_eq_of_lt h2]

theorem high32_eq (p : Int) :
    Spec.high32 p = (p % 18446744073709551616).toNat / 4294967296 := by
  unfold Spec.high32
  norm_num
  omega

/-- C13.  Multiplication.  On an R-type instruction with operands `a = x[rs1]` and
`b = x[rs2]`: MUL writes the low 32 bits of the product; MULH writes bits 63:32 of the
exact product of `a` and `b` both read as signed; MULHU writes bits 63:32 of the exact
product of `a` and `b` both read as unsigned; MULHSU writes bits 63:32 of the 64-bit
two's-complement encoding of the exact product of `a` read as signed and `b` read as
unsigned. -/
theorem multiplication_results (s : State) (hr : Runnable s)
    (hop : getInstruction s &&& 0x7F = R_type) (rd a b : Nat)
    (hrd : (DecodeFunct_7 s).Frd = rd)
    (ha : getRegister s (DecodeFunct_7 s).Frs1 = a)
    (hb : getRegister s (DecodeFunct_7 s).Frs2 = b) :
    ((DecodeFunct_7 s).Ffunct = R_mul → Step s = writesReg s rd ((a * b) % 2 ^ 32)) ∧
    ((DecodeFunct_7 s).Ffunct = R_mulh →
      Step s = writesReg s rd (Spec.high32 (toSigned a * toSigned b))) ∧
    ((DecodeFunct_7 s).Ffunct = R_mulhu →
      Step s = writesReg s rd (Spec.high32 ((a : Int) * (b : Int)))) ∧
    ((DecodeFunct_7 s).Ffunct = R_mulhsu →
      Step s = writesReg s rd (Spec.high32 (toSigned a * (b : Int)))) := by
  subst hrd ha hb
  refine ⟨?_, ?_, ?_, ?_⟩
  · intro hf
    apply Step_R_writes s hr hop
    unfold Execute_R
    simp +decide only [hf, ↓reduceIte]
    rw [ofInt_toSigned_mul]
    rfl
  · intro hf
    apply Step_R_writes s hr hop
    unfold Execute_R
    simp +decide only [hf, ↓reduceIte]
    rw [mulh_bits, high32_eq]
  · intro hf
    apply Step_R_writes s hr hop
    unfold Execute_R
    simp +decide only [hf, ↓reduceIte]
    rw [mulhu_bits, high32_eq]
    rfl
  · intro hf
    apply Step_R_writes s hr hop
    unfold Execute_R
    simp +decide only [hf, ↓reduceIte]
    rw [mulhsu_bits, high32_eq]

/-- Witness of C13: `MULH x4, x1, x2` with `x1 = -7` and `x2 = 2` writes `0xFFFFFFFF`,
the upper half of -14. -/
theorem multiplication_results_witness :
    Step mulhNeg = writesReg mulhNeg 4 (Spec.high32 (toSigned 0xFFFFFFF9 * toSigned 2)) ∧
    Spec.high32 (toSigned 0xFFFFFFF9 * toSigned 2) = 0xFFFFFFFF :=
  ⟨(multiplication_results mulhNeg (by decide) (by decide) 4 0xFFFFFFF9 2
    (by decide) (by decide) (by decide)).2.1 (by decide), by decide⟩

/-- C14.  Register shifts.  On an R-type instruction with operands `a = x[rs1]` and
`b = x[rs2]`, whatever their values (also `b ≥ 32`): SLL (funct `0x001`) writes
`(a << (b & 0x1F)) mod 2^32`, SRL (`0x005`) writes `a` shifted right logically by
`b & 0x1F`, that is `a / 2^(b mod 32)`, and SRA (`0x105`) writes the encoding of `a` read
as signed shifted right arithmetically by `b & 0x1F`, that is of the quotient rounded
down of the signed value by `2^(b mod 32)`.  Two counts with the same low 5 bits give the
same results. -/
theorem register_shift_ops (s : State) (hr : Runnable s)
    (hop : getInstruction s &&& 0x7F = R_type) (rd a b : Nat)
    (hrd : (DecodeFunct_7 s).Frd = rd)
    (ha : getRegister s (DecodeFunct_7 s).Frs1 = a)
    (hb : getRegister s (DecodeFunct_7 s).Frs2 = b) :
    ((DecodeFunct_7 s).Ffunct = 0x001 →
      Step s = writesReg s rd ((a <<< (b &&& 0x1F)) % 2 ^ 32)) ∧
    ((DecodeFunct_7 s).Ffunct = 0x005 → Step s = writesReg s rd (a >>> (b &&& 0x1F))) ∧
    ((DecodeFunct_7 s).Ffunct = 0x105 →
      Step s = writesReg s rd (ofInt (toSigned a >>> (b &&& 0x1F)))) ∧
    a >>> (b &&& 0x1F) = a / 2 ^ (b % 32) ∧
    toSigned a >>> (b &&& 0x1F) = toSigned a / 2 ^ (b % 32) ∧
    (∀ c : Nat, c &&& 0x1F = b &&& 0x1F →
      (a <<< (c &&& 0x1F)) % 2 ^ 32 = (a <<< (b &&& 0x1F)) % 2 ^ 32 ∧
      a >>> (c &&& 0x1F) = a >>> (b &&& 0x1F) ∧
      toSigned a >>> (c &&& 0x1F) = toSigned a >>> (b &&& 0x1F)) := by
  have h5 : b &&& 0x1F = b % 32 := by
    have := Nat.and_pow_two_sub_one_eq_mod b 5
    norm_num at this
    exact this
  subst hrd ha hb
  refine ⟨?_, ?_, ?_, ?_, ?_, ?_⟩
  · intro hf
    apply Step_R_writes s hr hop
    unfold Execute_R
    simp +decide only [hf, ↓reduceIte]
    rw [h5]
    rfl
  · intro hf
    apply Step_R_writes s hr hop
    unfold Execute_R
    simp +decide only [hf, ↓reduceIte]
    rw [h5]
  · intro hf
    apply Step_R_writes s hr hop
    unfold Execute_R
    simp +decide only [hf, ↓reduceIte]
    rw [h5]
  · rw [h5, Nat.shiftRight_eq_div_pow]
  · rw [h5, Int.shiftRight_eq_div_pow]
    push_cast
    rfl
  · intro c hc
    rw [hc]
    exact ⟨rfl, rfl, rfl⟩

/-- Witness of C14: with `x1 = 1` and `x2 = 32`, `SLL x3, x1, x2` writes 1, and with
`x5 = 0x80000000`, `SRA x6, x5, x2` writes `0x80000000`: the count 32 shifts by 0. -/
theorem register_shift_ops_witness :
    (Step shiftSll = writesReg shiftSll 3 ((1 <<< (32 &&& 0x1F)) % 2 ^ 32) ∧
      (1 <<< (32 &&& 0x1F)) % 2 ^ 32 = 1) ∧
    (Step shiftSra
        = writesReg shiftSra 6 (ofInt (toSigned 0x80000000 >>> ((32 : Nat) &&& 0x1F))) ∧
      ofInt (toSigned 0x80000000 >>> ((32 : Nat) &&& 0x1F)) = 0x80000000) :=
  ⟨⟨(register_shift_ops shiftSll (by decide) (by decide) 3 1 32 (by decide) (by decide)
      (by decide)).1 (by decide), by decide⟩,
    ⟨(register_shift_ops shiftSra (by decide) (by decide) 6 0x80000000 32 (by decide)
      (by decide) (by decide)).2.2.1 (by decide), by decide⟩⟩

/-- C15.  Register-register arithmetic.  On an R-type instruction the function code is
`(I[31:25] << 3) | I[14:12]`, and with operands `a = x[rs1]`, `b = x[rs2]`: ADD (0x000)
writes `(a + b) mod 2^32`, SUB (0x100) writes `(a - b) mod 2^32`, XOR (0x004), OR (0x006)
and AND (0x007) write the bitwise results, SLT (0x002) writes 1 if `a < b` as signed
integers and 0 otherwise, SLTU (0x003) writes 1 if `a < b` as unsigned integers and 0
otherwise; so SLT of `0xFFFFFFFF` (-1) and 1 writes 1 and SLTU of the same operands
writes 0. -/
theorem register_register_ops (s : State) (hr : Runnable s)
    (hop : getInstruction s &&& 0x7F = R_type) (rd a b : Nat)
    (hrd : (DecodeFunct_7 s).Frd = rd)
    (ha : getRegister s (DecodeFunct_7 s).Frs1 = a)
    (hb : getRegister s (DecodeFunct_7 s).Frs2 = b) :
    (DecodeFunct_7 s).Ffunct
      = (field (getInstruction s) 25 7 <<< 3) ||| field (getInstruction s) 12 3 ∧
    ((DecodeFunct_7 s).Ffunct = 0x000 → Step s = writesReg s rd ((a + b) % 2 ^ 32)) ∧
    ((DecodeFunct_7 s).Ffunct = 0x100 →
      Step s = writesReg s rd ((((a : Int) - (b : Int)) % 2 ^ 32).toNat)) ∧
    ((DecodeFunct_7 s).Ffunct = 0x004 → Step s = writesReg s rd (a ^^^ b)) ∧
    ((DecodeFunct_7 s).Ffunct = 0x006 → Step s = writesReg s rd (a ||| b)) ∧
    ((DecodeFunct_7 s).Ffunct = 0x007 → Step s = writesReg s rd (a &&& b)) ∧
    ((DecodeFunct_7 s).Ffunct = 0x002 →
      Step s = writesReg s rd (if toSigned a < toSigned b then 1 else 0)) ∧
    ((DecodeFunct_7 s).Ffunct = 0x003 →
      Step s = writesReg s rd (if a < b then 1 else 0)) ∧
    ((DecodeFunct_7 s).Ffunct = 0x002 → a = 0xFFFFFFFF → b = 1 →
      toSigned a = -1 ∧ Step s = writesReg s rd 1) ∧
    ((DecodeFunct_7 s).Ffunct = 0x003 → a = 0xFFFFFFFF → b = 1 →
      Step s = writesReg s rd 0) := by
  subst hrd ha hb
  refine ⟨rfl, ?_, ?_, ?_, ?_, ?_, ?_, ?_, ?_, ?_⟩
  · intro hf
    apply Step_R_writes s hr hop
    unfold Execute_R
    simp +decide only [hf, ↓reduceIte]
    rw [ofInt_toSigned_add]
    rfl
  · intro hf
    apply Step_R_writes s hr hop
    unfold Execute_R
    simp +decide only [hf, ↓reduceIte]
    rw [ofInt_toSigned_sub]
    rfl
  · intro hf
    apply Step_R_writes s hr hop
    unfold Execute_R
    simp +decide only [hf, ↓reduceIte]
  · intro hf
    apply Step_R_writes s hr hop
    unfold Execute_R
    simp +decide only [hf, ↓reduceIte]
  · intro hf
    apply Step_R_writes s hr hop
    unfold Execute_R
    simp +decide only [hf, ↓reduceIte]
  · intro hf
    apply Step_R_writes s hr hop
    unfold Execute_R
    simp +decide only [hf, ↓reduceIte]
  · intro hf
    apply Step_R_writes s hr hop
    unfold Execute_R
    simp +decide only [hf, ↓reduceIte]
  · intro hf h1 h2
    refine ⟨by rw [h1]; decide, ?_⟩
    apply Step_R_writes s hr hop
    unfold Execute_R
    simp +decide only [hf, h1, h2, ↓reduceIte]
  · intro hf h1 h2
    apply Step_R_writes s hr hop
    unfold Execute_R
    simp +decide only [hf, h1, h2, ↓reduceIte]

/-- Witness of C15: `SLT x3, x1, x2` with `x1 = 0xFFFFFFFF` and `x2 = 1` writes 1. -/
theorem register_register_ops_witness :
    Step compareSlt = writesReg compareSlt 3 1 :=
  ((register_register_ops compareSlt (by decide) (by decide) 3 0xFFFFFFFF 1
    (by decide) (by decide) (by decide)).2.2.2.2.2.2.2.2.1 (by decide) rfl rfl).2

/-! ### The 12-bit immediate -/

set_option maxRecDepth 100000 in
/-- The sign fix-up of `DecodeImm_I` on every 12-bit value `32 * q + r`. -/
theorem signFix12_cases : ∀ q : Fin 128, ∀ r : Fin 32,
    (if (32 * q.val + r.val) &&& 0x800 ≠ 0 then (32 * q.val + r.val) ||| 0xFFFFF000
      else 32 * q.val + r.val)
      = (if q.val < 64 then 32 * q.val + r.val else 32 * q.val + r.val + 0xFFFFF000) ∧
    (if (32 * q.val + r.val) &&& 0x800 ≠ 0 then (32 * q.val + r.val) ||| 0xFFFFF000
      else 32 * q.val + r.val) &&& 0x1F = r.val ∧
    (if (32 * q.val + r.val) &&& 0x800 ≠ 0 then (32 * q.val + r.val) ||| 0xFFFFF000
      else 32 * q.val + r.val) &&& 0xFE0 = 32 * q.val := by
  decide

theorem signFix12 (x : Nat) (hx : x < 4096) :
    (if x &&& 0x800 ≠ 0 then x ||| 0xFFFFF000 else x)
      = (if x < 2048 then x else x + 0xFFFFF000) ∧
    (if x &&& 0x800 ≠ 0 then x ||| 0xFFFFF000 else x) &&& 0x1F = x % 32 ∧
    (if x &&& 0x800 ≠ 0 then x ||| 0xFFFFF000 else x) &&& 0xFE0 = 32 * (x / 32) := by
  have h := signFix12_cases ⟨x / 32, by omega⟩ ⟨x % 32, Nat.mod_lt _ (by decide)⟩
  simp only at h
  have e : 32 * (x / 32) + x % 32 = x := Nat.div_add_mod x 32
  rw [e] at h
  refine ⟨?_, h.2.1, h.2.2⟩
  rw [h.1]
  by_cases h1 : x < 2048
  · rw [if_pos h1, if_pos (by omega)]
  · rw [if_neg h1, if_neg (by omega)]

theorem field_lt (x lo n : Nat) : field x lo n < 2 ^ n := by
  unfold field
  exact Nat.mod_lt _ (Nat.pow_pos (by decide))

/-- The immediate of `DecodeImm_I`: its pattern, its signed value, its bits. -/
theorem DecodeImm_I_Fimm (s : State) :
    (DecodeImm_I s).Fimm
      = ofInt (Spec.sign_extend (field (getInstruction s) 20 12) 12) ∧
    toSigned (DecodeImm_I s).Fimm
      = Spec.sign_extend (field (getInstruction s) 20 12) 12 ∧
    (DecodeImm_I s).Fimm &&& 0x1F = field (getInstruction s) 20 5 ∧
    (DecodeImm_I s).Fimm &&& 0xFE0 = 32 * field (getInstruction s) 25 7 := by
  have hx : field (getInstruction s) 20 12 < 4096 := field_lt _ 20 12
  have h := signFix12 (field (getInstruction s) 20 12) hx
  have hF : (DecodeImm_I s).Fimm
      = if field (getInstruction s) 20 12 &&& 0x800 ≠ 0
        then field (getInstruction s) 20 12 ||| 0xFFFFF000
        else field (getInstruction s) 20 12 := rfl
  rw [hF]
  refine ⟨?_, ?_, ?_, ?_⟩
  · rw [h.1]
    unfold ofInt Spec.sign_extend
    norm_num
    split <;> omega
  · rw [h.1]
    unfold toSigned Spec.sign_extend
    norm_num
    split <;> split <;> omega
  · rw [h.2.1]
    unfold field
    simp only [Nat.shiftRight_eq_div_pow]
    norm_num
  · rw [h.2.2]
    unfold field
    simp only [Nat.shiftRight_eq_div_pow]
    norm_num
    omega

theorem add_ofInt (a : Nat) (i : Int) : (a + ofInt i) % W = ofInt ((a : Int) + i) := by
  unfold ofInt W
  omega

theorem xor_allOnes (a : Nat) (ha : a < W) : a ^^^ 0xFFFFFFFF = 0xFFFFFFFF - a := by
  unfold W at ha
  have h1 : (0xFFFFFFFF : Nat) = 2 ^ 32 - 1 := by norm_num
  have h2 : (0xFFFFFFFF : Nat) - a = 2 ^ 32 - (a + 1) := by omega
  have ha2 : a < 2 ^ 32 := by omega
  rw [h2, h1]
  apply Nat.eq_of_testBit_eq
  intro i
  rw [Nat.testBit_xor, Nat.testBit_two_pow_sub_one, Nat.testBit_two_pow_sub_succ ha2]
  by_cases hi : i < 32
  · simp [hi]
  · have : a.testBit i = false := by
      apply Nat.testBit_lt_two_pow
      calc a < 2 ^ 32 := ha2
        _ ≤ 2 ^ i := Nat.pow_le_pow_right (by decide) (by omega)
    simp [hi, this]

/-- C16.  Register-immediate arithmetic.  On an OP-IMM instruction with `a = x[rs1]` and
`imm = sign_extend(I[31:20], 12)`, the decoded immediate is the 32-bit pattern of `imm`
and: ADDI (funct3 0) writes `(a + imm) mod 2^32`; XORI (4), ORI (6) and ANDI (7) write
the bitwise result of `a` with that pattern, so XORI with `imm = -1` writes the bitwise
complement of `a`; SLTI (2) writes 1 if `a < imm` as signed integers and 0 otherwise;
SLTIU (3) writes 1 if `a` is below the pattern of `imm` read as unsigned and 0
otherwise. -/
theorem register_immediate_ops (s : State) (hr : Runnable s)
    (hop : getInstruction s &&& 0x7F = I_bits_type) (rd a : Nat) (imm : Int)
    (hrd : (DecodeImm_I s).Frd = rd)
    (ha : getRegister s (DecodeImm_I s).Frs1 = a)
    (himm : Spec.sign_extend (field (getInstruction s) 20 12) 12 = imm) :
    (DecodeImm_I s).Fimm = ofInt imm ∧
    ((DecodeImm_I s).Ffunct = 0x0 → Step s = writesReg s rd (ofInt ((a : Int) + imm))) ∧
    ((DecodeImm_I s).Ffunct = 0x4 → Step s = writesReg s rd (a ^^^ ofInt imm)) ∧
    ((DecodeImm_I s).Ffunct = 0x6 → Step s = writesReg s rd (a ||| ofInt imm)) ∧
    ((DecodeImm_I s).Ffunct = 0x7 → Step s = writesReg s rd (a &&& ofInt imm)) ∧
    ((DecodeImm_I s).Ffunct = 0x4 → imm = -1 → a < W →
      Step s = writesReg s rd (0xFFFFFFFF - a)) ∧
    ((DecodeImm_I s).Ffunct = 0x2 →
      Step s = writesReg s rd (if toSigned a < imm then 1 else 0)) ∧
    ((DecodeImm_I s).Ffunct = 0x3 →
      Step s = writesReg s rd (if a < ofInt imm then 1 else 0)) := by
  have hF := DecodeImm_I_Fimm s
  rw [himm] at hF
  subst hrd ha
  refine ⟨hF.1, ?_, ?_, ?_, ?_, ?_, ?_, ?_⟩
  · intro hf
    apply Step_I_writes s hr hop
    unfold Execute_I_bits
    simp +decide only [hf, ↓reduceIte]
    rw [hF.1, add_ofInt]
  · intro hf
    apply Step_I_writes s hr hop
    unfold Execute_I_bits
    simp +decide only [hf, ↓reduceIte]
    rw [hF.1]
  · intro hf
    apply Step_I_writes s hr hop
    unfold Execute_I_bits
    simp +decide only [hf, ↓reduceIte]
    rw [hF.1]
  · intro hf
    apply Step_I_writes s hr hop
    unfold Execute_I_bits
    simp +decide only [hf, ↓reduceIte]
    rw [hF.1]
  · intro hf h1 ha32
    apply Step_I_writes s hr hop
    unfold Execute_I_bits
    simp +decide only [hf, ↓reduceIte]
    rw [hF.1, h1, ← xor_allOnes _ ha32]
    rfl
  · intro hf
    apply Step_I_writes s hr hop
    unfold Execute_I_bits
    simp +decide only [hf, ↓reduceIte]
    rw [hF.2.1]
  · intro hf
    apply Step_I_writes s hr hop
    unfold Execute_I_bits
    simp +decide only [hf, ↓reduceIte]
    rw [hF.1]

/-- Witness of C16: `XORI x3, x1, -1` with `x1 = 0xFFFFFFF9` writes the complement 6. -/
theorem register_immediate_ops_witness :
    Step immXori = writesReg immXori 3 (0xFFFFFFFF - 0xFFFFFFF9) :=
  (register_immediate_ops immXori (by decide) (by decide) 3 0xFFFFFFF9 (-1)
    (by decide) (by decide) (by decide)).2.2.2.2.2.1 (by decide) rfl (by decide)

/-- C17.  Right shifts by an immediate.  On an OP-IMM instruction with funct3 = 5 and
`a = x[rs1]`: if `imm[11:5] = 0x00` the step writes `a` shifted right logically by
`imm[4:0]`, that is `a / 2^imm[4:0]`; if `imm[11:5] = 0x20` it writes the encoding of
`a` read as signed shifted right arithmetically by `imm[4:0]`, that is of the quotient
rounded down of the signed value by `2^imm[4:0]`; for every other `imm[11:5]` it throws
IllegalFunction and changes nothing. -/
theorem shift_right_immediate (s : State) (hr : Runnable s)
    (hop : getInstruction s &&& 0x7F = I_bits_type) (rd a : Nat)
    (hrd : (DecodeImm_I s).Frd = rd)
    (ha : getRegister s (DecodeImm_I s).Frs1 = a)
    (hf : (DecodeImm_I s).Ffunct = 0x5) :
    (field (getInstruction s) 25 7 = 0x00 →
      Step s = writesReg s rd (a / 2 ^ field (getInstruction s) 20 5)) ∧
    (field (getInstruction s) 25 7 = 0x20 →
      Step s = writesReg s rd (ofInt (toSigned a / 2 ^ field (getInstruction s) 20 5))) ∧
    (field (getInstruction s) 25 7 ≠ 0x00 → field (getInstruction s) 25 7 ≠ 0x20 →
      Step s = Outcome.raised Fault.IllegalFunction s) := by
  have hF := DecodeImm_I_Fimm s
  subst hrd ha
  refine ⟨?_, ?_, ?_⟩
  · intro h7
    apply Step_I_writes s hr hop
    unfold Execute_I_bits
    simp +decide only [hf, hF.2.2.1, hF.2.2.2, h7, ↓reduceIte]
    rw [Nat.shiftRight_eq_div_pow]
  · intro h7
    apply Step_I_writes s hr hop
    unfold Execute_I_bits
    simp +decide only [hf, hF.2.2.1, hF.2.2.2, h7, ↓reduceIte]
    rw [Int.shiftRight_eq_div_pow]
    push_cast
    rfl
  · intro h0 h20
    apply Step_raised s hr
    rw [Process_I_bits s hop]
    unfold Execute_I_bits
    have e1 : ¬ (32 * field (getInstruction s) 25 7 = 0x400) := by omega
    have e2 : ¬ (32 * field (getInstruction s) 25 7 = 0) := by omega
    simp +decide only [hf, hF.2.2.2, e1, e2, ↓reduceIte]
    rfl

/-- Witness of C17: `SRAI x4, x1, 1` with `x1 = 0xFFFFFFF9` (-7) writes the encoding of
-4. -/
theorem shift_right_immediate_witness :
    Step immSrai = writesReg immSrai 4 (ofInt (toSigned 0xFFFFFFF9 / 2 ^ 1)) ∧
    ofInt (toSigned 0xFFFFFFF9 / 2 ^ 1) = 0xFFFFFFFC :=
  ⟨(shift_right_immediate immSrai (by decide) (by decide) 4 0xFFFFFFF9
    (by decide) (by decide) (by decide)).2.1 (by decide), by decide⟩

/-- C18, counterexample.  With `x1 = 0xFFFFFFF9`, the OP-IMM instruction with funct3 = 5
and immediate 33 throws IllegalFunction and leaves x6 at 0, whereas the same instruction
with immediate `33 & 0x1F = 1` is `SRLI x6, x1, 1` and writes `0x7FFFFFFC` to x6. -/
theorem srli_33_is_not_srli_1 :
    getRegister immSrli33 1 = 0xFFFFFFF9 ∧ getRegister immSrli1 1 = 0xFFFFFFF9 ∧
    (DecodeImm_I immSrli33).Ffunct = 5 ∧ (DecodeImm_I immSrli1).Ffunct = 5 ∧
    field (getInstruction immSrli33) 20 12 = 33 ∧
    field (getInstruction immSrli1) 20 12 = 33 &&& 0x1F ∧
    (Step immSrli33).fault = some Fault.IllegalFunction ∧
    getRegister (Step immSrli33).state 6 = 0 ∧
    (Step immSrli1).fault = none ∧
    getRegister (Step immSrli1).state 6 = 0x7FFFFFFC := by
  decide

/-- C18, amended.  SLLI and SRLI with a well-formed immediate shift by its low 5 bits.
On an OP-IMM instruction with `a = x[rs1]`, 12-bit immediate `imm = I[31:20]` and
`imm[11:5] = 0`: funct3 = 1 (SLLI) writes `(a << (imm & 0x1F)) mod 2^32` and funct3 = 5
(SRLI) writes `a >> (imm & 0x1F)`.  A funct3 = 5 instruction whose `imm[11:5]` is
neither `0x00` nor `0x20` is not masked: the step throws IllegalFunction and changes
nothing. -/
theorem shift_immediate_amount (s : State) (hr : Runnable s)
    (hop : getInstruction s &&& 0x7F = I_bits_type) (rd a : Nat)
    (hrd : (DecodeImm_I s).Frd = rd)
    (ha : getRegister s (DecodeImm_I s).Frs1 = a) :
    ((DecodeImm_I s).Ffunct = 0x1 → field (getInstruction s) 25 7 = 0 →
      Step s = writesReg s rd ((a <<< (field (getInstruction s) 20 12 &&& 0x1F)) % 2 ^ 32)) ∧
    ((DecodeImm_I s).Ffunct = 0x5 → field (getInstruction s) 25 7 = 0 →
      Step s = writesReg s rd (a >>> (field (getInstruction s) 20 12 &&& 0x1F))) ∧
    ((DecodeImm_I s).Ffunct = 0x5 → field (getInstruction s) 25 7 ≠ 0x00 →
      field (getInstruction s) 25 7 ≠ 0x20 →
      Step s = Outcome.raised Fault.IllegalFunction s) := by
  have hF := DecodeImm_I_Fimm s
  have h5 : field (getInstruction s) 20 12 &&& 0x1F = field (getInstruction s) 20 5 := by
    have := Nat.and_pow_two_sub_one_eq_mod (field (getInstruction s) 20 12) 5
    norm_num at this
    rw [this]
    unfold field
    simp only [Nat.shiftRight_eq_div_pow]
    norm_num
  rw [h5]
  subst hrd ha
  refine ⟨?_, ?_, ?_⟩
  · intro hf _
    apply Step_I_writes s hr hop
    unfold Execute_I_bits
    simp +decide only [hf, hF.2.2.1, ↓reduceIte]
    rfl
  · intro hf h7
    apply Step_I_writes s hr hop
    unfold Execute_I_bits
    simp +decide only [hf, hF.2.2.1, hF.2.2.2, h7, ↓reduceIte]
  · intro hf h0 h20
    apply Step_raised s hr
    rw [Process_I_bits s hop]
    unfold Execute_I_bits
    have e1 : ¬ (32 * field (getInstruction s) 25 7 = 0x400) := by omega
    have e2 : ¬ (32 * field (getInstruction s) 25 7 = 0) := by omega
    simp +decide only [hf, hF.2.2.2, e1, e2, ↓reduceIte]
    rfl

/-- Witness of the amended C18: `SLLI x5, x2, 3` with `x2 = 0x20`, and the funct3 = 5 instruction with
immediate 33. -/
theorem shift_immediate_amount_witness :
    Step slli3 = writesReg slli3 5 ((0x20 <<< (3 &&& 0x1F)) % 2 ^ 32) ∧
    Step immSrli33 = Outcome.raised Fault.IllegalFunction immSrli33 :=
  ⟨(shift_immediate_amount slli3 (by decide) (by decide) 5 0x20 (by decide) (by decide)).1
      (by decide) (by decide),
   (shift_immediate_amount immSrli33 (by decide) (by decide) 6 0xFFFFFFF9 (by decide)
      (by decide)).2.2 (by decide) (by decide) (by decide)⟩

/-- C19, evaluation of the code.  With `x1 = 0xFFFFFFF9`, the OP-IMM instruction with
funct3 = 1 and immediate 33 (`imm[11:5] = 1`) does not throw: the step returns normally
with `0xFFFFFFF2`, the value of x1 shifted left by `33 & 0x1F = 1`, in x5. -/
theorem slli_malformed_immediate_accepted :
    getRegister immSlli33 1 = 0xFFFFFFF9 ∧
    (DecodeImm_I immSlli33).Ffunct = 1 ∧
    field (getInstruction immSlli33) 20 12 = 33 ∧
    field (getInstruction immSlli33) 25 7 = 1 ∧
    (Step immSlli33).fault = none ∧
    getRegister (Step immSlli33).state 5 = 0xFFFFFFF2 ∧
    (0xFFFFFFF9 <<< (33 &&& 0x1F)) % 2 ^ 32 = 0xFFFFFFF2 := by
  decide

/-! ### Loads -/

theorem read8_lt (host : Nat → Nat) (p : Nat) : read8 host p < 256 := by
  unfold read8
  omega

/-- Little-endian composition of four bytes with shifts and bitwise or. -/
theorem compose_bytes (b0 b1 b2 b3 : Nat) (h0 : b0 < 256) (h1 : b1 < 256) (h2 : b2 < 256) :
    b0 ||| b1 <<< 8 ||| b2 <<< 16 ||| b3 <<< 24
      = b0 + 256 * b1 + 65536 * b2 + 16777216 * b3 := by
  have e1 : b0 ||| b1 <<< 8 = b0 + 256 * b1 := by
    have := Nat.mul_add_lt_is_or (show b0 < 2 ^ 8 by omega) b1
    rw [Nat.shiftLeft_eq, Nat.or_comm, Nat.mul_comm, ← this]
    omega
  have e2 : b0 + 256 * b1 ||| b2 <<< 16 = b0 + 256 * b1 + 65536 * b2 := by
    have := Nat.mul_add_lt_is_or (show b0 + 256 * b1 < 2 ^ 16 by omega) b2
    rw [Nat.shiftLeft_eq, Nat.or_comm, Nat.mul_comm, ← this]
    omega
  have e3 : b0 + 256 * b1 + 65536 * b2 ||| b3 <<< 24
      = b0 + 256 * b1 + 65536 * b2 + 16777216 * b3 := by
    have := Nat.mul_add_lt_is_or (show b0 + 256 * b1 + 65536 * b2 < 2 ^ 24 by omega) b3
    rw [Nat.shiftLeft_eq, Nat.or_comm, Nat.mul_comm, ← this]
    omega
  rw [e1, e2, e3]

theorem compose_half (b0 b1 : Nat) (h0 : b0 < 256) : b0 ||| b1 <<< 8 = b0 + 256 * b1 := by
  have := Nat.mul_add_lt_is_or (show b0 < 2 ^ 8 by omega) b1
  rw [Nat.shiftLeft_eq, Nat.or_comm, Nat.mul_comm, ← this]
  omega

theorem getMemory_data (s : State) (a : Nat) (hin : a ≤ s.FcMemory)
    (hout : ¬ (s.FminText ≤ a ∧ a < s.FmaxText)) :
    getMemory s a = .ok (s.FpMemory + a) := by
  unfold getMemory
  rw [if_neg (by omega), if_neg (by omega)]

theorem read32_bytes (s : State) (a : Nat) :
    read32 s.host (s.FpMemory + a)
      = byteAt s a ||| byteAt s (a + 1) <<< 8 ||| byteAt s (a + 2) <<< 16
        ||| byteAt s (a + 3) <<< 24 := by
  unfold byteAt
  rw [compose_bytes _ _ _ _ (read8_lt _ _) (read8_lt _ _) (read8_lt _ _)]
  unfold read32
  simp only [Nat.add_assoc]

theorem read16_bytes (s : State) (a : Nat) :
    read16 s.host (s.FpMemory + a) = byteAt s a ||| byteAt s (a + 1) <<< 8 := by
  unfold byteAt
  rw [compose_half _ _ (read8_lt _ _)]
  unfold read16
  simp only [Nat.add_assoc]

theorem shortVal_eq (h : Nat) : shortVal h = Spec.sign_extend h 16 := by
  unfold shortVal Spec.sign_extend
  norm_num

theorem charVal_eq (b : Nat) : charVal b = Spec.sign_extend b 8 := by
  unfold charVal Spec.sign_extend
  norm_num

/-- A step on a load whose executor assigns `v` to `Reg[rd]`. -/
theorem Step_load_writes (s : State) (hr : Runnable s)
    (hop : getInstruction s &&& 0x7F = I_load_type) (v : Nat)
    (h : Execute_I_load (DecodeImm_I s) s = .ok (setRegister s (DecodeImm_I s).Frd v)) :
    Step s = writesReg s (DecodeImm_I s).Frd v :=
  Step_writesReg s hr _ v (by rw [Process_load s hop, h])

/-- C20.  Loads from data memory.  On a load instruction whose address
`ea = (x[rs1] + sign_extend(I[31:20], 12)) mod 2^32` is outside the text range and
in bounds for the width of the access, whatever its alignment: LW (funct3 2) writes
`mem[ea] | mem[ea+1] << 8 | mem[ea+2] << 16 | mem[ea+3] << 24`; LH (1) and LHU (5) read
the halfword `mem[ea] | mem[ea+1] << 8`, LH sign-extended from bit 15 and LHU as it is;
LB (0) and LBU (4) read the byte `mem[ea]`, LB sign-extended from bit 7 and LBU as it
is, so the byte `0xFF` gives `0xFFFFFFFF` with LB and `0x000000FF` with LBU. -/
theorem load_values (s : State) (hr : Runnable s)
    (hop : getInstruction s &&& 0x7F = I_load_type) (rd ea : Nat)
    (hrd : (DecodeImm_I s).Frd = rd)
    (hea : effAddr (DecodeImm_I s) s = ea)
    (hout : ¬ (s.FminText ≤ ea ∧ ea < s.FmaxText)) :
    ea = ofInt ((getRegister s (DecodeImm_I s).Frs1 : Int)
      + Spec.sign_extend (field (getInstruction s) 20 12) 12) ∧
    ((DecodeImm_I s).Ffunct = 0x2 → ea + 4 ≤ s.FcMemory →
      Step s = writesReg s rd
        (byteAt s ea ||| byteAt s (ea + 1) <<< 8 ||| byteAt s (ea + 2) <<< 16
          ||| byteAt s (ea + 3) <<< 24)) ∧
    ((DecodeImm_I s).Ffunct = 0x1 → ea + 2 ≤ s.FcMemory →
      Step s = writesReg s rd
        (ofInt (Spec.sign_extend (byteAt s ea ||| byteAt s (ea + 1) <<< 8) 16))) ∧
    ((DecodeImm_I s).Ffunct = 0x5 → ea + 2 ≤ s.FcMemory →
      Step s = writesReg s rd (byteAt s ea ||| byteAt s (ea + 1) <<< 8)) ∧
    ((DecodeImm_I s).Ffunct = 0x0 → ea + 1 ≤ s.FcMemory →
      Step s = writesReg s rd (ofInt (Spec.sign_extend (byteAt s ea) 8))) ∧
    ((DecodeImm_I s).Ffunct = 0x4 → ea + 1 ≤ s.FcMemory →
      Step s = writesReg s rd (byteAt s ea)) ∧
    ((DecodeImm_I s).Ffunct = 0x0 → ea + 1 ≤ s.FcMemory → byteAt s ea = 0xFF →
      Step s = writesReg s rd 0xFFFFFFFF) ∧
    ((DecodeImm_I s).Ffunct = 0x4 → ea + 1 ≤ s.FcMemory → byteAt s ea = 0xFF →
      Step s = writesReg s rd 0x000000FF) := by
  have hF := DecodeImm_I_Fimm s
  subst hrd hea
  have hmem : ∀ w : Nat, effAddr (DecodeImm_I s) s + w ≤ s.FcMemory →
      getMemory s (effAddr (DecodeImm_I s) s)
        = .ok (s.FpMemory + effAddr (DecodeImm_I s) s) :=
    fun w hw => getMemory_data s _ (by omega) hout
  have hlb : (DecodeImm_I s).Ffunct = 0x0 → effAddr (DecodeImm_I s) s + 1 ≤ s.FcMemory →
      Step s = writesReg s (DecodeImm_I s).Frd
        (ofInt (Spec.sign_extend (byteAt s (effAddr (DecodeImm_I s) s)) 8)) := by
    intro hf hin
    apply Step_load_writes s hr hop
    unfold Execute_I_load
    simp +decide only [hf, hmem 1 hin, ↓reduceIte]
    rw [charVal_eq]
    rfl
  have hlbu : (DecodeImm_I s).Ffunct = 0x4 → effAddr (DecodeImm_I s) s + 1 ≤ s.FcMemory →
      Step s = writesReg s (DecodeImm_I s).Frd (byteAt s (effAddr (DecodeImm_I s) s)) := by
    intro hf hin
    apply Step_load_writes s hr hop
    unfold Execute_I_load
    simp +decide only [hf, hmem 1 hin, ↓reduceIte]
    rfl
  refine ⟨?_, ?_, ?_, ?_, hlb, hlbu, ?_, ?_⟩
  · unfold effAddr
    rw [hF.1, add_ofInt]
  · intro hf hin
    apply Step_load_writes s hr hop
    unfold Execute_I_load
    simp +decide only [hf, hmem 4 hin, ↓reduceIte]
    rw [read32_bytes]
  · intro hf hin
    apply Step_load_writes s hr hop
    unfold Execute_I_load
    simp +decide only [hf, hmem 2 hin, ↓reduceIte]
    rw [read16_bytes, shortVal_eq]
  · intro hf hin
    apply Step_load_writes s hr hop
    unfold Execute_I_load
    simp +decide only [hf, hmem 2 hin, ↓reduceIte]
    rw [read16_bytes]
  · intro hf hin hb
    rw [hlb hf hin, hb]
    rfl
  · intro hf hin hb
    rw [hlbu hf hin, hb]

/-- Witness of C20: the unaligned `LW x5, 9(x0)` composes the bytes `22 33 44 55` at
addresses 9 to 12 into `0x55443322`, and `LB x6, 15(x0)` on the byte `0xFF` writes
`0xFFFFFFFF`. -/
theorem load_values_witness :
    (Step loadProg = writesReg loadProg 5
      (byteAt loadProg 9 ||| byteAt loadProg (9 + 1) <<< 8 ||| byteAt loadProg (9 + 2) <<< 16
        ||| byteAt loadProg (9 + 3) <<< 24) ∧
     byteAt loadProg 9 ||| byteAt loadProg (9 + 1) <<< 8 ||| byteAt loadProg (9 + 2) <<< 16
        ||| byteAt loadProg (9 + 3) <<< 24 = 0x55443322) ∧
    Step loadLb = writesReg loadLb 6 0xFFFFFFFF :=
  ⟨⟨(load_values loadProg (by decide) (by decide) 5 9 (by decide) (by decide)
      (by decide)).2.1 (by decide) (by decide), by decide⟩,
   (load_values loadLb (by decide) (by decide) 6 15 (by decide) (by decide)
      (by decide)).2.2.2.2.2.2.1 (by decide) (by decide) (by decide)⟩

/-! ### Immediates of the decoders -/

/-- Bitwise or with a multiple of `2 ^ i` of a value below `2 ^ i` is their sum. -/
theorem or_eq_add (i a b : Nat) (hb : b < 2 ^ i) : 2 ^ i * a ||| b = 2 ^ i * a + b :=
  (Nat.mul_add_lt_is_or hb a).symm

/-- The test of bit `k` of a value below `2 ^ (k + 1)`. -/
theorem and_two_pow_ne_zero (k x : Nat) (hx : x < 2 ^ (k + 1)) :
    x &&& 2 ^ k ≠ 0 ↔ 2 ^ k ≤ x := by
  rw [Nat.and_two_pow]
  have hpos : 0 < 2 ^ k := Nat.pow_pos (by decide)
  have h2 : 2 ^ (k + 1) = 2 * 2 ^ k := by rw [Nat.pow_succ]; omega
  by_cases hb : x.testBit k
  · have : 2 ^ k ≤ x := Nat.testBit_implies_ge hb
    simp [hb, this, Nat.ne_of_gt hpos]
  · have hlt : x < 2 ^ k := by
      by_contra hge
      have hge : 2 ^ k ≤ x := Nat.le_of_not_lt hge
      have h1 : x / 2 ^ k = 1 := by
        apply Nat.div_eq_of_lt_le
        · simpa using hge
        · rw [h2] at hx; simpa [Nat.mul_comm] using hx
      have : x.testBit k = true := by
        rw [Nat.testBit_to_div_mod, h1]
        decide
      exact hb this
    simp [hb, Nat.not_le.mpr hlt]

/-- The sign fix-up of the decoders, `if (imm & signbit) imm |= ones`, on a field of
`k + 1` bits: the pattern is unchanged below `2 ^ k` and gets the high bits added
from `2 ^ k` on. -/
theorem signFix (k c x : Nat) (hx : x < 2 ^ (k + 1)) :
    (if x &&& 2 ^ k ≠ 0 then x ||| 2 ^ (k + 1) * c else x)
      = if x < 2 ^ k then x else x + 2 ^ (k + 1) * c := by
  have h := and_two_pow_ne_zero k x hx
  by_cases hlt : x < 2 ^ k
  · rw [if_neg (by rw [h]; omega), if_pos hlt]
  · rw [if_pos (by rw [h]; omega), if_neg hlt, Nat.or_comm, or_eq_add _ _ _ hx]
    omega

theorem field_eq_bits (x lo n : Nat) (hn : 0 < n) :
    field x lo n = Spec.bits x (lo + n - 1) lo := by
  unfold field Spec.bits
  rw [Nat.shiftRight_eq_div_pow]
  congr 2
  omega

theorem getInstruction_lt (s : State) : getInstruction s < W := by
  unfold getInstruction read32 W
  have h0 := read8_lt s.host (s.FpMemory + s.FPC)
  have h1 := read8_lt s.host (s.FpMemory + s.FPC + 1)
  have h2 := read8_lt s.host (s.FpMemory + s.FPC + 2)
  have h3 := read8_lt s.host (s.FpMemory + s.FPC + 3)
  omega

/-- The raw B-type immediate as a sum of its four fields. -/
theorem rawB_sum (f31 f7 f25 f8 : Nat) (h7 : f7 < 2) (h25 : f25 < 64) (h8 : f8 < 16) :
    (f31 <<< 12) ||| (f7 <<< 11) ||| (f25 <<< 5) ||| (f8 <<< 1)
      = 4096 * f31 + 2048 * f7 + 32 * f25 + 2 * f8 := by
  simp only [Nat.shiftLeft_eq]
  have e1 : f31 * 2 ^ 12 ||| f7 * 2 ^ 11 = 2 ^ 11 * (2 * f31 + f7) := by
    have := or_eq_add 12 f31 (f7 * 2 ^ 11) (by omega)
    rw [Nat.mul_comm f31, this]
    omega
  have e2 : 2 ^ 11 * (2 * f31 + f7) ||| f25 * 2 ^ 5 = 2 ^ 5 * (128 * f31 + 64 * f7 + f25) := by
    rw [or_eq_add 11 _ (f25 * 2 ^ 5) (by omega)]
    omega
  have e3 : 2 ^ 5 * (128 * f31 + 64 * f7 + f25) ||| f8 * 2 ^ 1
      = 4096 * f31 + 2048 * f7 + 32 * f25 + 2 * f8 := by
    rw [or_eq_add 5 _ (f8 * 2 ^ 1) (by omega)]
    omega
  rw [e1, e2, e3]

/-- The raw J-type immediate as a sum of its four fields. -/
theorem rawJ_sum (f31 f12 f20 f21 : Nat) (h12 : f12 < 256) (h20 : f20 < 2)
    (h21 : f21 < 1024) :
    (f31 <<< 20) ||| (f12 <<< 12) ||| (f20 <<< 11) ||| (f21 <<< 1)
      = 1048576 * f31 + 4096 * f12 + 2048 * f20 + 2 * f21 := by
  simp only [Nat.shiftLeft_eq]
  have e1 : f31 * 2 ^ 20 ||| f12 * 2 ^ 12 = 2 ^ 12 * (256 * f31 + f12) := by
    have := or_eq_add 20 f31 (f12 * 2 ^ 12) (by omega)
    rw [Nat.mul_comm f31, this]
    omega
  have e2 : 2 ^ 12 * (256 * f31 + f12) ||| f20 * 2 ^ 11
      = 2 ^ 11 * (512 * f31 + 2 * f12 + f20) := by
    rw [or_eq_add 12 _ (f20 * 2 ^ 11) (by omega)]
    omega
  have e3 : 2 ^ 11 * (512 * f31 + 2 * f12 + f20) ||| f21 * 2 ^ 1
      = 1048576 * f31 + 4096 * f12 + 2048 * f20 + 2 * f21 := by
    rw [or_eq_add 11 _ (f21 * 2 ^ 1) (by omega)]
    omega
  rw [e1, e2, e3]

/-- The raw S-type immediate as a sum of its two fields. -/
theorem rawS_sum (f25 f7 : Nat) (h7 : f7 < 32) :
    (f25 <<< 5) ||| f7 = 32 * f25 + f7 := by
  simp only [Nat.shiftLeft_eq]
  rw [Nat.mul_comm, or_eq_add 5 f25 f7 (by omega)]
  omega

/-- The immediate and the fields of `DecodeImm_B` against the wording of the
specification. -/
theorem DecodeImm_B_facts (s : State) :
    toSigned (DecodeImm_B s).Fimm = Spec.immB (getInstruction s) ∧
    (DecodeImm_B s).Fimm = ofInt (Spec.immB (getInstruction s)) ∧
    Spec.immB (getInstruction s) % 2 = 0 ∧
    -4096 ≤ Spec.immB (getInstruction s) ∧ Spec.immB (getInstruction s) ≤ 4094 ∧
    (DecodeImm_B s).Fimm % 2 = 0 ∧
    (DecodeImm_B s).Frs1 = Spec.bits (getInstruction s) 19 15 ∧
    (DecodeImm_B s).Frs2 = Spec.bits (getInstruction s) 24 20 ∧
    (DecodeImm_B s).Ffunct = Spec.bits (getInstruction s) 14 12 := by
  have h31 : field (getInstruction s) 31 1 < 2 := field_lt _ 31 1
  have h7 : field (getInstruction s) 7 1 < 2 := field_lt _ 7 1
  have h25 : field (getInstruction s) 25 6 < 64 := field_lt _ 25 6
  have h8 : field (getInstruction s) 8 4 < 16 := field_lt _ 8 4
  have hsum := rawB_sum (field (getInstruction s) 31 1) _ _ _ h7 h25 h8
  have hF : (DecodeImm_B s).Fimm
      = if ((field (getInstruction s) 31 1 <<< 12) ||| (field (getInstruction s) 7 1 <<< 11)
            ||| (field (getInstruction s) 25 6 <<< 5)
            ||| (field (getInstruction s) 8 4 <<< 1)) &&& 0x1000 ≠ 0
        then ((field (getInstruction s) 31 1 <<< 12) ||| (field (getInstruction s) 7 1 <<< 11)
            ||| (field (getInstruction s) 25 6 <<< 5)
            ||| (field (getInstruction s) 8 4 <<< 1)) ||| 0xFFFFE000
        else ((field (getInstruction s) 31 1 <<< 12) ||| (field (getInstruction s) 7 1 <<< 11)
            ||| (field (getInstruction s) 25 6 <<< 5)
            ||| (field (getInstruction s) 8 4 <<< 1)) := rfl
  have hfix := signFix 12 0x7FFFF
    (4096 * field (getInstruction s) 31 1 + 2048 * field (getInstruction s) 7 1
      + 32 * field (getInstruction s) 25 6 + 2 * field (getInstruction s) 8 4) (by omega)
  norm_num at hfix
  have hB : Spec.immB (getInstruction s)
      = Spec.sign_extend
          (4096 * field (getInstruction s) 31 1 + 2048 * field (getInstruction s) 7 1
            + 32 * field (getInstruction s) 25 6 + 2 * field (getInstruction s) 8 4) 13 := by
    unfold Spec.immB
    rw [← hsum, field_eq_bits _ 31 1 (by decide), field_eq_bits _ 7 1 (by decide),
      field_eq_bits _ 25 6 (by decide), field_eq_bits _ 8 4 (by decide)]
  rw [hF, hsum, hB]
  norm_num
  rw [hfix]
  refine ⟨?_, ?_, ?_, ?_, ?_, ?_, ?_, ?_, ?_⟩
  · unfold toSigned Spec.sign_extend
    norm_num
    split <;> split <;> omega
  · unfold ofInt Spec.sign_extend
    norm_num
    split <;> omega
  · unfold Spec.sign_extend
    norm_num
    split <;> omega
  · unfold Spec.sign_extend
    norm_num
    split <;> omega
  · unfold Spec.sign_extend
    norm_num
    split <;> omega
  · split <;> omega
  · exact field_eq_bits _ 15 5 (by decide)
  · exact field_eq_bits _ 20 5 (by decide)
  · exact field_eq_bits _ 12 3 (by decide)

/-- The immediate and the fields of `DecodeImm_J` against the wording of the
specification. -/
theorem DecodeImm_J_facts (s : State) :
    toSigned (DecodeImm_J s).Fimm = Spec.immJ (getInstruction s) ∧
    (DecodeImm_J s).Fimm = ofInt (Spec.immJ (getInstruction s)) ∧
    Spec.immJ (getInstruction s) % 2 = 0 ∧
    -1048576 ≤ Spec.immJ (getInstruction s) ∧ Spec.immJ (getInstruction s) ≤ 1048574 ∧
    (DecodeImm_J s).Fimm % 2 = 0 ∧
    (DecodeImm_J s).Frd = Spec.bits (getInstruction s) 11 7 := by
  have h31 : field (getInstruction s) 31 1 < 2 := field_lt _ 31 1
  have h12 : field (getInstruction s) 12 8 < 256 := field_lt _ 12 8
  have h20 : field (getInstruction s) 20 1 < 2 := field_lt _ 20 1
  have h21 : field (getInstruction s) 21 10 < 1024 := field_lt _ 21 10
  have hsum := rawJ_sum (field (getInstruction s) 31 1) _ _ _ h12 h20 h21
  have hF : (DecodeImm_J s).Fimm
      = if ((field (getInstruction s) 31 1 <<< 20) ||| (field (getInstruction s) 12 8 <<< 12)
            ||| (field (getInstruction s) 20 1 <<< 11)
            ||| (field (getInstruction s) 21 10 <<< 1)) &&& 0x100000 ≠ 0
        then ((field (getInstruction s) 31 1 <<< 20) ||| (field (getInstruction s) 12 8 <<< 12)
            ||| (field (getInstruction s) 20 1 <<< 11)
            ||| (field (getInstruction s) 21 10 <<< 1)) ||| 0xFFE00000
        else ((field (getInstruction s) 31 1 <<< 20) ||| (field (getInstruction s) 12 8 <<< 12)
            ||| (field (getInstruction s) 20 1 <<< 11)
            ||| (field (getInstruction s) 21 10 <<< 1)) := rfl
  have hfix := signFix 20 0x7FF
    (1048576 * field (getInstruction s) 31 1 + 4096 * field (getInstruction s) 12 8
      + 2048 * field (getInstruction s) 20 1 + 2 * field (getInstruction s) 21 10) (by omega)
  norm_num at hfix
  have hJ : Spec.immJ (getInstruction s)
      = Spec.sign_extend
          (1048576 * field (getInstruction s) 31 1 + 4096 * field (getInstruction s) 12 8
            + 2048 * field (getInstruction s) 20 1 + 2 * field (getInstruction s) 21 10)
          21 := by
    unfold Spec.immJ
    rw [← hsum, field_eq_bits _ 31 1 (by decide), field_eq_bits _ 12 8 (by decide),
      field_eq_bits _ 20 1 (by decide), field_eq_bits _ 21 10 (by decide)]
  rw [hF, hsum, hJ]
  norm_num
  rw [hfix]
  refine ⟨?_, ?_, ?_, ?_, ?_, ?_, ?_⟩
  · unfold toSigned Spec.sign_extend
    norm_num
    split <;> split <;> omega
  · unfold ofInt Spec.sign_extend
    norm_num
    split <;> omega
  · unfold Spec.sign_extend
    norm_num
    split <;> omega
  · unfold Spec.sign_extend
    norm_num
    split <;> omega
  · unfold Spec.sign_extend
    norm_num
    split <;> omega
  · split <;> omega
  · exact field_eq_bits _ 7 5 (by decide)

/-- The immediate of `DecodeImm_S`: its pattern and its signed value. -/
theorem DecodeImm_S_Fimm (s : State) :
    toSigned (DecodeImm_S s).Fimm = Spec.immS (getInstruction s) ∧
    (DecodeImm_S s).Fimm = ofInt (Spec.immS (getInstruction s)) := by
  have h25 : field (getInstruction s) 25 7 < 128 := field_lt _ 25 7
  have h7 : field (getInstruction s) 7 5 < 32 := field_lt _ 7 5
  have hsum := rawS_sum (field (getInstruction s) 25 7) _ h7
  have hF : (DecodeImm_S s).Fimm
      = if ((field (getInstruction s) 25 7 <<< 5) ||| field (getInstruction s) 7 5)
            &&& 0x800 ≠ 0
        then ((field (getInstruction s) 25 7 <<< 5) ||| field (getInstruction s) 7 5)
            ||| 0xFFFFF000
        else ((field (getInstruction s) 25 7 <<< 5) ||| field (getInstruction s) 7 5) := rfl
  have hfix := signFix 11 0xFFFFF
    (32 * field (getInstruction s) 25 7 + field (getInstruction s) 7 5) (by omega)
  norm_num at hfix
  have hS : Spec.immS (getInstruction s)
      = Spec.sign_extend
          (32 * field (getInstruction s) 25 7 + field (getInstruction s) 7 5) 12 := by
    unfold Spec.immS
    rw [← hsum, field_eq_bits _ 25 7 (by decide), field_eq_bits _ 7 5 (by decide)]
  rw [hF, hsum, hS]
  norm_num
  rw [hfix]
  refine ⟨?_, ?_⟩
  · unfold toSigned Spec.sign_extend
    norm_num
    split <;> split <;> omega
  · unfold ofInt Spec.sign_extend
    norm_num
    split <;> omega

/-- C29.  The I-type and S-type decoders.  For the instruction word `I` at the program
counter, `DecodeImm_I` leaves in `Fimm` the 32-bit pattern of `sign_extend(I[31:20], 12)`,
a value in `[-2048, 2047]` congruent to `I[31:20]` modulo 4096, with `rs1 = I[19:15]`,
`funct = I[14:12]` and `rd = I[11:7]`; `DecodeImm_S` leaves in `Fimm` the 32-bit pattern of
`sign_extend((I[31:25]<<5) | I[11:7], 12)`, with `rs1 = I[19:15]`, `rs2 = I[24:20]` and
`funct = I[14:12]`. -/
theorem DecodeImm_I_S_spec (s : State) :
    (toSigned (DecodeImm_I s).Fimm = Spec.immI (getInstruction s) ∧
      (DecodeImm_I s).Fimm = ofInt (Spec.immI (getInstruction s)) ∧
      -2048 ≤ Spec.immI (getInstruction s) ∧ Spec.immI (getInstruction s) ≤ 2047 ∧
      Spec.immI (getInstruction s) % 4096 = (Spec.bits (getInstruction s) 31 20 : Int) % 4096 ∧
      (DecodeImm_I s).Frs1 = Spec.bits (getInstruction s) 19 15 ∧
      (DecodeImm_I s).Ffunct = Spec.bits (getInstruction s) 14 12 ∧
      (DecodeImm_I s).Frd = Spec.bits (getInstruction s) 11 7) ∧
    (toSigned (DecodeImm_S s).Fimm = Spec.immS (getInstruction s) ∧
      (DecodeImm_S s).Fimm = ofInt (Spec.immS (getInstruction s)) ∧
      (DecodeImm_S s).Frs1 = Spec.bits (getInstruction s) 19 15 ∧
      (DecodeImm_S s).Frs2 = Spec.bits (getInstruction s) 24 20 ∧
      (DecodeImm_S s).Ffunct = Spec.bits (getInstruction s) 14 12) := by
  have hI := DecodeImm_I_Fimm s
  have hS := DecodeImm_S_Fimm s
  have hx : field (getInstruction s) 20 12 < 4096 := field_lt _ 20 12
  have hb : Spec.bits (getInstruction s) 31 20 = field (getInstruction s) 20 12 :=
    (field_eq_bits _ 20 12 (by decide)).symm
  have hi : Spec.immI (getInstruction s)
      = Spec.sign_extend (field (getInstruction s) 20 12) 12 := by
    unfold Spec.immI
    rw [hb]
  rw [hi, hb]
  refine ⟨⟨hI.2.1, hI.1, ?_, ?_, ?_, field_eq_bits _ 15 5 (by decide),
    field_eq_bits _ 12 3 (by decide), field_eq_bits _ 7 5 (by decide)⟩,
    ⟨hS.1, hS.2, field_eq_bits _ 15 5 (by decide), field_eq_bits _ 20 5 (by decide),
      field_eq_bits _ 12 3 (by decide)⟩⟩
  · unfold Spec.sign_extend
    norm_num
    split <;> omega
  · unfold Spec.sign_extend
    norm_num
    split <;> omega
  · unfold Spec.sign_extend
    norm_num
    split <;> omega

/-! ### Dispatch of the other opcodes -/

theorem Process_B (s : State) (hop : getInstruction s &&& 0x7F = B_type) :
    Process s = Execute_B (DecodeImm_B s) s := by
  unfold Process Decode
  simp [hop]

theorem Process_lui (s : State) (hop : getInstruction s &&& 0x7F = lui) :
    Process s = Execute_lui (DecodeImm_U s) s := by
  unfold Process Decode
  simp [hop]

theorem Process_auipc (s : State) (hop : getInstruction s &&& 0x7F = auipc) :
    Process s = Execute_auipc (DecodeImm_U s) s := by
  unfold Process Decode
  simp [hop]

theorem Process_jal (s : State) (hop : getInstruction s &&& 0x7F = jal) :
    Process s = Execute_jal (DecodeImm_J s) s := by
  unfold Process Decode
  simp [hop]

theorem Process_jalr (s : State) (hop : getInstruction s &&& 0x7F = jalr) :
    Process s = Execute_jalr (DecodeImm_I s) s := by
  unfold Process Decode
  simp [hop]

/-- Masking a 32-bit word with `0xFFFFF000` clears its low 12 bits. -/
theorem and_upper20 (I : Nat) (hI : I < W) : I &&& 0xFFFFF000 = I / 4096 * 4096 := by
  have hI2 : I < 2 ^ 32 := by unfold W at hI; omega
  have e : I / 4096 * 4096 = (I >>> 12) <<< 12 := by
    rw [Nat.shiftLeft_eq, Nat.shiftRight_eq_div_pow]
  have m : (0xFFFFF000 : Nat) = (2 ^ 20 - 1) <<< 12 := by decide
  rw [e, m]
  apply Nat.eq_of_testBit_eq
  intro j
  simp only [Nat.testBit_and, Nat.testBit_shiftLeft, Nat.testBit_shiftRight,
    Nat.testBit_two_pow_sub_one]
  by_cases h1 : 12 ≤ j
  · have e2 : 12 + (j - 12) = j := by omega
    by_cases h2 : j < 32
    · have : j - 12 < 20 := by omega
      simp [h1, e2, this]
    · have : I.testBit j = false := by
        apply Nat.testBit_lt_two_pow
        calc I < 2 ^ 32 := hI2
          _ ≤ 2 ^ j := Nat.pow_le_pow_right (by decide) (by omega)
      simp [h1, e2, this]
  · simp [h1]

/-- The value `imm << 12` of the U-type executors is the instruction word with its low 12
bits cleared. -/
theorem upper_immediate (s : State) :
    ((DecodeImm_U s).Fimm <<< 12) % W = getInstruction s &&& 0xFFFFF000 := by
  have hI := getInstruction_lt s
  have hx : field (getInstruction s) 12 20 < 2 ^ 20 := field_lt _ 12 20
  have hF : (DecodeImm_U s).Fimm
      = if field (getInstruction s) 12 20 &&& 0x80000 ≠ 0
        then field (getInstruction s) 12 20 ||| 0xFFF00000
        else field (getInstruction s) 12 20 := rfl
  have hfix := signFix 19 0xFFF (field (getInstruction s) 12 20) hx
  norm_num at hfix
  have hfield : field (getInstruction s) 12 20 = getInstruction s / 4096 := by
    unfold field
    rw [Nat.shiftRight_eq_div_pow]
    unfold W at hI
    norm_num
    omega
  rw [and_upper20 _ hI, hF]
  norm_num
  rw [hfix, Nat.shiftLeft_eq, hfield]
  unfold W at hI ⊢
  norm_num
  split <;> omega

/-- C26.  LUI and AUIPC.  For the instruction word `I` at the program counter `pc`: LUI
writes `I & 0xFFFFF000` to rd, a value that is negative as a signed 32-bit integer when
bit 19 of the immediate (bit 31 of `I`) is set; AUIPC writes
`(pc + (I & 0xFFFFF000)) mod 2^32`, with `pc` the address of the AUIPC itself, so an
AUIPC whose immediate is 0 writes `pc`. -/
theorem upper_immediate_ops (s : State) (hr : Runnable s) (hpc : s.FPC < W) (rd : Nat)
    (hrd : (DecodeImm_U s).Frd = rd) :
    (getInstruction s &&& 0x7F = lui →
      Step s = writesReg s rd (getInstruction s &&& 0xFFFFF000)) ∧
    (Spec.bits (getInstruction s) 31 31 = 1 →
      toSigned (getInstruction s &&& 0xFFFFF000) < 0) ∧
    (getInstruction s &&& 0x7F = auipc →
      Step s = writesReg s rd ((s.FPC + (getInstruction s &&& 0xFFFFF000)) % 2 ^ 32)) ∧
    (getInstruction s &&& 0x7F = auipc → Spec.bits (getInstruction s) 31 12 = 0 →
      Step s = writesReg s rd s.FPC) := by
  have hI := getInstruction_lt s
  have hu := upper_immediate s
  have hauipc : getInstruction s &&& 0x7F = auipc →
      Step s = writesReg s (DecodeImm_U s).Frd
        ((s.FPC + (getInstruction s &&& 0xFFFFF000)) % 2 ^ 32) := by
    intro hop
    apply Step_writesReg s hr
    rw [Process_auipc s hop]
    unfold Execute_auipc
    rw [hu]
    rfl
  subst hrd
  refine ⟨?_, ?_, hauipc, ?_⟩
  · intro hop
    apply Step_writesReg s hr
    rw [Process_lui s hop]
    unfold Execute_lui
    rw [hu]
  · intro h31
    rw [and_upper20 _ hI]
    unfold Spec.bits at h31
    unfold W at hI
    unfold toSigned
    norm_num at h31
    split <;> omega
  · intro hop h0
    rw [hauipc hop, and_upper20 _ hI]
    unfold Spec.bits at h0
    unfold W at hI hpc
    norm_num at h0
    congr 1
    omega

/-- Witness of C26: `AUIPC x6, 0` at address 4 writes 4 to x6. -/
theorem upper_immediate_ops_witness :
    Step upperAuipc = writesReg upperAuipc 6 upperAuipc.FPC ∧ upperAuipc.FPC = 4 :=
  ⟨(upper_immediate_ops upperAuipc (by decide) (by decide) 6 (by decide)).2.2.2
    (by decide) (by decide), by decide⟩

/-! ### Branches and jumps -/

theorem Step_ok (s s1 : State) (hr : Runnable s) (h : Process s = .ok s1) :
    Step s = jumpsTo s1 ((s1.FPC + 4) % W) := by
  rw [Step_of_runnable s hr, h]
  rfl

/-- The statement `FPC += imm - sizeof(long)` followed by the increment of `Step` adds the
immediate to the program counter. -/
theorem jumpRel_advance (d : Decoded) (s : State) :
    jumpsTo (jumpRel d s) (((jumpRel d s).FPC + 4) % W) = jumpsTo s ((s.FPC + d.Fimm) % W) := by
  have h : ((s.FPC + (d.Fimm + W - 4) % W) % W + 4) % W = (s.FPC + d.Fimm) % W := by
    unfold W
    omega
  unfold jumpsTo jumpRel
  dsimp only
  rw [h]

/-- C25.  Branches.  On a branch instruction at address `pc` with operands `a = x[rs1]`,
`b = x[rs2]` and B-type immediate `imm`, the step returns normally and changes only the
program counter, which becomes `(pc + imm) mod 2^32` if the condition holds and
`(pc + 4) mod 2^32` otherwise; the condition is `a = b` for BEQ (funct3 0), `a ≠ b` for
BNE (1), `a < b` signed for BLT (4), `a ≥ b` signed for BGE (5), `a < b` unsigned for
BLTU (6) and `a ≥ b` unsigned for BGEU (7). -/
theorem branch_ops (s : State) (hr : Runnable s)
    (hop : getInstruction s &&& 0x7F = B_type) (a b : Nat)
    (ha : getRegister s (DecodeImm_B s).Frs1 = a)
    (hb : getRegister s (DecodeImm_B s).Frs2 = b) :
    ((DecodeImm_B s).Ffunct = 0x0 →
      Step s = jumpsTo s
        (if a = b then ofInt ((s.FPC : Int) + Spec.immB (getInstruction s))
          else (s.FPC + 4) % 2 ^ 32)) ∧
    ((DecodeImm_B s).Ffunct = 0x1 →
      Step s = jumpsTo s
        (if a ≠ b then ofInt ((s.FPC : Int) + Spec.immB (getInstruction s))
          else (s.FPC + 4) % 2 ^ 32)) ∧
    ((DecodeImm_B s).Ffunct = 0x4 →
      Step s = jumpsTo s
        (if toSigned a < toSigned b then ofInt ((s.FPC : Int) + Spec.immB (getInstruction s))
          else (s.FPC + 4) % 2 ^ 32)) ∧
    ((DecodeImm_B s).Ffunct = 0x5 →
      Step s = jumpsTo s
        (if toSigned a ≥ toSigned b then ofInt ((s.FPC : Int) + Spec.immB (getInstruction s))
          else (s.FPC + 4) % 2 ^ 32)) ∧
    ((DecodeImm_B s).Ffunct = 0x6 →
      Step s = jumpsTo s
        (if a < b then ofInt ((s.FPC : Int) + Spec.immB (getInstruction s))
          else (s.FPC + 4) % 2 ^ 32)) ∧
    ((DecodeImm_B s).Ffunct = 0x7 →
      Step s = jumpsTo s
        (if a ≥ b then ofInt ((s.FPC : Int) + Spec.immB (getInstruction s))
          else (s.FPC + 4) % 2 ^ 32)) := by
  have hB := (DecodeImm_B_facts s).2.1
  have key : ∀ (c : Prop) [Decidable c],
      Execute_B (DecodeImm_B s) s = .ok (if c then jumpRel (DecodeImm_B s) s else s) →
      Step s = jumpsTo s
        (if c then ofInt ((s.FPC : Int) + Spec.immB (getInstruction s))
          else (s.FPC + 4) % 2 ^ 32) := by
    intro c _ h
    rw [Step_ok s _ hr (by rw [Process_B s hop, h])]
    by_cases hc : c
    · simp only [hc, ↓reduceIte]
      rw [jumpRel_advance, hB, add_ofInt]
    · simp only [hc, ↓reduceIte]
      rfl
  subst ha hb
  refine ⟨?_, ?_, ?_, ?_, ?_, ?_⟩
  all_goals
    intro hf
    apply key
    unfold Execute_B
    simp +decide only [hf, ↓reduceIte]

/-- Witness of C25: `BLT x0, x1, 8` at address 4 with `x1 = 5` is taken and moves the
program counter to 12. -/
theorem branch_ops_witness :
    Step branchBlt = jumpsTo branchBlt
        (if toSigned 0 < toSigned 5
          then ofInt ((branchBlt.FPC : Int) + Spec.immB (getInstruction branchBlt))
          else (branchBlt.FPC + 4) % 2 ^ 32) ∧
    (if toSigned 0 < toSigned 5
        then ofInt ((branchBlt.FPC : Int) + Spec.immB (getInstruction branchBlt))
        else (branchBlt.FPC + 4) % 2 ^ 32) = 12 :=
  ⟨(branch_ops branchBlt (by decide) (by decide) 0 5 (by decide) (by decide)).2.2.1
    (by decide), by decide⟩

/-- A step on a `JAL`: link register written, immediate added to the program counter. -/
theorem Step_jal (s : State) (hr : Runnable s) (hop : getInstruction s &&& 0x7F = jal) :
    Step s = jumpsTo (setRegister s (DecodeImm_J s).Frd ((s.FPC + 4) % W))
      (ofInt ((s.FPC : Int) + Spec.immJ (getInstruction s))) := by
  have hJ := (DecodeImm_J_facts s).2.1
  have hpc : (setRegister s (DecodeImm_J s).Frd ((s.FPC + 4) % W)).FPC = s.FPC := by
    unfold setRegister
    split <;> rfl
  rw [Step_ok s _ hr (by rw [Process_jal s hop]; rfl), jumpRel_advance, hpc, hJ, add_ofInt]

/-- A CPU that differs from `s` in its registers only fetches the same instruction. -/
theorem getInstruction_regs (s : State) (r : Nat → Nat) :
    getInstruction { s with FReg := r } = getInstruction s := rfl

/-- C24.  JAL.  On a `JAL` at address `pc` with J-type immediate `imm`, the step returns
normally, writes `(pc + 4) mod 2^32` to rd (so rd reads that value when rd is not
register 0) and sets the program counter to `(pc + imm) mod 2^32`.  In particular, when
the instruction is `JAL ra, 0`, every number `n ≥ 1` of steps leaves the program counter
at `pc` and `(pc + 4) mod 2^32` in ra. -/
theorem jal_link_and_target (s : State) (hr : Runnable s) (hpc : s.FPC < W)
    (hop : getInstruction s &&& 0x7F = jal) (rd : Nat)
    (hrd : (DecodeImm_J s).Frd = rd) :
    Step s = jumpsTo (setRegister s rd ((s.FPC + 4) % 2 ^ 32))
      (ofInt ((s.FPC : Int) + Spec.immJ (getInstruction s))) ∧
    (rd ≠ 0 → getRegister (Step s).state rd = (s.FPC + 4) % 2 ^ 32) ∧
    (rd = 1 → Spec.immJ (getInstruction s) = 0 → ∀ n : Nat,
      (steps (n + 1) s).fault = none ∧
      (steps (n + 1) s).state.FPC = s.FPC ∧
      getRegister (steps (n + 1) s).state 1 = (s.FPC + 4) % 2 ^ 32) := by
  subst hrd
  have h1 := Step_jal s hr hop
  refine ⟨h1, ?_, ?_⟩
  · intro h0
    rw [h1]
    show getRegister (setRegister s _ _) _ = _
    rw [getRegister_setRegister, if_pos ⟨rfl, h0⟩]
    rfl
  · intro hra h0 n
    have hself : ofInt ((s.FPC : Int) + 0) = s.FPC := by
      unfold ofInt
      unfold W at hpc
      omega
    have hstep : ∀ r : Nat → Nat,
        Step { s with FReg := r }
          = .ok { s with FReg := fun i => if i = 1 then (s.FPC + 4) % W else r i } := by
      intro r
      have h2 := Step_jal { s with FReg := r } hr hop
      have hd : (DecodeImm_J { s with FReg := r }).Frd = 1 := hra
      rw [getInstruction_regs, h0, hd] at h2
      rw [h2]
      show jumpsTo _ (ofInt ((s.FPC : Int) + 0)) = _
      rw [hself]
      rfl
    have hall : ∀ (m : Nat) (r : Nat → Nat), ∃ r2 : Nat → Nat,
        steps (m + 1) { s with FReg := r } = .ok { s with FReg := r2 }
          ∧ r2 1 = (s.FPC + 4) % W := by
      intro m
      induction m with
      | zero =>
        intro r
        refine ⟨fun i => if i = 1 then (s.FPC + 4) % W else r i, ?_, by simp⟩
        show (match Step { s with FReg := r } with
          | .ok s1 => steps 0 s1
          | .raised e s1 => .raised e s1) = _
        rw [hstep r]
        rfl
      | succ k ih =>
        intro r
        obtain ⟨r2, e2, v2⟩ := ih (fun i => if i = 1 then (s.FPC + 4) % W else r i)
        refine ⟨r2, ?_, v2⟩
        show (match Step { s with FReg := r } with
          | .ok s1 => steps (k + 1) s1
          | .raised e s1 => .raised e s1) = _
        rw [hstep r]
        exact e2
    obtain ⟨r2, e2, v2⟩ := hall n s.FReg
    have hs : ({ s with FReg := s.FReg } : State) = s := rfl
    rw [hs] at e2
    rw [e2]
    refine ⟨rfl, rfl, ?_⟩
    show getRegister { s with FReg := r2 } 1 = _
    unfold getRegister
    simp only [show ¬ ((1 : Nat) = 0) by decide, ↓reduceIte]
    exact v2

/-- Witness of C24: the `JAL ra, 0` at address 4 keeps the program counter at 4 and
leaves 8 in ra after three steps. -/
theorem jal_link_and_target_witness :
    (steps (2 + 1) jalLoop).fault = none ∧
    (steps (2 + 1) jalLoop).state.FPC = jalLoop.FPC ∧
    getRegister (steps (2 + 1) jalLoop).state 1 = (jalLoop.FPC + 4) % 2 ^ 32 :=
  (jal_link_and_target jalLoop (by decide) (by decide) (by decide) 1 (by decide)).2.2
    rfl (by decide) 2

/-- C27.  The B-type decoder.  For the instruction word `I` at the program counter,
`DecodeImm_B` leaves in `Fimm` the 32-bit pattern of
`sign_extend((I[31]<<12) | (I[7]<<11) | (I[30:25]<<5) | (I[11:8]<<1), 13)`; this value is
even, lies in `[-4096, 4094]`, and bit 0 of the pattern is 0 (the pattern is even); and
`rs1 = I[19:15]`, `rs2 = I[24:20]`, `funct = I[14:12]`. -/
theorem DecodeImm_B_spec (s : State) :
    toSigned (DecodeImm_B s).Fimm = Spec.immB (getInstruction s) ∧
    (DecodeImm_B s).Fimm = ofInt (Spec.immB (getInstruction s)) ∧
    Spec.immB (getInstruction s) % 2 = 0 ∧
    -4096 ≤ Spec.immB (getInstruction s) ∧ Spec.immB (getInstruction s) ≤ 4094 ∧
    (DecodeImm_B s).Fimm % 2 = 0 ∧
    (DecodeImm_B s).Frs1 = Spec.bits (getInstruction s) 19 15 ∧
    (DecodeImm_B s).Frs2 = Spec.bits (getInstruction s) 24 20 ∧
    (DecodeImm_B s).Ffunct = Spec.bits (getInstruction s) 14 12 :=
  DecodeImm_B_facts s

/-- C28.  The J-type decoder.  For the instruction word `I` at the program counter,
`DecodeImm_J` leaves in `Fimm` the 32-bit pattern of
`sign_extend((I[31]<<20) | (I[19:12]<<12) | (I[20]<<11) | (I[30:21]<<1), 21)`; this value
is even, lies in `[-1048576, 1048574]`, and bit 0 of the pattern is 0 (the pattern is
even); and `rd = I[11:7]`. -/
theorem DecodeImm_J_spec (s : State) :
    toSigned (DecodeImm_J s).Fimm = Spec.immJ (getInstruction s) ∧
    (DecodeImm_J s).Fimm = ofInt (Spec.immJ (getInstruction s)) ∧
    Spec.immJ (getInstruction s) % 2 = 0 ∧
    -1048576 ≤ Spec.immJ (getInstruction s) ∧ Spec.immJ (getInstruction s) ≤ 1048574 ∧
    (DecodeImm_J s).Fimm % 2 = 0 ∧
    (DecodeImm_J s).Frd = Spec.bits (getInstruction s) 11 7 :=
  DecodeImm_J_facts s

theorem immI_eq (s : State) :
    Spec.immI (getInstruction s) = Spec.sign_extend (field (getInstruction s) 20 12) 12 := by
  unfold Spec.immI
  rw [field_eq_bits _ 20 12 (by decide)]

theorem ofInt_lt (i : Int) : ofInt i < W := by
  unfold ofInt W
  omega

theorem ofInt_toSigned_add_int (a : Nat) (i : Int) :
    ofInt (toSigned a + i) = ofInt ((a : Int) + i) := by
  apply ofInt_congr
  rw [Int.add_emod, toSigned_emod, ← Int.add_emod]

/-- C23.  JALR with distinct registers.  On a `JALR` (funct3 = 0) at address `pc` whose
rd differs from rs1, with I-type immediate `imm` and base `a = x[rs1]`: the step returns
normally, writes `(pc + 4) mod 2^32` to rd (so rd reads that value when rd is not
register 0) and sets the program counter to `(a + imm) mod 2^32` with bit 0 cleared;
with `a = 0x100` and `imm = 1` the program counter becomes `0x100`. -/
theorem jalr_link_and_target (s : State) (hr : Runnable s)
    (hop : getInstruction s &&& 0x7F = jalr) (rd rs1 a : Nat)
    (hrd : (DecodeImm_I s).Frd = rd) (hrs1 : (DecodeImm_I s).Frs1 = rs1)
    (ha : getRegister s rs1 = a)
    (hf : (DecodeImm_I s).Ffunct = 0) (hne : rd ≠ rs1) :
    Step s = jumpsTo (setRegister s rd ((s.FPC + 4) % 2 ^ 32))
      (ofInt ((a : Int) + Spec.immI (getInstruction s)) &&& 0xFFFFFFFE) ∧
    (rd ≠ 0 → getRegister (Step s).state rd = (s.FPC + 4) % 2 ^ 32) ∧
    (a = 0x100 → Spec.immI (getInstruction s) = 1 → (Step s).state.FPC = 0x100) := by
  subst hrd hrs1 ha
  have hI := (DecodeImm_I_Fimm s).2.1
  rw [← immI_eq] at hI
  have hreg : getRegister (setRegister s (DecodeImm_I s).Frd ((s.FPC + 4) % W))
      (DecodeImm_I s).Frs1 = getRegister s (DecodeImm_I s).Frs1 := by
    rw [getRegister_setRegister, if_neg (fun h => hne h.1.symm)]
  have hmask : ∀ t : Nat, t < W → (((t &&& 0xFFFFFFFE) + W - 4) % W + 4) % W
      = t &&& 0xFFFFFFFE := by
    intro t ht
    have := @Nat.and_le_left t 0xFFFFFFFE
    unfold W at ht ⊢
    omega
  have hstep : Step s = jumpsTo (setRegister s (DecodeImm_I s).Frd ((s.FPC + 4) % 2 ^ 32))
      (ofInt ((getRegister s (DecodeImm_I s).Frs1 : Int) + Spec.immI (getInstruction s))
        &&& 0xFFFFFFFE) := by
    have hx : Execute_jalr (DecodeImm_I s) s
        = .ok { setRegister s (DecodeImm_I s).Frd ((s.FPC + 4) % W) with
            FPC := ((ofInt (toSigned (getRegister s (DecodeImm_I s).Frs1)
              + toSigned (DecodeImm_I s).Fimm) &&& 0xFFFFFFFE) + W - 4) % W } := by
      unfold Execute_jalr
      simp only [hf, ne_eq, not_true_eq_false, ↓reduceIte]
      rw [hreg]
    rw [Step_ok s _ hr (by rw [Process_jalr s hop, hx])]
    unfold jumpsTo
    dsimp only
    rw [hmask _ (ofInt_lt _), hI, ofInt_toSigned_add_int]
    rfl
  refine ⟨hstep, ?_, ?_⟩
  · intro h0
    rw [hstep]
    show getRegister (setRegister s _ _) _ = _
    rw [getRegister_setRegister, if_pos ⟨rfl, h0⟩]
  · intro h1 h2
    rw [hstep, h1, h2]
    rfl

/-- Witness of C23: `JALR x5, x1, 1` at address 4 with `x1 = 0x100` lands on `0x100`. -/
theorem jalr_link_and_target_witness :
    (Step jalrOdd).state.FPC = 0x100 :=
  (jalr_link_and_target jalrOdd (by decide) (by decide) 5 1 0x100 (by decide) (by decide)
    (by decide) (by decide) (by decide)).2.2 rfl (by decide)

/-- C22, evaluation of the code.  In the program `ADDI x1, x0, 16 ; JALR x1, x1, 0` the
`JALR` at address 4 has rd = rs1 = x1, which holds 16 before the step.  After the step
x1 holds 8 and the program counter is 8: the target was computed from the value the
step itself had just written to x1, whereas `(16 + 0) & ~1` is 16. -/
theorem jalr_same_register_uses_new_value :
    (steps 1 jalrSameProg).fault = none ∧
    (steps 1 jalrSameProg).state.FPC = 4 ∧
    getRegister (steps 1 jalrSameProg).state 1 = 16 ∧
    (DecodeImm_I (steps 1 jalrSameProg).state).Frd = 1 ∧
    (DecodeImm_I (steps 1 jalrSameProg).state).Frs1 = 1 ∧
    (steps 2 jalrSameProg).fault = none ∧
    getRegister (steps 2 jalrSameProg).state 1 = 8 ∧
    (steps 2 jalrSameProg).state.FPC = 8 ∧
    ofInt ((16 : Int) + Spec.immI (getInstruction (steps 1 jalrSameProg).state))
      &&& 0xFFFFFFFE = 16 := by
  decide

/-! ### Store followed by load -/

theorem read8_write32 (h : Nat → Nat) (q v : Nat) : read8 (write32 h q v) q = v % 256 := by
  unfold read8 write32 write8
  simp

theorem read32_write32 (h : Nat → Nat) (q v : Nat) (hv : v < W) :
    read32 (write32 h q v) q = v := by
  unfold read32 read8 write32 write8
  unfold W at hv
  simp
  omega

theorem and_0xFF (v : Nat) : v &&& 0xFF = v % 256 := by
  have := Nat.and_pow_two_sub_one_eq_mod v 8
  norm_num at this
  exact this

/-- The host memory a successful `SW` leaves. -/
theorem Step_sw_host (s : State) (hr : Runnable s)
    (hop : getInstruction s &&& 0x7F = S_type) (hf : (DecodeImm_S s).Ffunct = S_sw)
    (hin : effAddr (DecodeImm_S s) s ≤ s.FcMemory)
    (hout : ¬ (s.FminText ≤ effAddr (DecodeImm_S s) s ∧ effAddr (DecodeImm_S s) s < s.FmaxText)) :
    Step s = jumpsTo
      { s with host := write32 s.host (s.FpMemory + effAddr (DecodeImm_S s) s)
                (getRegister s (DecodeImm_S s).Frs2) }
      ((s.FPC + 4) % W) := by
  apply Step_ok s _ hr
  rw [Process_store s hop]
  unfold Execute_S
  simp +decide only [hf, getMemory_data s _ hin hout, ↓reduceIte]

/-- C21.  Store then load.  Let a `SW` store the 32-bit value `v` at an address `a` with
`a + 4 ≤ mem_size` and `[a, a + 4)` disjoint from the text range; the step returns
normally.  In any later state `t` of the same CPU whose memory is the one that step
left, a load from `a` yields: `v` with LW, `v & 0xFF` with LBU, and the sign extension of
the byte `v & 0xFF` with LB. -/
theorem store_then_load (s t : State) (hr : Runnable s)
    (hop : getInstruction s &&& 0x7F = S_type) (hf : (DecodeImm_S s).Ffunct = 0x2)
    (a v : Nat) (hea : effAddr (DecodeImm_S s) s = a)
    (hv : getRegister s (DecodeImm_S s).Frs2 = v) (hv32 : v < 2 ^ 32)
    (hin : a + 4 ≤ s.FcMemory) (hdis : a + 4 ≤ s.FminText ∨ s.FmaxText ≤ a)
    (ht : Runnable t)
    (hmem : t.host = (Step s).state.host ∧ t.FpMemory = s.FpMemory ∧
      t.FcMemory = s.FcMemory ∧ t.FminText = s.FminText ∧ t.FmaxText = s.FmaxText)
    (hopt : getInstruction t &&& 0x7F = I_load_type)
    (heat : effAddr (DecodeImm_I t) t = a) (rd : Nat) (hrd : (DecodeImm_I t).Frd = rd) :
    (Step s).fault = none ∧
    ((DecodeImm_I t).Ffunct = 0x2 → Step t = writesReg t rd v) ∧
    ((DecodeImm_I t).Ffunct = 0x4 → Step t = writesReg t rd (v &&& 0xFF)) ∧
    ((DecodeImm_I t).Ffunct = 0x0 →
      Step t = writesReg t rd (ofInt (Spec.sign_extend (v &&& 0xFF) 8))) := by
  subst hea hv hrd
  have hsw := Step_sw_host s hr hop hf (by omega) (by omega)
  have hhost : t.host = write32 s.host (s.FpMemory + effAddr (DecodeImm_S s) s)
      (getRegister s (DecodeImm_S s).Frs2) := by
    rw [hmem.1, hsw]
    rfl
  have hget : getMemory t (effAddr (DecodeImm_I t) t)
      = .ok (s.FpMemory + effAddr (DecodeImm_S s) s) := by
    rw [getMemory_data t _ (by rw [heat, hmem.2.2.1]; omega)
      (by rw [heat, hmem.2.2.2.1, hmem.2.2.2.2]; omega), heat, hmem.2.1]
  have hv32' : getRegister s (DecodeImm_S s).Frs2 < W := by
    unfold W
    omega
  refine ⟨by rw [hsw]; rfl, ?_, ?_, ?_⟩
  · intro hft
    apply Step_load_writes t ht hopt
    unfold Execute_I_load
    simp +decide only [hft, hget, ↓reduceIte]
    rw [hhost, read32_write32 _ _ _ hv32']
  · intro hft
    apply Step_load_writes t ht hopt
    unfold Execute_I_load
    simp +decide only [hft, hget, ↓reduceIte]
    rw [hhost, read8_write32, and_0xFF]
  · intro hft
    apply Step_load_writes t ht hopt
    unfold Execute_I_load
    simp +decide only [hft, hget, ↓reduceIte]
    rw [hhost, read8_write32, and_0xFF, charVal_eq]

/-- Witness of C21: after `SW x2, 0(x1)` with `x1 = 0x2000` and `x2 = 0xDEADBEEF`, the
instruction `LW x3, 0(x1)` writes `0xDEADBEEF`; the byte `0xDEADBEEF & 0xFF` is `0xEF`
and its sign extension is `0xFFFFFFEF`. -/
theorem store_then_load_witness :
    Step loadLw = writesReg loadLw 3 0xDEADBEEF ∧
    0xDEADBEEF &&& 0xFF = 0xEF ∧
    ofInt (Spec.sign_extend (0xDEADBEEF &&& 0xFF) 8) = 0xFFFFFFEF :=
  ⟨(store_then_load storeSw loadLw (by decide) (by decide) (by decide) 0x2000 0xDEADBEEF
    (by decide) (by decide) (by decide) (by decide) (by decide) (by decide)
    ⟨rfl, by decide, by decide, by decide, by decide⟩ (by decide) (by decide) 3
    (by decide)).2.1 (by decide), by decide, by decide⟩

/-! ### Unrecognised opcodes -/

/-- For a step that reaches `Process`, the exception of the step is the exception of
`Process`. -/
theorem Step_fault (s : State) (hr : Runnable s) : (Step s).fault = (Process s).fault := by
  rw [Step_of_runnable s hr]
  cases Process s <;> rfl

theorem getMemory_error (s : State) (a : Nat) (e : Fault) (h : getMemory s a = .error e) :
    e ≠ Fault.IllegalOpcode := by
  unfold getMemory at h
  split_ifs at h <;> cases h <;> decide

/-- A conditional does not throw IllegalOpcode when neither branch does. -/
theorem fault_ite (c : Prop) [Decidable c] (x y : Outcome)
    (hx : x.fault ≠ some Fault.IllegalOpcode) (hy : y.fault ≠ some Fault.IllegalOpcode) :
    (if c then x else y).fault ≠ some Fault.IllegalOpcode := by
  split <;> assumption

theorem fault_ok (s : State) : (Outcome.ok s).fault ≠ some Fault.IllegalOpcode := by
  simp [Outcome.fault]

theorem fault_IllegalFunction (s : State) :
    (Execute_IllegalFunction s).fault ≠ some Fault.IllegalOpcode := by
  simp [Execute_IllegalFunction, Outcome.fault]

/-- A memory access does not throw IllegalOpcode. -/
theorem fault_access (s : State) (a : Nat) (f : Nat → Outcome)
    (hf : ∀ p, (f p).fault ≠ some Fault.IllegalOpcode) :
    (match getMemory s a with
      | .error e => Outcome.raised e s
      | .ok p => f p).fault ≠ some Fault.IllegalOpcode := by
  cases hg : getMemory s a with
  | error e =>
    have := getMemory_error s a e hg
    simpa [Outcome.fault] using this
  | ok p => exact hf p

theorem Execute_R_fault (d : Decoded) (s : State) :
    (Execute_R d s).fault ≠ some Fault.IllegalOpcode := by
  unfold Execute_R
  dsimp only
  repeat (first | exact fault_ok _ | exact fault_IllegalFunction _ | apply fault_ite)

theorem Execute_I_bits_fault (d : Decoded) (s : State) :
    (Execute_I_bits d s).fault ≠ some Fault.IllegalOpcode := by
  unfold Execute_I_bits
  dsimp only
  repeat (first | exact fault_ok _ | exact fault_IllegalFunction _ | apply fault_ite)

theorem Execute_I_load_fault (d : Decoded) (s : State) :
    (Execute_I_load d s).fault ≠ some Fault.IllegalOpcode := by
  unfold Execute_I_load
  repeat first
    | exact fault_IllegalFunction _
    | apply fault_ite
    | exact fault_access s _ _ (fun _ => fault_ok _)

theorem Execute_S_fault (d : Decoded) (s : State) :
    (Execute_S d s).fault ≠ some Fault.IllegalOpcode := by
  unfold Execute_S
  repeat first
    | exact fault_IllegalFunction _
    | apply fault_ite
    | exact fault_access s _ _ (fun _ => fault_ok _)

theorem Execute_B_fault (d : Decoded) (s : State) :
    (Execute_B d s).fault ≠ some Fault.IllegalOpcode := by
  unfold Execute_B
  dsimp only
  repeat (first | exact fault_ok _ | exact fault_IllegalFunction _ | apply fault_ite)

theorem Execute_jalr_fault (d : Decoded) (s : State) :
    (Execute_jalr d s).fault ≠ some Fault.IllegalOpcode := by
  unfold Execute_jalr
  dsimp only
  repeat (first | exact fault_ok _ | exact fault_IllegalFunction _ | apply fault_ite)

theorem low7 (I : Nat) : I &&& 0x7F = Spec.bits I 6 0 := by
  have := Nat.and_pow_two_sub_one_eq_mod I 7
  norm_num at this
  unfold Spec.bits
  norm_num
  exact this

/-- C30.  Unrecognised opcodes.  In a loaded state with the program counter inside the
text range, the step throws IllegalOpcode if and only if the low 7 bits of the
instruction word at the program counter are none of `0x33`, `0x13`, `0x03`, `0x23`,
`0x63`, `0x37`, `0x17`, `0x6F`, `0x67`, `0x73`, `0x0F`. -/
theorem illegal_opcode_iff (s : State) (hr : Runnable s) :
    (Step s).fault = some Fault.IllegalOpcode ↔
      Spec.bits (getInstruction s) 6 0 ∉
        [0x33, 0x13, 0x03, 0x23, 0x63, 0x37, 0x17, 0x6F, 0x67, 0x73, 0x0F] := by
  rw [Step_fault s hr, ← low7]
  simp only [List.mem_cons, List.mem_singleton, List.not_mem_nil, or_false, not_or]
  unfold Process Decode
  by_cases h1 : getInstruction s &&& 0x7F = R_type
  · simp [h1, Execute_R_fault]
  by_cases h2 : getInstruction s &&& 0x7F = I_bits_type
  · simp [h2, Execute_I_bits_fault]
  by_cases h3 : getInstruction s &&& 0x7F = I_load_type
  · simp [h3, Execute_I_load_fault]
  by_cases h4 : getInstruction s &&& 0x7F = S_type
  · simp [h4, Execute_S_fault]
  by_cases h5 : getInstruction s &&& 0x7F = B_type
  · simp [h5, Execute_B_fault]
  by_cases h6 : getInstruction s &&& 0x7F = lui
  · simp [h6, Execute_lui, Outcome.fault]
  by_cases h7 : getInstruction s &&& 0x7F = auipc
  · simp [h7, Execute_auipc, Outcome.fault]
  by_cases h8 : getInstruction s &&& 0x7F = jal
  · simp [h8, Execute_jal, Outcome.fault]
  by_cases h9 : getInstruction s &&& 0x7F = jalr
  · simp [h9, Execute_jalr_fault]
  by_cases h10 : getInstruction s &&& 0x7F = ecall_ebreak
  · simp [h10, Execute_ecall_ebreak, Outcome.fault]
  by_cases h11 : getInstruction s &&& 0x7F = fence
  · simp [h11, Execute_fence, Outcome.fault]
  simp only [h1, h2, h3, h4, h5, h6, h7, h8, h9, h10, h11, ↓reduceIte]
  simp [RiscV.Process, Outcome.fault, h1, h2, h3, h4, h5, h6, h7, h8, h9, h10, h11]

/-- Witness of C30: the word 0 at the program counter makes the step throw
IllegalOpcode. -/
theorem illegal_opcode_iff_witness :
    (Step zeroWord).fault = some Fault.IllegalOpcode :=
  (illegal_opcode_iff zeroWord (by decide)).mpr (by decide)

/-! ### Unknown function codes -/

theorem Step_fault_of_Process (s : State) (hr : Runnable s) (e : Fault)
    (h : (Process s).fault = some e) : (Step s).fault = some e := by
  rw [Step_of_runnable s hr]
  cases hp : Process s with
  | ok s1 => rw [hp] at h; cases h
  | raised e1 s1 => rw [hp] at h; exact h

theorem fault_Execute_IllegalFunction (s : State) :
    (Execute_IllegalFunction s).fault = some Fault.IllegalFunction := rfl

/-- A funct that is no case label of the `switch` of `Execute_R` reaches its `default`. -/
theorem Execute_R_illegal (d : Decoded) (s : State)
    (h : d.Ffunct ∉ [R_add, R_mul, R_sub, R_slt, R_sltu, R_and, R_or, R_xor, R_ssl, R_srl,
      R_sra, R_mulh, R_mulhu, R_mulhsu, R_div, R_divu, R_rem, R_remu]) :
    Execute_R d s = Execute_IllegalFunction s := by
  simp only [List.mem_cons, List.mem_singleton, List.not_mem_nil, or_false, not_or] at h
  unfold Execute_R
  simp only [h, ↓reduceIte]

/-- C31.  Unknown function codes.  In a loaded state with the program counter inside the
text range, let `I` be the instruction word at the program counter.  The step throws
IllegalFunction when the opcode of `I` is `0x33` and `(funct7 << 3) | funct3` is none of
the 18 values of the R-type table; when the opcode is `0x03` and funct3 is 3, 6 or 7;
when the opcode is `0x23` and funct3 is none of 0, 1, 2; when the opcode is `0x63` and
funct3 is 2 or 3; and when the opcode is `0x67` and funct3 is not 0. -/
theorem illegal_function (s : State) (hr : Runnable s) (I : Nat)
    (hI : getInstruction s = I)
    (h : (Spec.bits I 6 0 = 0x33 ∧
          (Spec.bits I 31 25 <<< 3) ||| Spec.bits I 14 12 ∉
            [0x000, 0x100, 0x001, 0x002, 0x003, 0x004, 0x005, 0x105, 0x006, 0x007,
             0x008, 0x009, 0x00A, 0x00B, 0x00C, 0x00D, 0x00E, 0x00F]) ∨
         (Spec.bits I 6 0 = 0x03 ∧ Spec.bits I 14 12 ∈ [3, 6, 7]) ∨
         (Spec.bits I 6 0 = 0x23 ∧ Spec.bits I 14 12 ∉ [0, 1, 2]) ∨
         (Spec.bits I 6 0 = 0x63 ∧ Spec.bits I 14 12 ∈ [2, 3]) ∨
         (Spec.bits I 6 0 = 0x67 ∧ Spec.bits I 14 12 ≠ 0)) :
    (Step s).fault = some Fault.IllegalFunction := by
  subst hI
  apply Step_fault_of_Process s hr
  have hb7 : field (getInstruction s) 25 7 = Spec.bits (getInstruction s) 31 25 :=
    field_eq_bits _ 25 7 (by decide)
  have hb3 : field (getInstruction s) 12 3 = Spec.bits (getInstruction s) 14 12 :=
    field_eq_bits _ 12 3 (by decide)
  simp only [← low7, List.mem_cons, List.mem_singleton, List.not_mem_nil, or_false,
    not_or] at h
  rcases h with ⟨hop, hf⟩ | ⟨hop, hf⟩ | ⟨hop, hf⟩ | ⟨hop, hf⟩ | ⟨hop, hf⟩
  · rw [Process_R s hop]
    have hF : (DecodeFunct_7 s).Ffunct
        = (Spec.bits (getInstruction s) 31 25 <<< 3) ||| Spec.bits (getInstruction s) 14 12 := by
      unfold DecodeFunct_7
      simp only [hb7, hb3]
    rw [Execute_R_illegal]
    · rfl
    · rw [hF]
      simp only [List.mem_cons, List.mem_singleton, List.not_mem_nil, or_false, not_or]
      exact ⟨hf.1, hf.2.2.2.2.2.2.2.2.2.2.1, hf.2.1, hf.2.2.2.1, hf.2.2.2.2.1,
        hf.2.2.2.2.2.2.2.2.2.1, hf.2.2.2.2.2.2.2.2.1, hf.2.2.2.2.2.1, hf.2.2.1,
        hf.2.2.2.2.2.2.1, hf.2.2.2.2.2.2.2.1, hf.2.2.2.2.2.2.2.2.2.2.2.1,
        hf.2.2.2.2.2.2.2.2.2.2.2.2.2.1, hf.2.2.2.2.2.2.2.2.2.2.2.2.1,
        hf.2.2.2.2.2.2.2.2.2.2.2.2.2.2.1, hf.2.2.2.2.2.2.2.2.2.2.2.2.2.2.2.1,
        hf.2.2.2.2.2.2.2.2.2.2.2.2.2.2.2.2.1, hf.2.2.2.2.2.2.2.2.2.2.2.2.2.2.2.2.2⟩
  · rw [Process_load s hop]
    have hF : (DecodeImm_I s).Ffunct = Spec.bits (getInstruction s) 14 12 := hb3
    unfold Execute_I_load
    rcases hf with hf | hf | hf <;> simp +decide only [hF, hf, ↓reduceIte] <;> rfl
  · rw [Process_store s hop]
    have hF : (DecodeImm_S s).Ffunct = Spec.bits (getInstruction s) 14 12 := hb3
    unfold Execute_S
    simp +decide only [hF, hf, ↓reduceIte]
    rfl
  · rw [Process_B s hop]
    have hF : (DecodeImm_B s).Ffunct = Spec.bits (getInstruction s) 14 12 := hb3
    unfold Execute_B
    rcases hf with hf | hf <;> simp +decide only [hF, hf, ↓reduceIte] <;> rfl
  · rw [Process_jalr s hop]
    have hF : (DecodeImm_I s).Ffunct = Spec.bits (getInstruction s) 14 12 := hb3
    unfold Execute_jalr
    simp +decide only [hF, hf, ↓reduceIte, ne_eq, not_false_eq_true]
    rfl

/-- Witness of C31: the R-type word `0x40001033`, whose funct is `0x101`, makes the step
throw IllegalFunction. -/
theorem illegal_function_witness :
    (Step badFunctR).fault = some Fault.IllegalFunction :=
  illegal_function badFunctR (by decide) 0x40001033 (by decide) (Or.inl (by decide))

/-! ### Instruction pairs -/

/-- Two calls of the host loop after a first step that returned normally. -/
theorem steps_two (s t : State) (h : Step s = .ok t) : steps 2 s = Step t := by
  show (match Step s with
    | .ok s1 => steps 1 s1
    | .raised e s1 => .raised e s1) = Step t
  rw [h]
  show (match Step t with
    | .ok s1 => steps 0 s1
    | .raised e s1 => .raised e s1) = Step t
  cases Step t <;> rfl

theorem getRegister_writesReg (s : State) (rd v i : Nat) :
    getRegister (writesReg s rd v).state i
      = if i = rd ∧ rd ≠ 0 then v else getRegister s i := by
  rw [← getRegister_setRegister]
  rfl

theorem ofInt_ofInt_add (i j : Int) : ofInt ((ofInt i : Int) + j) = ofInt (i + j) := by
  apply ofInt_congr
  unfold ofInt
  rw [Int.toNat_of_nonneg (Int.emod_nonneg _ (by decide))]
  omega

/-- A step on `ADDI`: it writes `(x[rs1] + imm) mod 2^32`, `imm` the sign-extended
I-immediate. -/
theorem Step_addi (s : State) (hr : Runnable s)
    (hop : getInstruction s &&& 0x7F = I_bits_type) (hf : (DecodeImm_I s).Ffunct = I_addi) :
    Step s = writesReg s (DecodeImm_I s).Frd
      (ofInt ((getRegister s (DecodeImm_I s).Frs1 : Int) + Spec.immI (getInstruction s))) := by
  apply Step_I_writes s hr hop
  unfold Execute_I_bits
  simp +decide only [hf, ↓reduceIte]
  rw [(DecodeImm_I_Fimm s).1, ← immI_eq, add_ofInt]

/-- The 12-bit field that encodes `-m` decodes to `-m`, except for `m = -2048`. -/
theorem immI_neg (I : Nat) (m : Int) (h1 : -2047 ≤ m) (h2 : m ≤ 2047)
    (h : Spec.bits I 31 20 = ((-m) % 4096).toNat) : Spec.immI I = -m := by
  unfold Spec.immI Spec.sign_extend
  rw [h]
  have hz : ((((-m) % 4096).toNat : Nat) : Int) = (-m) % 4096 :=
    Int.toNat_of_nonneg (Int.emod_nonneg _ (by decide))
  have hlt : ((-m) % 4096).toNat < 2 ^ (12 - 1) ↔ (-m) % 4096 < 2048 := by
    norm_num
    omega
  by_cases hc : (-m) % 4096 < 2048
  · rw [if_pos (hlt.mpr hc), hz]
    omega
  · rw [if_neg (fun h => hc (hlt.mp h)), hz]
    norm_num
    omega

/-- C32, the immediate `-2048`.  In the program `ADDI x5, x2, -2048` followed by the
`ADDI x5, x5, ...` whose immediate field holds `0x800`, the 12-bit encoding of
`-(-2048) = 2048`, entered with `x2 = 0x20`: both steps return normally and x5 ends as
`0xFFFFF020`, which is `0x20 - 4096` and not `0x20`. -/
theorem addi_round_trip_fails_at_minus_2048 :
    getRegister addiMin 2 = 0x20 ∧
    getInstruction addiMin &&& 0x7F = 0x13 ∧
    (DecodeImm_I addiMin).Ffunct = 0 ∧
    (DecodeImm_I addiMin).Frd = 5 ∧ (DecodeImm_I addiMin).Frs1 = 2 ∧
    Spec.immI (getInstruction addiMin) = -2048 ∧
    getInstruction (steps 1 addiMin).state &&& 0x7F = 0x13 ∧
    (DecodeImm_I (steps 1 addiMin).state).Ffunct = 0 ∧
    (DecodeImm_I (steps 1 addiMin).state).Frd = 5 ∧
    (DecodeImm_I (steps 1 addiMin).state).Frs1 = 5 ∧
    Spec.bits (getInstruction (steps 1 addiMin).state) 31 20
      = ((-(-2048 : Int)) % 4096).toNat ∧
    (steps 2 addiMin).fault = none ∧
    getRegister (steps 2 addiMin).state 5 = 0xFFFFF020 := by
  decide

/-- The 12-bit field `0x800`, which encodes `2048 = -(-2048)`, decodes to `-2048`. -/
theorem immI_neg_min (I : Nat) (h : Spec.bits I 31 20 = ((-(-2048 : Int)) % 4096).toNat) :
    Spec.immI I = -2048 := by
  unfold Spec.immI
  rw [h]
  decide

/-- C32.  ADDI round trip.  Let `m` be a 12-bit signed immediate and `v` the value of
`x[rs]`.  If the instruction at the program counter is `ADDI rd, rs, m` with rd not
register 0, and the instruction the first step lands on is `ADDI rd, rd, ...` with the
12-bit encoding of `-m` in its immediate field, then both steps return normally; for
`m` in `[-2047, 2047]` they leave `v mod 2^32` in `x[rd]`, and for `m = -2048`, whose
negation has the pattern `0x800` of `-2048` itself, they leave `(v - 4096) mod 2^32`. -/
theorem addi_round_trip (s : State) (hr : Runnable s) (rd rs v : Nat) (m : Int)
    (hm : -2048 ≤ m ∧ m ≤ 2047) (hrd0 : rd ≠ 0)
    (hop : getInstruction s &&& 0x7F = 0x13) (hf : (DecodeImm_I s).Ffunct = 0)
    (hrd : (DecodeImm_I s).Frd = rd) (hrs : (DecodeImm_I s).Frs1 = rs)
    (himm : Spec.immI (getInstruction s) = m)
    (hv : getRegister s rs = v)
    (hr2 : Runnable (Step s).state)
    (hop2 : getInstruction (Step s).state &&& 0x7F = 0x13)
    (hf2 : (DecodeImm_I (Step s).state).Ffunct = 0)
    (hrd2 : (DecodeImm_I (Step s).state).Frd = rd)
    (hrs2 : (DecodeImm_I (Step s).state).Frs1 = rd)
    (himm2 : Spec.bits (getInstruction (Step s).state) 31 20 = ((-m) % 4096).toNat) :
    (steps 2 s).fault = none ∧
    (m ≠ -2048 → getRegister (steps 2 s).state rd = v % 2 ^ 32) ∧
    (m = -2048 → getRegister (steps 2 s).state rd = (((v : Int) - 4096) % 2 ^ 32).toNat) := by
  have h1 := Step_addi s hr hop hf
  rw [hrd, hrs, hv, himm] at h1
  have h2 := Step_addi (Step s).state hr2 hop2 hf2
  rw [hrd2, hrs2] at h2
  have hreg : getRegister (Step s).state rd = ofInt ((v : Int) + m) := by
    rw [h1, getRegister_writesReg, if_pos ⟨rfl, hrd0⟩]
  rw [hreg, ofInt_ofInt_add] at h2
  rw [steps_two s (Step s).state (by rw [h1]; rfl), h2]
  refine ⟨rfl, ?_, ?_⟩
  · intro hne
    rw [getRegister_writesReg, if_pos ⟨rfl, hrd0⟩, immI_neg _ m (by omega) hm.2 himm2]
    have : (v : Int) + m + -m = (v : Int) := by omega
    rw [this, ofInt_natCast]
    rfl
  · intro hmin
    subst hmin
    rw [getRegister_writesReg, if_pos ⟨rfl, hrd0⟩, immI_neg_min _ himm2]
    have : (v : Int) + -2048 + -2048 = (v : Int) - 4096 := by omega
    rw [this]
    rfl

/-- Witness of C32: `ADDI x5, x2, 7 ; ADDI x5, x5, -7` with `x2 = 0x20` leaves `0x20` in
x5, and `ADDI x5, x2, -2048` followed by the `ADDI x5, x5, ...` with immediate field
`0x800` leaves `0x20 - 4096`. -/
theorem addi_round_trip_witness :
    ((steps 2 addiPair).fault = none ∧
      getRegister (steps 2 addiPair).state 5 = 0x20 % 2 ^ 32) ∧
    getRegister (steps 2 addiMin).state 5 = ((((0x20 : Nat) : Int) - 4096) % 2 ^ 32).toNat :=
  ⟨⟨(addi_round_trip addiPair (by decide) 5 2 0x20 7 (by decide) (by decide) (by decide)
      (by decide) (by decide) (by decide) (by decide) (by decide) (by decide) (by decide)
      (by decide) (by decide) (by decide) (by decide)).1,
    (addi_round_trip addiPair (by decide) 5 2 0x20 7 (by decide) (by decide) (by decide)
      (by decide) (by decide) (by decide) (by decide) (by decide) (by decide) (by decide)
      (by decide) (by decide) (by decide) (by decide)).2.1 (by decide)⟩,
    (addi_round_trip addiMin (by decide) 5 2 0x20 (-2048) (by decide) (by decide)
      (by decide) (by decide) (by decide) (by decide) (by decide) (by decide) (by decide)
      (by decide) (by decide) (by decide) (by decide) (by decide)).2.2 rfl⟩

/-! ### Shift round trip -/

/-- Shift amount and upper immediate bits of an I-type word whose immediate field holds a
number below 32. -/
theorem shamt_of_bits (I k : Nat) (hk : k < 32) (h : Spec.bits I 31 20 = k) :
    field I 20 5 = k ∧ field I 25 7 = 0 := by
  unfold Spec.bits at h
  unfold field
  rw [Nat.shiftRight_eq_div_pow, Nat.shiftRight_eq_div_pow]
  norm_num at h ⊢
  omega

/-- A step on `SLLI`: it writes `x[rs1] << imm[4:0]` reduced to 32 bits. -/
theorem Step_slli (s : State) (hr : Runnable s)
    (hop : getInstruction s &&& 0x7F = I_bits_type) (hf : (DecodeImm_I s).Ffunct = I_slli) :
    Step s = writesReg s (DecodeImm_I s).Frd
      ((getRegister s (DecodeImm_I s).Frs1 <<< field (getInstruction s) 20 5) % W) := by
  apply Step_I_writes s hr hop
  unfold Execute_I_bits
  simp +decide only [hf, (DecodeImm_I_Fimm s).2.2.1, ↓reduceIte]

/-- A step on `SRLI` (funct3 5 with `imm[11:5] = 0`): it writes `x[rs1] >> imm[4:0]`. -/
theorem Step_srli (s : State) (hr : Runnable s)
    (hop : getInstruction s &&& 0x7F = I_bits_type)
    (hf : (DecodeImm_I s).Ffunct = I_srli_srai) (h7 : field (getInstruction s) 25 7 = 0) :
    Step s = writesReg s (DecodeImm_I s).Frd
      (getRegister s (DecodeImm_I s).Frs1 >>> field (getInstruction s) 20 5) := by
  apply Step_I_writes s hr hop
  unfold Execute_I_bits
  simp +decide only [hf, (DecodeImm_I_Fimm s).2.2.1, (DecodeImm_I_Fimm s).2.2.2, h7, ↓reduceIte]

theorem shl_shr_cancel (v k : Nat) (hk : k < 32) (hv : v < 2 ^ (32 - k)) :
    ((v <<< k) % W) >>> k = v := by
  have hlt : v * 2 ^ k < W := by
    have h32 : 2 ^ (32 - k) * 2 ^ k = W := by
      rw [← Nat.pow_add, Nat.sub_add_cancel (by omega)]
      rfl
    calc v * 2 ^ k < 2 ^ (32 - k) * 2 ^ k := Nat.mul_lt_mul_of_pos_right hv (Nat.pow_pos (by decide))
      _ = W := h32
  rw [Nat.shiftLeft_eq, Nat.mod_eq_of_lt hlt, Nat.shiftRight_eq_div_pow,
    Nat.mul_div_cancel _ (Nat.pow_pos (by decide))]

/-- C33.  Shift round trip.  Let `k` be a shift amount in `0..31` and `v` a value whose
top `k` bits are zero (`v < 2^(32-k)`), held by `x[rs]`.  If the instruction at the
program counter is `SLLI rd, rs, k` with rd not register 0, and the instruction the first
step lands on is `SRLI rd, rd, k`, then both steps return normally and leave `v` in
`x[rd]`. -/
theorem slli_srli_round_trip (s : State) (hr : Runnable s) (rd rs k v : Nat)
    (hk : k < 32) (hv32 : v < 2 ^ (32 - k)) (hrd0 : rd ≠ 0)
    (hop : getInstruction s &&& 0x7F = 0x13) (hf : (DecodeImm_I s).Ffunct = 1)
    (hrd : (DecodeImm_I s).Frd = rd) (hrs : (DecodeImm_I s).Frs1 = rs)
    (himm : Spec.bits (getInstruction s) 31 20 = k)
    (hv : getRegister s rs = v)
    (hr2 : Runnable (Step s).state)
    (hop2 : getInstruction (Step s).state &&& 0x7F = 0x13)
    (hf2 : (DecodeImm_I (Step s).state).Ffunct = 5)
    (hrd2 : (DecodeImm_I (Step s).state).Frd = rd)
    (hrs2 : (DecodeImm_I (Step s).state).Frs1 = rd)
    (himm2 : Spec.bits (getInstruction (Step s).state) 31 20 = k) :
    (steps 2 s).fault = none ∧ getRegister (steps 2 s).state rd = v := by
  have hs1 := shamt_of_bits _ k hk himm
  have hs2 := shamt_of_bits _ k hk himm2
  have h1 := Step_slli s hr hop hf
  rw [hrd, hrs, hv, hs1.1] at h1
  have h2 := Step_srli (Step s).state hr2 hop2 hf2 hs2.2
  rw [hrd2, hrs2, hs2.1] at h2
  have hreg : getRegister (Step s).state rd = (v <<< k) % W := by
    rw [h1, getRegister_writesReg, if_pos ⟨rfl, hrd0⟩]
  rw [hreg, shl_shr_cancel v k hk hv32] at h2
  rw [steps_two s (Step s).state (by rw [h1]; rfl), h2]
  refine ⟨rfl, ?_⟩
  rw [getRegister_writesReg, if_pos ⟨rfl, hrd0⟩]

/-- Witness of C33: `SLLI x5, x2, 4 ; SRLI x5, x5, 4` with `x2 = 0x20` leaves `0x20` in
x5. -/
theorem slli_srli_round_trip_witness :
    (steps 2 shiftPair).fault = none ∧ getRegister (steps 2 shiftPair).state 5 = 0x20 :=
  slli_srli_round_trip shiftPair (by decide) 5 2 4 0x20 (by decide) (by decide) (by decide)
    (by decide) (by decide) (by decide) (by decide) (by decide) (by decide) (by decide)
    (by decide) (by decide) (by decide) (by decide) (by decide)

/-! ### Instructions without effect -/

theorem Process_ecall_ebreak (s : State) (hop : getInstruction s &&& 0x7F = ecall_ebreak) :
    Process s = Execute_ecall_ebreak s := by
  unfold Process Decode
  simp [hop]

theorem Process_fence (s : State) (hop : getInstruction s &&& 0x7F = fence) :
    Process s = Execute_fence s := by
  unfold Process Decode
  simp [hop]

/-- A step on opcode `0x73` or `0x0F` returns in the same state with the program counter
advanced. -/
theorem Step_nop (s : State) (hr : Runnable s)
    (hop : getInstruction s &&& 0x7F = ecall_ebreak ∨ getInstruction s &&& 0x7F = fence) :
    Step s = jumpsTo s ((s.FPC + 4) % W) := by
  apply Step_ok s s hr
  rcases hop with hop | hop
  · rw [Process_ecall_ebreak s hop]
    rfl
  · rw [Process_fence s hop]
    rfl

/-- C34.  ECALL, EBREAK and FENCE.  On an instruction word with opcode `0x73` or `0x0F`,
whatever its other bits, the step returns normally, every register reads as before,
every byte of the memory is as before, and the program counter is `(pc + 4) mod 2^32`,
which is `pc + 4` whenever that fits in 32 bits. -/
theorem system_and_fence_have_no_effect (s : State) (hr : Runnable s)
    (hop : getInstruction s &&& 0x7F = 0x73 ∨ getInstruction s &&& 0x7F = 0x0F) :
    Step s = jumpsTo s ((s.FPC + 4) % 2 ^ 32) ∧
    (Step s).fault = none ∧
    (∀ i : Nat, getRegister (Step s).state i = getRegister s i) ∧
    (Step s).state.host = s.host ∧
    (∀ a : Nat, byteAt (Step s).state a = byteAt s a) ∧
    (Step s).state.FPC = (s.FPC + 4) % 2 ^ 32 ∧
    (s.FPC + 4 < 2 ^ 32 → (Step s).state.FPC = s.FPC + 4) := by
  have h := Step_nop s hr hop
  rw [h]
  refine ⟨rfl, rfl, fun _ => rfl, rfl, fun _ => rfl, rfl, ?_⟩
  intro hlt
  exact Nat.mod_eq_of_lt hlt

/-- Witness of C34: the `EBREAK` at address 0 only moves the program counter to 4. -/
theorem system_and_fence_have_no_effect_witness :
    Step systemProg = jumpsTo systemProg 4 :=
  (system_and_fence_have_no_effect systemProg (by decide) (Or.inl (by decide))).1

/-! ### A call and its return -/

/-- One more call of the host loop after a step that returned normally. -/
theorem steps_succ (n : Nat) (s t : State) (h : Step s = .ok t) :
    steps (n + 1) s = steps n t := by
  show (match Step s with
    | .ok s1 => steps n s1
    | .raised e s1 => .raised e s1) = steps n t
  rw [h]

/-- A step on `JALR` with funct3 = 0: `Reg[rd]` is assigned first, and the target is
computed from the registers as they are after that assignment. -/
theorem Step_jalr (s : State) (hr : Runnable s) (hop : getInstruction s &&& 0x7F = jalr)
    (hf : (DecodeImm_I s).Ffunct = 0) :
    Step s = jumpsTo (setRegister s (DecodeImm_I s).Frd ((s.FPC + 4) % W))
      (ofInt ((getRegister (setRegister s (DecodeImm_I s).Frd ((s.FPC + 4) % W))
          (DecodeImm_I s).Frs1 : Int) + Spec.immI (getInstruction s)) &&& 0xFFFFFFFE) := by
  have hI := (DecodeImm_I_Fimm s).2.1
  rw [← immI_eq] at hI
  have hmask : ∀ t : Nat, t < W → (((t &&& 0xFFFFFFFE) + W - 4) % W + 4) % W
      = t &&& 0xFFFFFFFE := by
    intro t ht
    have := @Nat.and_le_left t 0xFFFFFFFE
    unfold W at ht ⊢
    omega
  have hx : Execute_jalr (DecodeImm_I s) s
      = .ok { setRegister s (DecodeImm_I s).Frd ((s.FPC + 4) % W) with
          FPC := ((ofInt (toSigned (getRegister
              (setRegister s (DecodeImm_I s).Frd ((s.FPC + 4) % W)) (DecodeImm_I s).Frs1)
            + toSigned (DecodeImm_I s).Fimm) &&& 0xFFFFFFFE) + W - 4) % W } := by
    unfold Execute_jalr
    simp only [hf, ne_eq, not_true_eq_false, ↓reduceIte]
  rw [Step_ok s _ hr (by rw [Process_jalr s hop, hx])]
  unfold jumpsTo
  dsimp only
  rw [hmask _ (ofInt_lt _), hI, ofInt_toSigned_add_int]

/-- C35, the fourth step.  In the program `JAL x1, 8 ; ADDI x5, x0, 99 ; ADDI x6, x0, 42 ;
JALR x0, x1, 0` started at address 0 with all registers 0, four steps return normally
and leave x5 = 99 and the program counter at 8: the fourth step has executed the
`ADDI x5, x0, 99` the `JALR` returned to. -/
theorem call_return_fourth_step :
    callReturn.FcMemory = 16 ∧ callReturn.FminText = 0 ∧ callReturn.FmaxText = 16 ∧
    callReturn.FPC = 0 ∧ (∀ i : Fin 32, getRegister callReturn i.val = 0) ∧
    (steps 4 callReturn).fault = none ∧
    getRegister (steps 4 callReturn).state 5 = 99 ∧
    (steps 4 callReturn).state.FPC = 8 := by
  decide

/-- C35.  A call and its return.  In every loaded state with at least 16 bytes of
memory, text range `[0, 16)`, `PC = 0`, all registers 0 and the words of
`JAL x1, 8 ; ADDI x5, x0, 99 ; ADDI x6, x0, 42 ; JALR x0, x1, 0` at addresses 0, 4, 8 and
12: three steps return normally and leave x5 = 0, x6 = 42, x1 = 4 and the program counter
at 4, the instruction following the `JAL`; a fourth step executes that instruction and
leaves x5 = 99, x6 = 42, x1 = 4 and the program counter at 8. -/
theorem call_return (s : State) (hp : s.FpMemory ≠ 0) (hc : 16 ≤ s.FcMemory)
    (hmin : s.FminText = 0) (hmax : s.FmaxText = 16) (hpc : s.FPC = 0)
    (hreg : ∀ i : Nat, getRegister s i = 0)
    (h0 : read32 s.host (s.FpMemory + 0) = 0x008000EF)
    (h4 : read32 s.host (s.FpMemory + 4) = 0x06300293)
    (h8 : read32 s.host (s.FpMemory + 8) = 0x02A00313)
    (h12 : read32 s.host (s.FpMemory + 12) = 0x00008067) :
    ((steps 3 s).fault = none ∧
      getRegister (steps 3 s).state 5 = 0 ∧ getRegister (steps 3 s).state 6 = 42 ∧
      getRegister (steps 3 s).state 1 = 4 ∧ (steps 3 s).state.FPC = 4) ∧
    ((steps 4 s).fault = none ∧
      getRegister (steps 4 s).state 5 = 99 ∧ getRegister (steps 4 s).state 6 = 42 ∧
      getRegister (steps 4 s).state 1 = 4 ∧ (steps 4 s).state.FPC = 8) := by
  have hr5 : s.FReg 5 = 0 := by simpa [getRegister] using hreg 5
  -- JAL x1, 8 at address 0
  have hI0 : getInstruction s = 0x008000EF := by
    unfold getInstruction
    rw [hpc, h0]
  have hr0 : Runnable s := ⟨hp, by omega, by omega, by omega⟩
  have e1 : Step s = .ok { s with FReg := fun i => if i = 1 then 4 else s.FReg i, FPC := 8 } := by
    rw [Step_jal s hr0 (by rw [hI0]; decide)]
    have hrd : (DecodeImm_J s).Frd = 1 := by
      show field (getInstruction s) 7 5 = 1
      rw [hI0]
      decide
    have himm : Spec.immJ (getInstruction s) = 8 := by
      rw [hI0]
      decide
    rw [hrd, himm, hpc]
    rfl
  -- ADDI x6, x0, 42 at address 8
  have hr1 : Runnable { s with FReg := fun i => if i = 1 then 4 else s.FReg i, FPC := 8 } :=
    ⟨hp, by show s.FcMemory ≠ 0; omega, by show s.FminText ≤ 8; omega,
      by show 8 < s.FmaxText; omega⟩
  have hI1 : getInstruction { s with FReg := fun i => if i = 1 then 4 else s.FReg i, FPC := 8 }
      = 0x02A00313 := h8
  have e2 : Step { s with FReg := fun i => if i = 1 then 4 else s.FReg i, FPC := 8 }
      = .ok { s with
          FReg := fun i => if i = 6 then 42 else if i = 1 then 4 else s.FReg i, FPC := 12 } := by
    rw [Step_addi _ hr1 (by rw [hI1]; decide)
      (by show field (getInstruction _) 12 3 = 0; rw [hI1]; decide)]
    have hrd : (DecodeImm_I { s with
        FReg := fun i => if i = 1 then 4 else s.FReg i, FPC := 8 }).Frd = 6 := by
      show field (getInstruction _) 7 5 = 6
      rw [hI1]
      decide
    have hrs : (DecodeImm_I { s with
        FReg := fun i => if i = 1 then 4 else s.FReg i, FPC := 8 }).Frs1 = 0 := by
      show field (getInstruction _) 15 5 = 0
      rw [hI1]
      decide
    rw [hrd, hrs, hI1]
    rfl
  -- JALR x0, x1, 0 at address 12
  have hr2 : Runnable { s with
      FReg := fun i => if i = 6 then 42 else if i = 1 then 4 else s.FReg i, FPC := 12 } :=
    ⟨hp, by show s.FcMemory ≠ 0; omega, by show s.FminText ≤ 12; omega,
      by show 12 < s.FmaxText; omega⟩
  have hI2 : getInstruction { s with
      FReg := fun i => if i = 6 then 42 else if i = 1 then 4 else s.FReg i, FPC := 12 }
      = 0x00008067 := h12
  have e3 : Step { s with
        FReg := fun i => if i = 6 then 42 else if i = 1 then 4 else s.FReg i, FPC := 12 }
      = .ok { s with
          FReg := fun i => if i = 6 then 42 else if i = 1 then 4 else s.FReg i, FPC := 4 } := by
    rw [Step_jalr _ hr2 (by rw [hI2]; decide)
      (by show field (getInstruction _) 12 3 = 0; rw [hI2]; decide)]
    have hrd : (DecodeImm_I { s with
        FReg := fun i => if i = 6 then 42 else if i = 1 then 4 else s.FReg i,
        FPC := 12 }).Frd = 0 := by
      show field (getInstruction _) 7 5 = 0
      rw [hI2]
      decide
    have hrs : (DecodeImm_I { s with
        FReg := fun i => if i = 6 then 42 else if i = 1 then 4 else s.FReg i,
        FPC := 12 }).Frs1 = 1 := by
      show field (getInstruction _) 15 5 = 1
      rw [hI2]
      decide
    have hm : ofInt (((4 : Nat) : Int) + Spec.immI 0x00008067) &&& 0xFFFFFFFE = 4 := by
      decide
    rw [hrd, hrs, hI2, setRegister_zero]
    show jumpsTo _ (ofInt (((4 : Nat) : Int) + Spec.immI 0x00008067) &&& 0xFFFFFFFE) = _
    rw [hm]
    rfl
  -- ADDI x5, x0, 99 at address 4
  have hr3 : Runnable { s with
      FReg := fun i => if i = 6 then 42 else if i = 1 then 4 else s.FReg i, FPC := 4 } :=
    ⟨hp, by show s.FcMemory ≠ 0; omega, by show s.FminText ≤ 4; omega,
      by show 4 < s.FmaxText; omega⟩
  have hI3 : getInstruction { s with
      FReg := fun i => if i = 6 then 42 else if i = 1 then 4 else s.FReg i, FPC := 4 }
      = 0x06300293 := h4
  have e4 : Step { s with
        FReg := fun i => if i = 6 then 42 else if i = 1 then 4 else s.FReg i, FPC := 4 }
      = .ok { s with
          FReg := fun i => if i = 5 then 99 else if i = 6 then 42 else if i = 1 then 4
            else s.FReg i,
          FPC := 8 } := by
    rw [Step_addi _ hr3 (by rw [hI3]; decide)
      (by show field (getInstruction _) 12 3 = 0; rw [hI3]; decide)]
    have hrd : (DecodeImm_I { s with
        FReg := fun i => if i = 6 then 42 else if i = 1 then 4 else s.FReg i,
        FPC := 4 }).Frd = 5 := by
      show field (getInstruction _) 7 5 = 5
      rw [hI3]
      decide
    have hrs : (DecodeImm_I { s with
        FReg := fun i => if i = 6 then 42 else if i = 1 then 4 else s.FReg i,
        FPC := 4 }).Frs1 = 0 := by
      show field (getInstruction _) 15 5 = 0
      rw [hI3]
      decide
    rw [hrd, hrs, hI3]
    rfl
  have t3 : steps 3 s = .ok { s with
      FReg := fun i => if i = 6 then 42 else if i = 1 then 4 else s.FReg i, FPC := 4 } := by
    rw [steps_succ 2 s _ e1, steps_succ 1 _ _ e2, steps_succ 0 _ _ e3]
    rfl
  have t4 : steps 4 s = .ok { s with
      FReg := fun i => if i = 5 then 99 else if i = 6 then 42 else if i = 1 then 4
        else s.FReg i,
      FPC := 8 } := by
    rw [steps_succ 3 s _ e1, steps_succ 2 _ _ e2, steps_succ 1 _ _ e3, steps_succ 0 _ _ e4]
    rfl
  rw [t3, t4]
  exact ⟨⟨rfl, hr5, rfl, rfl, rfl⟩, ⟨rfl, rfl, rfl, rfl, rfl⟩⟩

/-- Witness of C35: the program in a memory of 16 bytes. -/
theorem call_return_witness :
    (steps 3 callReturn).fault = none ∧
    getRegister (steps 3 callReturn).state 5 = 0 ∧
    getRegister (steps 3 callReturn).state 6 = 42 ∧
    getRegister (steps 3 callReturn).state 1 = 4 ∧ (steps 3 callReturn).state.FPC = 4 :=
  (call_return callReturn (by decide) (by decide) (by decide) (by decide) (by decide)
    (by intro i; simp [getRegister, callReturn, boot, Reset, setRegister])
    (by decide) (by decide) (by decide) (by decide)).1

/-! ### Alignment of the program counter -/

/-- C36, evaluation of the code.  In the program `ADDI x1, x0, 2 ; JALR x1, x1, 2` the
`JALR` at address 4 is reached with the program counter a multiple of 4, with
rd = rs1 = x1 holding 2 and the I-immediate 2, so that `(x[rs1] + imm) & ~1` is 4, a
multiple of 4.  The step returns normally and leaves the program counter at 10, which is
not a multiple of 4: the target was computed from the link value 8 the step had just
written to x1. -/
theorem jalr_same_register_breaks_alignment :
    (steps 1 jalrAlignProg).fault = none ∧
    (steps 1 jalrAlignProg).state.FPC = 4 ∧
    (steps 1 jalrAlignProg).state.FPC % 4 = 0 ∧
    getInstruction (steps 1 jalrAlignProg).state &&& 0x7F = jalr ∧
    (DecodeImm_I (steps 1 jalrAlignProg).state).Ffunct = 0 ∧
    (DecodeImm_I (steps 1 jalrAlignProg).state).Frd = 1 ∧
    (DecodeImm_I (steps 1 jalrAlignProg).state).Frs1 = 1 ∧
    getRegister (steps 1 jalrAlignProg).state 1 = 2 ∧
    Spec.immI (getInstruction (steps 1 jalrAlignProg).state) = 2 ∧
    (ofInt ((2 : Int) + Spec.immI (getInstruction (steps 1 jalrAlignProg).state))
      &&& 0xFFFFFFFE) % 4 = 0 ∧
    (steps 2 jalrAlignProg).fault = none ∧
    (steps 2 jalrAlignProg).state.FPC = 10 ∧
    (steps 2 jalrAlignProg).state.FPC % 4 ≠ 0 := by
  decide

/-! ### Frame of a successful step -/

/-- A step that returns normally got past the two guards of `RiscV::Step`. -/
theorem Runnable_of_ok (s : State) (h : (Step s).fault = none) : Runnable s := by
  unfold Step RiscV.Step at h
  unfold Runnable
  split_ifs at h with h1 h2
  · cases h
  · cases h
  · refine ⟨?_, ?_, ?_, ?_⟩ <;> omega

/-- A step that returns normally is a normal return of `Process` followed by the
increment of the program counter. -/
theorem Process_of_ok (s : State) (h : (Step s).fault = none) :
    ∃ s1, Process s = .ok s1 ∧ Step s = .ok { s1 with FPC := (s1.FPC + 4) % W } := by
  have hr := Runnable_of_ok s h
  rw [Step_of_runnable s hr] at h ⊢
  cases hp : Process s with
  | ok s1 => exact ⟨s1, rfl, rfl⟩
  | raised e s1 => rw [hp] at h; cases h

/-- A conditional returns a state with the property `P` when each branch does. -/
theorem ok_ite (P : State → Prop) (c : Prop) [Decidable c] (x y : Outcome)
    (hx : ∀ t, x = .ok t → P t) (hy : ∀ t, y = .ok t → P t) :
    ∀ t, (if c then x else y) = .ok t → P t := by
  split <;> assumption

theorem ok_ok (P : State → Prop) (s1 : State) (h : P s1) :
    ∀ t, Outcome.ok s1 = .ok t → P t := by
  intro t ht
  cases ht
  exact h

theorem ok_illegal (P : State → Prop) (s : State) :
    ∀ t, Execute_IllegalFunction s = .ok t → P t := by
  intro t ht
  cases ht

theorem getMemory_ok (s : State) (a p : Nat) (h : getMemory s a = .ok p) :
    p = s.FpMemory + a := by
  unfold getMemory at h
  split_ifs at h
  cases h
  rfl

/-- A memory access that returns does so with the pointer `FpMemory + a`. -/
theorem ok_access (P : State → Prop) (s : State) (a : Nat) (f : Nat → Outcome)
    (hf : ∀ t, f (s.FpMemory + a) = .ok t → P t) :
    ∀ t, (match getMemory s a with
      | .error e => Outcome.raised e s
      | .ok p => f p) = .ok t → P t := by
  cases hg : getMemory s a with
  | error e => intro t ht; cases ht
  | ok p =>
    rw [getMemory_ok s a p hg]
    exact hf

theorem Execute_R_ok (d : Decoded) (s : State) :
    ∀ t, Execute_R d s = .ok t → ∃ v, t = setRegister s d.Frd v := by
  unfold Execute_R
  dsimp only
  repeat first
    | exact ok_ok _ _ ⟨_, rfl⟩
    | exact ok_illegal _ _
    | apply ok_ite (fun t => ∃ v, t = setRegister s d.Frd v)

theorem Execute_I_bits_ok (d : Decoded) (s : State) :
    ∀ t, Execute_I_bits d s = .ok t → ∃ v, t = setRegister s d.Frd v := by
  unfold Execute_I_bits
  dsimp only
  repeat first
    | exact ok_ok _ _ ⟨_, rfl⟩
    | exact ok_illegal _ _
    | apply ok_ite (fun t => ∃ v, t = setRegister s d.Frd v)

theorem Execute_I_load_ok (d : Decoded) (s : State) :
    ∀ t, Execute_I_load d s = .ok t → ∃ v, t = setRegister s d.Frd v := by
  unfold Execute_I_load
  repeat first
    | exact ok_illegal _ _
    | apply ok_ite (fun t => ∃ v, t = setRegister s d.Frd v)
    | exact ok_access _ s _ _ (ok_ok _ _ ⟨_, rfl⟩)

theorem Execute_S_ok (d : Decoded) (s : State) :
    ∀ t, Execute_S d s = .ok t →
      (d.Ffunct = S_sb ∧
        t = { s with host := write8 s.host (s.FpMemory + effAddr d s) (getRegister s d.Frs2) }) ∨
      (d.Ffunct = S_sh ∧
        t = { s with host := write16 s.host (s.FpMemory + effAddr d s) (getRegister s d.Frs2) }) ∨
      (d.Ffunct = S_sw ∧
        t = { s with host := write32 s.host (s.FpMemory + effAddr d s) (getRegister s d.Frs2) }) := by
  intro t h
  unfold Execute_S at h
  split_ifs at h with h0 h1 h2
  · exact Or.inl ⟨h0, ok_access (fun t => t = _) s _ _ (ok_ok (fun t => t = _) _ rfl) t h⟩
  · exact Or.inr (Or.inl ⟨h1, ok_access (fun t => t = _) s _ _ (ok_ok (fun t => t = _) _ rfl) t h⟩)
  · exact Or.inr (Or.inr ⟨h2, ok_access (fun t => t = _) s _ _ (ok_ok (fun t => t = _) _ rfl) t h⟩)
  · cases h

/-- A conditional whose branches may use the condition. -/
theorem ok_ite_cond (P : State → Prop) (c : Prop) [Decidable c] (x y : Outcome)
    (hx : c → ∀ t, x = .ok t → P t) (hy : ¬ c → ∀ t, y = .ok t → P t) :
    ∀ t, (if c then x else y) = .ok t → P t := by
  split
  · exact hx ‹c›
  · exact hy ‹¬ c›

theorem branch_state (d : Decoded) (s : State) (c : Prop) [Decidable c]
    (hc : c → branchTaken d s) :
    (∃ pc, (if c then jumpRel d s else s) = { s with FPC := pc }) ∧
      (¬ branchTaken d s → (if c then jumpRel d s else s) = s) := by
  split
  · exact ⟨⟨_, rfl⟩, fun hn => absurd (hc ‹c›) hn⟩
  · exact ⟨⟨s.FPC, rfl⟩, fun _ => rfl⟩

theorem Execute_B_ok (d : Decoded) (s : State) :
    ∀ t, Execute_B d s = .ok t →
      (∃ pc, t = { s with FPC := pc }) ∧ (¬ branchTaken d s → t = s) := by
  unfold Execute_B
  dsimp only
  apply ok_ite_cond
  · intro hf
    exact ok_ok _ _ (branch_state d s _ (fun hc => Or.inl ⟨hf, hc⟩))
  intro _
  apply ok_ite_cond
  · intro hf
    exact ok_ok _ _ (branch_state d s _ (fun hc => Or.inr (Or.inl ⟨hf, hc⟩)))
  intro _
  apply ok_ite_cond
  · intro hf
    exact ok_ok _ _ (branch_state d s _ (fun hc => Or.inr (Or.inr (Or.inl ⟨hf, hc⟩))))
  intro _
  apply ok_ite_cond
  · intro hf
    exact ok_ok _ _ (branch_state d s _
      (fun hc => Or.inr (Or.inr (Or.inr (Or.inl ⟨hf, hc⟩)))))
  intro _
  apply ok_ite_cond
  · intro hf
    exact ok_ok _ _ (branch_state d s _
      (fun hc => Or.inr (Or.inr (Or.inr (Or.inr (Or.inl ⟨hf, hc⟩))))))
  intro _
  apply ok_ite_cond
  · intro hf
    exact ok_ok _ _ (branch_state d s _
      (fun hc => Or.inr (Or.inr (Or.inr (Or.inr (Or.inr ⟨hf, hc⟩))))))
  intro _
  exact ok_illegal _ _

/-- A word whose low 7 bits are no case label of `Decode` goes to `RiscV::Process`. -/
theorem Process_unknown (s : State)
    (h1 : getInstruction s &&& 0x7F ≠ R_type) (h2 : getInstruction s &&& 0x7F ≠ I_bits_type)
    (h3 : getInstruction s &&& 0x7F ≠ I_load_type) (h4 : getInstruction s &&& 0x7F ≠ S_type)
    (h5 : getInstruction s &&& 0x7F ≠ B_type) (h6 : getInstruction s &&& 0x7F ≠ lui)
    (h7 : getInstruction s &&& 0x7F ≠ auipc) (h8 : getInstruction s &&& 0x7F ≠ jal)
    (h9 : getInstruction s &&& 0x7F ≠ jalr) (h10 : getInstruction s &&& 0x7F ≠ ecall_ebreak)
    (h11 : getInstruction s &&& 0x7F ≠ fence) :
    Process s = RiscV.Process s := by
  unfold Process Decode
  simp only [h1, h2, h3, h4, h5, h6, h7, h8, h9, h10, h11, ↓reduceIte]

/-- Shape of the state a normal return of `Process` leaves, by opcode. -/
theorem Process_ok_cases (s s1 : State) (hp : Process s = .ok s1) :
    ((getInstruction s &&& 0x7F = R_type ∨ getInstruction s &&& 0x7F = I_bits_type ∨
        getInstruction s &&& 0x7F = I_load_type ∨ getInstruction s &&& 0x7F = lui ∨
        getInstruction s &&& 0x7F = auipc) ∧
      ∃ v, s1 = setRegister s (field (getInstruction s) 7 5) v) ∨
    (getInstruction s &&& 0x7F = S_type ∧
      (((DecodeImm_S s).Ffunct = S_sb ∧
        s1 = { s with host := (write8 s.host (s.FpMemory + effAddr (DecodeImm_S s) s)
          (getRegister s (DecodeImm_S s).Frs2)) }) ∨
      ((DecodeImm_S s).Ffunct = S_sh ∧
        s1 = { s with host := (write16 s.host (s.FpMemory + effAddr (DecodeImm_S s) s)
          (getRegister s (DecodeImm_S s).Frs2)) }) ∨
      ((DecodeImm_S s).Ffunct = S_sw ∧
        s1 = { s with host := (write32 s.host (s.FpMemory + effAddr (DecodeImm_S s) s)
          (getRegister s (DecodeImm_S s).Frs2)) }))) ∨
    (getInstruction s &&& 0x7F = B_type ∧
      (∃ pc, s1 = { s with FPC := pc }) ∧ (¬ branchTaken (DecodeImm_B s) s → s1 = s)) ∨
    ((getInstruction s &&& 0x7F = jal ∨ getInstruction s &&& 0x7F = jalr) ∧
      ∃ v pc, s1 = { setRegister s (field (getInstruction s) 7 5) v with FPC := pc }) ∨
    ((getInstruction s &&& 0x7F = ecall_ebreak ∨ getInstruction s &&& 0x7F = fence) ∧
      s1 = s) := by
  by_cases h1 : getInstruction s &&& 0x7F = R_type
  · rw [Process_R s h1] at hp
    exact Or.inl ⟨Or.inl h1, Execute_R_ok _ s s1 hp⟩
  by_cases h2 : getInstruction s &&& 0x7F = I_bits_type
  · rw [Process_I_bits s h2] at hp
    exact Or.inl ⟨Or.inr (Or.inl h2), Execute_I_bits_ok _ s s1 hp⟩
  by_cases h3 : getInstruction s &&& 0x7F = I_load_type
  · rw [Process_load s h3] at hp
    exact Or.inl ⟨Or.inr (Or.inr (Or.inl h3)), Execute_I_load_ok _ s s1 hp⟩
  by_cases h4 : getInstruction s &&& 0x7F = S_type
  · rw [Process_store s h4] at hp
    exact Or.inr (Or.inl ⟨h4, Execute_S_ok _ s s1 hp⟩)
  by_cases h5 : getInstruction s &&& 0x7F = B_type
  · rw [Process_B s h5] at hp
    exact Or.inr (Or.inr (Or.inl ⟨h5, Execute_B_ok _ s s1 hp⟩))
  by_cases h6 : getInstruction s &&& 0x7F = lui
  · rw [Process_lui s h6] at hp
    exact Or.inl ⟨Or.inr (Or.inr (Or.inr (Or.inl h6))),
      ok_ok (fun t => ∃ v, t = setRegister s (field (getInstruction s) 7 5) v) _ ⟨_, rfl⟩ s1 hp⟩
  by_cases h7 : getInstruction s &&& 0x7F = auipc
  · rw [Process_auipc s h7] at hp
    exact Or.inl ⟨Or.inr (Or.inr (Or.inr (Or.inr h7))),
      ok_ok (fun t => ∃ v, t = setRegister s (field (getInstruction s) 7 5) v) _ ⟨_, rfl⟩ s1 hp⟩
  by_cases h8 : getInstruction s &&& 0x7F = jal
  · rw [Process_jal s h8] at hp
    exact Or.inr (Or.inr (Or.inr (Or.inl ⟨Or.inl h8,
      ok_ok (fun t => ∃ v pc, t = { setRegister s (field (getInstruction s) 7 5) v with
        FPC := pc }) _ ⟨_, _, rfl⟩ s1 hp⟩)))
  by_cases h9 : getInstruction s &&& 0x7F = jalr
  · rw [Process_jalr s h9] at hp
    refine Or.inr (Or.inr (Or.inr (Or.inl ⟨Or.inr h9, ?_⟩)))
    unfold Execute_jalr at hp
    split_ifs at hp
    · cases hp
    · exact ok_ok (fun t => ∃ v pc, t = { setRegister s (field (getInstruction s) 7 5) v with
        FPC := pc }) _ ⟨_, _, rfl⟩ s1 hp
  by_cases h10 : getInstruction s &&& 0x7F = ecall_ebreak
  · rw [Process_ecall_ebreak s h10] at hp
    exact Or.inr (Or.inr (Or.inr (Or.inr ⟨Or.inl h10, ok_ok (fun t => t = s) s rfl s1 hp⟩)))
  by_cases h11 : getInstruction s &&& 0x7F = fence
  · rw [Process_fence s h11] at hp
    exact Or.inr (Or.inr (Or.inr (Or.inr ⟨Or.inr h11, ok_ok (fun t => t = s) s rfl s1 hp⟩)))
  rw [Process_unknown s h1 h2 h3 h4 h5 h6 h7 h8 h9 h10 h11] at hp
  cases hp

theorem read8_write8 (h : Nat → Nat) (p v q : Nat) :
    read8 (write8 h p v) q = if q = p then v % 256 else read8 h q := by
  unfold read8 write8
  split <;> simp

/-- Bytes of the host memory after the store of a byte. -/
theorem store8_bytes (h : Nat → Nat) (p v b a : Nat) :
    ((a < b ∨ b + 1 ≤ a) → read8 (write8 h (p + b) v) (p + a) = read8 h (p + a)) ∧
    (∀ k, k < 1 → read8 (write8 h (p + b) v) (p + (b + k)) = v / 256 ^ k % 256) := by
  refine ⟨fun ha => ?_, fun k hk => ?_⟩
  · rw [read8_write8, if_neg (by omega)]
  · obtain rfl : k = 0 := by omega
    rw [read8_write8, if_pos (by omega)]
    norm_num

/-- Bytes of the host memory after the store of a halfword. -/
theorem store16_bytes (h : Nat → Nat) (p v b a : Nat) :
    ((a < b ∨ b + 2 ≤ a) → read8 (write16 h (p + b) v) (p + a) = read8 h (p + a)) ∧
    (∀ k, k < 2 → read8 (write16 h (p + b) v) (p + (b + k)) = v / 256 ^ k % 256) := by
  unfold write16
  refine ⟨fun ha => ?_, fun k hk => ?_⟩
  · rw [read8_write8, if_neg (by omega), read8_write8, if_neg (by omega)]
  · have hk2 : k = 0 ∨ k = 1 := by omega
    rcases hk2 with rfl | rfl
    · rw [read8_write8, if_neg (by omega), read8_write8, if_pos (by omega)]
      norm_num
    · rw [read8_write8, if_pos (by omega)]
      norm_num

/-- Bytes of the host memory after the store of a word. -/
theorem store32_bytes (h : Nat → Nat) (p v b a : Nat) :
    ((a < b ∨ b + 4 ≤ a) → read8 (write32 h (p + b) v) (p + a) = read8 h (p + a)) ∧
    (∀ k, k < 4 → read8 (write32 h (p + b) v) (p + (b + k)) = v / 256 ^ k % 256) := by
  unfold write32
  refine ⟨fun ha => ?_, fun k hk => ?_⟩
  · rw [read8_write8, if_neg (by omega), read8_write8, if_neg (by omega),
      read8_write8, if_neg (by omega), read8_write8, if_neg (by omega)]
  · have hk4 : k = 0 ∨ k = 1 ∨ k = 2 ∨ k = 3 := by omega
    rcases hk4 with rfl | rfl | rfl | rfl
    · rw [read8_write8, if_neg (by omega), read8_write8, if_neg (by omega),
        read8_write8, if_neg (by omega), read8_write8, if_pos (by omega)]
      norm_num
    · rw [read8_write8, if_neg (by omega), read8_write8, if_neg (by omega),
        read8_write8, if_pos (by omega)]
      norm_num
    · rw [read8_write8, if_neg (by omega), read8_write8, if_pos (by omega)]
      norm_num
    · rw [read8_write8, if_pos (by omega)]
      norm_num

/-- C37.  Frame of a successful step.  Let `I` be the instruction word of a step that
returns normally.  Every register other than `I[11:7]`, the `rd` of the instruction,
reads as before, and when the opcode is `0x23` (stores), `0x63` (branches), `0x73`
(ECALL/EBREAK) or `0x0F` (FENCE) every register does.  When the opcode is not `0x23`
every byte of the memory is as before.  When it is `0x23` the instruction is SB, SH or
SW (funct3 0, 1, 2) of width `w` = 1, 2, 4; every byte outside `[ea, ea + w)` is as
before and the byte at `ea + k`, `k < w`, is byte `k` of `x[rs2]` (little-endian), `ea`
being the effective address.  And the program counter is `(pc + 4) mod 2^32` unless the
opcode is `0x6F` (JAL) or `0x67` (JALR), or it is `0x63` and the branch is taken. -/
theorem step_frame (s : State) (hok : (Step s).fault = none) :
    (∀ i : Nat, i ≠ Spec.bits (getInstruction s) 11 7 →
      getRegister (Step s).state i = getRegister s i) ∧
    (Spec.bits (getInstruction s) 6 0 ∈ [0x23, 0x63, 0x73, 0x0F] →
      ∀ i : Nat, getRegister (Step s).state i = getRegister s i) ∧
    (Spec.bits (getInstruction s) 6 0 ≠ 0x23 →
      ∀ a : Nat, byteAt (Step s).state a = byteAt s a) ∧
    (Spec.bits (getInstruction s) 6 0 = 0x23 →
      ∃ w : Nat,
        ((DecodeImm_S s).Ffunct = 0 ∧ w = 1 ∨ (DecodeImm_S s).Ffunct = 1 ∧ w = 2 ∨
          (DecodeImm_S s).Ffunct = 2 ∧ w = 4) ∧
        (∀ a : Nat, a < effAddr (DecodeImm_S s) s ∨ effAddr (DecodeImm_S s) s + w ≤ a →
          byteAt (Step s).state a = byteAt s a) ∧
        (∀ k : Nat, k < w →
          byteAt (Step s).state (effAddr (DecodeImm_S s) s + k)
            = getRegister s (DecodeImm_S s).Frs2 / 256 ^ k % 256)) ∧
    (Spec.bits (getInstruction s) 6 0 ∉ [0x6F, 0x67] →
      ¬ (Spec.bits (getInstruction s) 6 0 = 0x63 ∧ branchTaken (DecodeImm_B s) s) →
      (Step s).state.FPC = (s.FPC + 4) % 2 ^ 32) := by
  obtain ⟨s1, hp, hs⟩ := Process_of_ok s hok
  have hrdb : field (getInstruction s) 7 5 = Spec.bits (getInstruction s) 11 7 :=
    field_eq_bits _ 7 5 (by decide)
  rw [hs, ← low7, ← hrdb]
  simp only [List.mem_cons, List.mem_singleton, List.not_mem_nil, or_false, not_or]
  show (∀ i : Nat, i ≠ field (getInstruction s) 7 5 → getRegister s1 i = getRegister s i) ∧
    (_ → ∀ i : Nat, getRegister s1 i = getRegister s i) ∧
    (_ → ∀ a : Nat, read8 s1.host (s1.FpMemory + a) = read8 s.host (s.FpMemory + a)) ∧
    (_ → ∃ w : Nat, _ ∧
      (∀ a : Nat, _ → read8 s1.host (s1.FpMemory + a) = read8 s.host (s.FpMemory + a)) ∧
      (∀ k : Nat, k < w → read8 s1.host (s1.FpMemory + (effAddr (DecodeImm_S s) s + k)) = _)) ∧
    (_ → _ → (s1.FPC + 4) % W = (s.FPC + 4) % 2 ^ 32)
  rcases Process_ok_cases s s1 hp with ⟨hop, v, rfl⟩ | ⟨hop, hst⟩ | ⟨hop, ⟨pc, rfl⟩, hnt⟩ |
    ⟨hop, v, pc, rfl⟩ | ⟨hop, rfl⟩
  · -- R-type, OP-IMM, loads, LUI, AUIPC: one register written
    have hpc : (setRegister s (field (getInstruction s) 7 5) v).FPC = s.FPC := by
      unfold setRegister
      split <;> rfl
    have hh : (setRegister s (field (getInstruction s) 7 5) v).host = s.host := by
      unfold setRegister
      split <;> rfl
    have hm : (setRegister s (field (getInstruction s) 7 5) v).FpMemory = s.FpMemory := by
      unfold setRegister
      split <;> rfl
    refine ⟨?_, ?_, ?_, ?_, ?_⟩
    · intro i hi
      rw [getRegister_setRegister, if_neg (fun h => hi h.1)]
    · intro h
      rcases hop with h1 | h1 | h1 | h1 | h1 <;> rw [h1] at h <;> exact absurd h (by decide)
    · intro _ a
      rw [hh, hm]
    · intro h
      rcases hop with h1 | h1 | h1 | h1 | h1 <;> rw [h1] at h <;> exact absurd h (by decide)
    · intro _ _
      rw [hpc]
      rfl
  · -- stores
    refine ⟨?_, ?_, ?_, ?_, ?_⟩
    · intro i _
      rcases hst with ⟨_, rfl⟩ | ⟨_, rfl⟩ | ⟨_, rfl⟩ <;> rfl
    · intro _ i
      rcases hst with ⟨_, rfl⟩ | ⟨_, rfl⟩ | ⟨_, rfl⟩ <;> rfl
    · intro h
      exact absurd hop h
    · intro _
      rcases hst with ⟨hf, rfl⟩ | ⟨hf, rfl⟩ | ⟨hf, rfl⟩
      · exact ⟨1, Or.inl ⟨hf, rfl⟩, fun a ha => (store8_bytes _ _ _ _ a).1 ha,
          (store8_bytes _ _ _ _ 0).2⟩
      · exact ⟨2, Or.inr (Or.inl ⟨hf, rfl⟩), fun a ha => (store16_bytes _ _ _ _ a).1 ha,
          (store16_bytes _ _ _ _ 0).2⟩
      · exact ⟨4, Or.inr (Or.inr ⟨hf, rfl⟩), fun a ha => (store32_bytes _ _ _ _ a).1 ha,
          (store32_bytes _ _ _ _ 0).2⟩
    · intro _ _
      rcases hst with ⟨_, rfl⟩ | ⟨_, rfl⟩ | ⟨_, rfl⟩ <;> rfl
  · -- branches
    refine ⟨fun _ _ => rfl, fun _ _ => rfl, fun _ _ => rfl, ?_, ?_⟩
    · intro h
      rw [hop] at h
      exact absurd h (by decide)
    · intro _ h
      have := hnt (fun ht => h ⟨hop, ht⟩)
      rw [this]
      rfl
  · -- JAL, JALR
    refine ⟨?_, ?_, ?_, ?_, ?_⟩
    · intro i hi
      show getRegister (setRegister s (field (getInstruction s) 7 5) v) i = _
      rw [getRegister_setRegister, if_neg (fun h => hi h.1)]
    · intro h
      rcases hop with h1 | h1 <;> rw [h1] at h <;> exact absurd h (by decide)
    · intro _ a
      show read8 (setRegister s (field (getInstruction s) 7 5) v).host
        ((setRegister s (field (getInstruction s) 7 5) v).FpMemory + a) = _
      unfold setRegister
      split <;> rfl
    · intro h
      rcases hop with h1 | h1 <;> rw [h1] at h <;> exact absurd h (by decide)
    · intro h
      rcases hop with h1 | h1 <;> rw [h1] at h <;> exact absurd h (by decide)
  · -- ECALL/EBREAK, FENCE
    refine ⟨fun _ _ => rfl, fun _ _ => rfl, fun _ _ => rfl, ?_, fun _ _ => rfl⟩
    intro h
    rcases hop with h1 | h1 <;> rw [h1] at h <;> exact absurd h (by decide)

/-- Witness of C37: the `SW x2, 0(x1)` of `storeSw` returns normally; it leaves x2 as it
was and advances the program counter by 4. -/
theorem step_frame_witness :
    getRegister (Step storeSw).state 2 = getRegister storeSw 2 ∧
    (Step storeSw).state.FPC = (storeSw.FPC + 4) % 2 ^ 32 :=
  ⟨(step_frame storeSw (by decide)).2.1 (by decide) 2,
    (step_frame storeSw (by decide)).2.2.2.2 (by decide) (by decide)⟩

/-! ### Loading a 32-bit constant -/

/-- A step on `LUI`: it writes the instruction word with its low 12 bits cleared. -/
theorem Step_lui (s : State) (hr : Runnable s) (hop : getInstruction s &&& 0x7F = lui) :
    Step s = writesReg s (DecodeImm_U s).Frd (getInstruction s &&& 0xFFFFF000) := by
  apply Step_writesReg s hr
  rw [Process_lui s hop]
  unfold Execute_lui
  rw [upper_immediate s]

/-- The low part `lo = sign_extend(c[11:0], 12)` of a constant and the pattern of
`c - lo`, which is a multiple of 4096. -/
theorem split_constant (c : Nat) :
    ofInt ((c : Int) - Spec.sign_extend (Spec.bits c 11 0) 12) % 4096 = 0 := by
  have hX : ((ofInt ((c : Int) - Spec.sign_extend (Spec.bits c 11 0) 12) : Nat) : Int)
      = ((c : Int) - Spec.sign_extend (Spec.bits c 11 0) 12) % 4294967296 :=
    Int.toNat_of_nonneg (Int.emod_nonneg _ (by decide))
  have hlo : Spec.sign_extend (Spec.bits c 11 0) 12 = ((c % 4096 : Nat) : Int) ∨
      Spec.sign_extend (Spec.bits c 11 0) 12 = ((c % 4096 : Nat) : Int) - 4096 := by
    have hb : Spec.bits c 11 0 = c % 4096 := by
      unfold Spec.bits
      norm_num
    rw [hb]
    unfold Spec.sign_extend
    by_cases h : c % 4096 < 2 ^ (12 - 1)
    · rw [if_pos h]
      exact Or.inl rfl
    · rw [if_neg h]
      right
      norm_num
  omega

/-- C38.  Loading a constant.  Let `c` be a 32-bit constant, `lo = sign_extend(c[11:0],
12)` and `hi = ((c - lo) mod 2^32) >> 12`.  If the instruction at the program counter is
`LUI rd, hi` with rd not register 0, and the instruction the first step lands on is
`ADDI rd, rd, lo`, then both steps return normally and leave `c` in `x[rd]`. -/
theorem lui_addi_constant (s : State) (hr : Runnable s) (rd c : Nat) (hc : c < 2 ^ 32)
    (hrd0 : rd ≠ 0)
    (hop : getInstruction s &&& 0x7F = 0x37) (hrd : (DecodeImm_U s).Frd = rd)
    (hhi : Spec.bits (getInstruction s) 31 12
      = ofInt ((c : Int) - Spec.sign_extend (Spec.bits c 11 0) 12) >>> 12)
    (hr2 : Runnable (Step s).state)
    (hop2 : getInstruction (Step s).state &&& 0x7F = 0x13)
    (hf2 : (DecodeImm_I (Step s).state).Ffunct = 0)
    (hrd2 : (DecodeImm_I (Step s).state).Frd = rd)
    (hrs2 : (DecodeImm_I (Step s).state).Frs1 = rd)
    (hlo : Spec.immI (getInstruction (Step s).state)
      = Spec.sign_extend (Spec.bits c 11 0) 12) :
    (steps 2 s).fault = none ∧ getRegister (steps 2 s).state rd = c := by
  have hI := getInstruction_lt s
  have hX := split_constant c
  have hXlt := ofInt_lt ((c : Int) - Spec.sign_extend (Spec.bits c 11 0) 12)
  have hval : getInstruction s &&& 0xFFFFF000
      = ofInt ((c : Int) - Spec.sign_extend (Spec.bits c 11 0) 12) := by
    rw [and_upper20 _ hI]
    generalize ofInt ((c : Int) - Spec.sign_extend (Spec.bits c 11 0) 12) = X
      at hhi hX hXlt ⊢
    unfold Spec.bits at hhi
    rw [Nat.shiftRight_eq_div_pow] at hhi
    unfold W at hI hXlt
    norm_num at hhi
    omega
  have h1 := Step_lui s hr hop
  rw [hrd, hval] at h1
  have h2 := Step_addi (Step s).state hr2 hop2 hf2
  rw [hrd2, hrs2, hlo] at h2
  have hreg : getRegister (Step s).state rd
      = ofInt ((c : Int) - Spec.sign_extend (Spec.bits c 11 0) 12) := by
    rw [h1, getRegister_writesReg, if_pos ⟨rfl, hrd0⟩]
  rw [hreg, ofInt_ofInt_add] at h2
  rw [steps_two s (Step s).state (by rw [h1]; rfl), h2]
  refine ⟨rfl, ?_⟩
  rw [getRegister_writesReg, if_pos ⟨rfl, hrd0⟩]
  have : (c : Int) - Spec.sign_extend (Spec.bits c 11 0) 12
      + Spec.sign_extend (Spec.bits c 11 0) 12 = (c : Int) := by omega
  rw [this, ofInt_natCast]
  exact Nat.mod_eq_of_lt hc

/-- Witness of C38: for `c = 0x12345678` the parts are `hi = 0x12345` and `lo = 0x678`,
and `LUI x1, 0x12345 ; ADDI x1, x1, 0x678` leaves `0x12345678` in x1. -/
theorem lui_addi_constant_witness :
    (ofInt ((0x12345678 : Nat) - Spec.sign_extend (Spec.bits 0x12345678 11 0) 12) >>> 12
        = 0x12345 ∧
      Spec.sign_extend (Spec.bits 0x12345678 11 0) 12 = 0x678) ∧
    (steps 2 luiAddi).fault = none ∧ getRegister (steps 2 luiAddi).state 1 = 0x12345678 :=
  ⟨by decide, lui_addi_constant luiAddi (by decide) 1 0x12345678 (by decide) (by decide)
    (by decide) (by decide) (by decide) (by decide) (by decide) (by decide) (by decide)
    (by decide) (by decide)⟩

/-! ### Failing steps -/

/-- A conditional leaves the state `s` when it throws if each branch does. -/
theorem raised_ite (s : State) (c : Prop) [Decidable c] (x y : Outcome)
    (hx : ∀ e t, x = .raised e t → t = s) (hy : ∀ e t, y = .raised e t → t = s) :
    ∀ e t, (if c then x else y) = .raised e t → t = s := by
  split <;> assumption

theorem raised_ok (s s1 : State) : ∀ e t, Outcome.ok s1 = .raised e t → t = s := by
  intro e t ht
  cases ht

theorem raised_illegal (s : State) :
    ∀ e t, Execute_IllegalFunction s = .raised e t → t = s := by
  intro e t ht
  cases ht
  rfl

/-- A memory access that throws does so before anything is written. -/
theorem raised_access (s : State) (a : Nat) (f : Nat → Outcome)
    (hf : ∀ p e t, f p = .raised e t → t = s) :
    ∀ e t, (match getMemory s a with
      | .error e => Outcome.raised e s
      | .ok p => f p) = .raised e t → t = s := by
  cases getMemory s a with
  | error e1 =>
    intro e t ht
    cases ht
    rfl
  | ok p => exact hf p

theorem Execute_R_raised (d : Decoded) (s : State) :
    ∀ e t, Execute_R d s = .raised e t → t = s := by
  unfold Execute_R
  dsimp only
  repeat first
    | exact raised_ok _ _
    | exact raised_illegal _
    | apply raised_ite

theorem Execute_I_bits_raised (d : Decoded) (s : State) :
    ∀ e t, Execute_I_bits d s = .raised e t → t = s := by
  unfold Execute_I_bits
  dsimp only
  repeat first
    | exact raised_ok _ _
    | exact raised_illegal _
    | apply raised_ite

theorem Execute_I_load_raised (d : Decoded) (s : State) :
    ∀ e t, Execute_I_load d s = .raised e t → t = s := by
  unfold Execute_I_load
  repeat first
    | exact raised_illegal _
    | apply raised_ite
    | exact raised_access s _ _ (fun _ => raised_ok _ _)

theorem Execute_S_raised (d : Decoded) (s : State) :
    ∀ e t, Execute_S d s = .raised e t → t = s := by
  unfold Execute_S
  repeat first
    | exact raised_illegal _
    | apply raised_ite
    | exact raised_access s _ _ (fun _ => raised_ok _ _)

theorem Execute_B_raised (d : Decoded) (s : State) :
    ∀ e t, Execute_B d s = .raised e t → t = s := by
  unfold Execute_B
  dsimp only
  repeat first
    | exact raised_ok _ _
    | exact raised_illegal _
    | apply raised_ite

theorem Execute_jalr_raised (d : Decoded) (s : State) :
    ∀ e t, Execute_jalr d s = .raised e t → t = s := by
  unfold Execute_jalr
  dsimp only
  repeat first
    | exact raised_ok _ _
    | exact raised_illegal _
    | apply raised_ite

/-- Whenever `Process` throws, the object is in the state it was called in. -/
theorem Process_raised (s : State) : ∀ e t, Process s = .raised e t → t = s := by
  by_cases h1 : getInstruction s &&& 0x7F = R_type
  · rw [Process_R s h1]
    exact Execute_R_raised _ s
  by_cases h2 : getInstruction s &&& 0x7F = I_bits_type
  · rw [Process_I_bits s h2]
    exact Execute_I_bits_raised _ s
  by_cases h3 : getInstruction s &&& 0x7F = I_load_type
  · rw [Process_load s h3]
    exact Execute_I_load_raised _ s
  by_cases h4 : getInstruction s &&& 0x7F = S_type
  · rw [Process_store s h4]
    exact Execute_S_raised _ s
  by_cases h5 : getInstruction s &&& 0x7F = B_type
  · rw [Process_B s h5]
    exact Execute_B_raised _ s
  by_cases h6 : getInstruction s &&& 0x7F = lui
  · rw [Process_lui s h6]
    exact raised_ok _ _
  by_cases h7 : getInstruction s &&& 0x7F = auipc
  · rw [Process_auipc s h7]
    exact raised_ok _ _
  by_cases h8 : getInstruction s &&& 0x7F = jal
  · rw [Process_jal s h8]
    exact raised_ok _ _
  by_cases h9 : getInstruction s &&& 0x7F = jalr
  · rw [Process_jalr s h9]
    exact Execute_jalr_raised _ s
  by_cases h10 : getInstruction s &&& 0x7F = ecall_ebreak
  · rw [Process_ecall_ebreak s h10]
    exact raised_ok _ _
  by_cases h11 : getInstruction s &&& 0x7F = fence
  · rw [Process_fence s h11]
    exact raised_ok _ _
  rw [Process_unknown s h1 h2 h3 h4 h5 h6 h7 h8 h9 h10 h11]
  intro e t ht
  cases ht
  rfl

/-- Whenever `Step` throws, the object is in the state it was called in. -/
theorem Step_raised_state (s : State) : ∀ e t, Step s = .raised e t → t = s := by
  unfold Step RiscV.Step
  split_ifs
  · intro e t ht
    cases ht
    rfl
  · intro e t ht
    cases ht
    rfl
  · cases hp : Process s with
    | ok s1 =>
      intro e t ht
      cases ht
    | raised e1 s1 =>
      intro e t ht
      cases ht
      exact Process_raised s _ _ hp

/-- C39.  Failing steps are atomic.  In every state of the CPU, if the step throws,
whatever the exception (NotLoaded, SegmentationFault, TextSegmentWrite, IllegalOpcode or
IllegalFunction), the object is left exactly in the state of before the call: the
program counter, each of the registers and every byte of the memory are as they were. -/
theorem failing_step_is_atomic (s : State) (h : (Step s).fault ≠ none) :
    (Step s).state = s ∧
    (Step s).state.FPC = s.FPC ∧
    (∀ i : Nat, getRegister (Step s).state i = getRegister s i) ∧
    (∀ a : Nat, byteAt (Step s).state a = byteAt s a) := by
  have hs : (Step s).state = s := by
    cases hst : Step s with
    | ok s1 => rw [hst] at h; exact absurd rfl h
    | raised e t => exact Step_raised_state s e t hst
  refine ⟨hs, ?_, ?_, ?_⟩
  · rw [hs]
  · intro i
    rw [hs]
  · intro a
    rw [hs]

/-- Witness of C39: the `LW x5, 4(x0)` of `lwFromText`, a load from the text range,
throws and leaves the program counter where it was. -/
theorem failing_step_is_atomic_witness :
    (Step lwFromText).fault ≠ none ∧ (Step lwFromText).state.FPC = lwFromText.FPC :=
  ⟨by decide, (failing_step_is_atomic lwFromText (by decide)).2.1⟩

end RiscV_RV32I

namespace Ball

/-- C40, evaluation of the code.  The constants are `Q = 44488` and `R = 3399`.  For the
generator state `s = 44488`, which lies in `[1, 0x7FFFFFFE]`, `LcgRandom` stores and
returns `4294963897`, the 32-bit wrap of `0 - 3399`; this is above `0x7FFFFFFE`, whereas
`(48271 * 44488) mod (2^31 - 1)` is `2147480248`.  The test `result < 0` on the unsigned
difference never holds, so `M` is never added. -/
theorem LcgRandom_wraps_below_zero :
    Q = 44488 ∧ R = 3399 ∧
    1 ≤ 44488 ∧ 44488 ≤ 0x7FFFFFFE ∧
    LcgRandom 44488 = (4294963897, 4294963897) ∧
    (48271 * 44488) % (2 ^ 31 - 1) = 2147480248 ∧
    ¬ ((LcgRandom 44488).2 ≤ 0x7FFFFFFE) := by
  decide

end Ball
